import Mathlib

/-!
The myRISC32 assembler: a shallow embedding of `main.cpp` and its verified properties.

The assembler reads RV32I assembly text line by line, builds a symbol table in a
first pass and encodes one 32-bit word per instruction line in a second pass.

Modelling conventions

* `std::string` is a list of characters (`Str`); `npos` is `none`.
* `uint32_t` values are natural numbers kept below `2^32` by an explicit
  reduction wherever the C++ operation can leave that range; `int` values are
  integers, and the conversions between the two are `toU32` and `toI32`.
* `std::unordered_map` is an association list searched from the front; all
  catalog keys are distinct, and an assignment to the symbol table puts the new
  binding in front of the older ones.
* C++ exceptions are the error side of `Except AsmError`.
-/

namespace MyRISC32

/-- A `std::string`. -/
abbrev Str := List Char

/-! ## Data model -/

/-- The `enum class InstructionFormat`. -/
inductive InstructionFormat where
  | R_TYPE
  | I_TYPE
  | S_TYPE
  | B_TYPE
  | U_TYPE
  | J_TYPE
deriving DecidableEq, Repr

/-- The `struct Instruction`; the three numeric fields are `uint32_t`. -/
structure Instruction where
  name : Str
  format : InstructionFormat
  opcode : Nat
  funct3 : Nat
  funct7 : Nat
deriving DecidableEq, Repr

/-- Which operand-count message a `std::runtime_error` carries. -/
inductive OperandRule where
  | rType
  | load
  | jalr
  | iType
  | sType
  | bType
  | uType
  | jType
deriving DecidableEq, Repr

/-- The exceptions that can leave `assembleInstruction`: the `std::runtime_error`
messages thrown by the assembler itself, with the text they quote, and the two
exceptions of `std::stoi`. -/
inductive AsmError where
  | invalidInstructionFormat (instructionStr : Str)
  | unknownInstruction (opcode : Str)
  | operandCount (rule : OperandRule) (instructionStr : Str)
  | unknownRegister (name : Str)
  | unknownSymbol (name : Str)
  | invalidMemoryOperand (operand : Str)
  | stoiInvalidArgument
  | stoiOutOfRange
deriving DecidableEq, Repr

/-- The symbol table `std::unordered_map<std::string, uint32_t>`. -/
abbrev SymbolTable := List (Str × Nat)

/-! ## Machine integers -/

/-- The conversion `static_cast<uint32_t>(i)` of an `int`. -/
def toU32 (i : Int) : Nat := (i % 4294967296).toNat

/-- The conversion of a `uint32_t` to `int` (two's complement). -/
def toI32 (n : Nat) : Int :=
  if n % 4294967296 < 2147483648 then ((n % 4294967296 : Nat) : Int)
  else ((n % 4294967296 : Nat) : Int) - 4294967296

/-- The shift `x << n` on `uint32_t`. -/
def shl32 (x n : Nat) : Nat := (x <<< n) % 4294967296

/-- The subtraction `a - b` on `uint32_t`. -/
def sub32 (a b : Nat) : Nat := (a % 4294967296 + (4294967296 - b % 4294967296)) % 4294967296

/-- The increment `a + b` on `uint32_t`. -/
def add32 (a b : Nat) : Nat := (a + b) % 4294967296

/-! ## String helpers -/

/-- The characters of the set `" \t\n\r"` used by `trim`. -/
def isTrimChar (c : Char) : Bool := c == ' ' || c == '\t' || c == '\n' || c == '\r'

/-- The function `trim`: drop the characters of `" \t\n\r"` from both ends. -/
def trim (str : Str) : Str :=
  ((str.dropWhile isTrimChar).reverse.dropWhile isTrimChar).reverse

/-- The call `str.find(c)`: index of the first occurrence, `none` for `npos`. -/
def find (c : Char) : Str → Option Nat
  | [] => none
  | d :: ds => if d = c then some 0 else (find c ds).map (· + 1)

/-- The C function `isdigit` on ASCII. -/
def isdigit (c : Char) : Bool := decide (48 ≤ c.toNat) && decide (c.toNat ≤ 57)

/-- The C function `isxdigit` on ASCII. -/
def isxdigit (c : Char) : Bool :=
  isdigit c || (decide (97 ≤ c.toNat) && decide (c.toNat ≤ 102))
    || (decide (65 ≤ c.toNat) && decide (c.toNat ≤ 70))

/-- The C function `isspace` on ASCII, used by `std::stoi` to skip leading blanks. -/
def isspace (c : Char) : Bool :=
  c == ' ' || (decide (9 ≤ c.toNat) && decide (c.toNat ≤ 13))

/-- The C function `tolower` on ASCII. -/
def tolower (c : Char) : Char :=
  if 65 ≤ c.toNat ∧ c.toNat ≤ 90 then Char.ofNat (c.toNat + 32) else c

/-- The test `str.size() > 2 && str[0] == '0' && (str[1] == 'x' || str[1] == 'X')`
shared by `isNumber` and `parseNumber`. -/
def hasHexMarker : Str → Bool
  | c0 :: c1 :: _ :: _ => c0 == '0' && (c1 == 'x' || c1 == 'X')
  | _ => false

/-- The function `isNumber`. -/
def isNumber (str : Str) : Bool :=
  if str.isEmpty then false
  else if hasHexMarker str then (str.drop 2).all isxdigit
  else
    let start := if str.head? = some '-' ∨ str.head? = some '+' then 1 else 0
    (str.drop start).all isdigit

/-- Value of a digit character in bases up to 16 (`none` if it is no digit). -/
def digitValue (c : Char) : Option Nat :=
  if isdigit c then some (c.toNat - 48)
  else if 97 ≤ c.toNat ∧ c.toNat ≤ 102 then some (c.toNat - 87)
  else if 65 ≤ c.toNat ∧ c.toNat ≤ 70 then some (c.toNat - 55)
  else none

/-- Whether `c` is a digit of the given base (10 or 16). -/
def isDigitOf (base : Nat) (c : Char) : Bool :=
  match digitValue c with
  | some v => decide (v < base)
  | none => false

/-- The library call `std::stoi(str, nullptr, base)` for base 10 or 16: skip
leading white space, read an optional sign, for base 16 an optional `0x`/`0X`
that is followed by a hexadecimal digit, then the longest run of digits.  No
digit at all is `std::invalid_argument`; a value that does not fit `int` is
`std::out_of_range`. -/
def stoi (str : Str) (base : Nat) : Except AsmError Int :=
  let s1 := str.dropWhile isspace
  let negative := s1.head? == some '-'
  let s2 := if s1.head? == some '-' || s1.head? == some '+' then s1.drop 1 else s1
  let s3 :=
    match s2 with
    | c0 :: c1 :: c2 :: rest =>
      if base == 16 && c0 == '0' && (c1 == 'x' || c1 == 'X') && isDigitOf 16 c2
      then c2 :: rest else s2
    | _ => s2
  let digits := s3.takeWhile (isDigitOf base)
  if digits.isEmpty then .error .stoiInvalidArgument
  else
    let magnitude : Nat := digits.foldl (fun acc c => acc * base + (digitValue c).getD 0) 0
    let value : Int := if negative then -(magnitude : Int) else (magnitude : Int)
    if value < -2147483648 ∨ 2147483647 < value then .error .stoiOutOfRange
    else .ok value

/-- The function `parseNumber`. -/
def parseNumber (str : Str) : Except AsmError Int :=
  if hasHexMarker str then stoi str 16 else stoi str 10

/-- The loop `while (std::getline(stream, token, delim))`: the tokens it yields.
`acc` holds the characters of the current token, last one first.  A token is
delivered at every delimiter and at the end of the text when at least one
character was read after the last delimiter. -/
def getlineTokens (delim : Char) : Str → Str → List Str
  | [], acc => if acc.isEmpty then [] else [acc.reverse]
  | c :: cs, acc =>
    if c = delim then acc.reverse :: getlineTokens delim cs []
    else getlineTokens delim cs (c :: acc)

/-- The function `split`. -/
def split (str : Str) (delim : Char) : List Str :=
  (getlineTokens delim str []).map trim

/-- The function `parseOperands`. -/
def parseOperands (operandsStr : Str) : List Str :=
  (getlineTokens ',' operandsStr []).map trim

/-! ## Catalogs -/

/-- One assignment `instructions[name] = {name, format, opcode, funct3, funct7}`. -/
def entry (name : String) (format : InstructionFormat) (opcode funct3 funct7 : Nat) :
    Str × Instruction :=
  (name.toList, { name := name.toList, format := format, opcode := opcode,
                  funct3 := funct3, funct7 := funct7 })

/-- The function `createInstructionMap`. -/
def createInstructionMap : List (Str × Instruction) :=
  [ entry "add" .R_TYPE 0b0110011 0b000 0b0000000,
    entry "sub" .R_TYPE 0b0110011 0b000 0b0100000,
    entry "sll" .R_TYPE 0b0110011 0b001 0b0000000,
    entry "slt" .R_TYPE 0b0110011 0b010 0b0000000,
    entry "sltu" .R_TYPE 0b0110011 0b011 0b0000000,
    entry "xor" .R_TYPE 0b0110011 0b100 0b0000000,
    entry "srl" .R_TYPE 0b0110011 0b101 0b0000000,
    entry "sra" .R_TYPE 0b0110011 0b101 0b0100000,
    entry "or" .R_TYPE 0b0110011 0b110 0b0000000,
    entry "and" .R_TYPE 0b0110011 0b111 0b0000000,
    entry "addi" .I_TYPE 0b0010011 0b000 0,
    entry "slti" .I_TYPE 0b0010011 0b010 0,
    entry "sltiu" .I_TYPE 0b0010011 0b011 0,
    entry "xori" .I_TYPE 0b0010011 0b100 0,
    entry "ori" .I_TYPE 0b0010011 0b110 0,
    entry "andi" .I_TYPE 0b0010011 0b111 0,
    entry "slli" .I_TYPE 0b0010011 0b001 0,
    entry "srli" .I_TYPE 0b0010011 0b101 0,
    entry "srai" .I_TYPE 0b0010011 0b101 0b0100000,
    entry "lb" .I_TYPE 0b0000011 0b000 0,
    entry "lh" .I_TYPE 0b0000011 0b001 0,
    entry "lw" .I_TYPE 0b0000011 0b010 0,
    entry "lbu" .I_TYPE 0b0000011 0b100 0,
    entry "lhu" .I_TYPE 0b0000011 0b101 0,
    entry "sb" .S_TYPE 0b0100011 0b000 0,
    entry "sh" .S_TYPE 0b0100011 0b001 0,
    entry "sw" .S_TYPE 0b0100011 0b010 0,
    entry "beq" .B_TYPE 0b1100011 0b000 0,
    entry "bne" .B_TYPE 0b1100011 0b001 0,
    entry "blt" .B_TYPE 0b1100011 0b100 0,
    entry "bge" .B_TYPE 0b1100011 0b101 0,
    entry "bltu" .B_TYPE 0b1100011 0b110 0,
    entry "bgeu" .B_TYPE 0b1100011 0b111 0,
    entry "lui" .U_TYPE 0b0110111 0 0,
    entry "auipc" .U_TYPE 0b0010111 0 0,
    entry "jal" .J_TYPE 0b1101111 0 0,
    entry "jalr" .I_TYPE 0b1100111 0b000 0 ]

/-- The library call `std::to_string(i)` for a non-negative `i`. -/
def to_string (i : Nat) : Str := Nat.toDigits 10 i

/-- The function `createRegisterMap`: the ABI names, then `x0` .. `x31`. -/
def createRegisterMap : List (Str × Int) :=
  [ ("zero".toList, 0), ("ra".toList, 1), ("sp".toList, 2), ("gp".toList, 3),
    ("tp".toList, 4), ("t0".toList, 5), ("t1".toList, 6), ("t2".toList, 7),
    ("s0".toList, 8), ("fp".toList, 8), ("s1".toList, 9), ("a0".toList, 10),
    ("a1".toList, 11), ("a2".toList, 12), ("a3".toList, 13), ("a4".toList, 14),
    ("a5".toList, 15), ("a6".toList, 16), ("a7".toList, 17), ("s2".toList, 18),
    ("s3".toList, 19), ("s4".toList, 20), ("s5".toList, 21), ("s6".toList, 22),
    ("s7".toList, 23), ("s8".toList, 24), ("s9".toList, 25), ("s10".toList, 26),
    ("s11".toList, 27), ("t3".toList, 28), ("t4".toList, 29), ("t5".toList, 30),
    ("t6".toList, 31) ]
  ++ (List.range 32).map (fun i => ('x' :: to_string i, (i : Int)))

/-! ## Format encoders -/

/-- The function `encodeRType`. -/
def encodeRType (instr : Instruction) (rd rs1 rs2 : Int) : Nat :=
  let machineCode := 0
  let machineCode := machineCode ||| instr.opcode
  let machineCode := machineCode ||| shl32 (toU32 rd) 7
  let machineCode := machineCode ||| shl32 instr.funct3 12
  let machineCode := machineCode ||| shl32 (toU32 rs1) 15
  let machineCode := machineCode ||| shl32 (toU32 rs2) 20
  let machineCode := machineCode ||| shl32 instr.funct7 25
  machineCode

/-- The function `encodeIType`. -/
def encodeIType (instr : Instruction) (rd rs1 imm : Int) : Nat :=
  let machineCode := 0
  let machineCode := machineCode ||| instr.opcode
  let machineCode := machineCode ||| shl32 (toU32 rd) 7
  let machineCode := machineCode ||| shl32 instr.funct3 12
  let machineCode := machineCode ||| shl32 (toU32 rs1) 15
  let machineCode := machineCode ||| shl32 (toU32 imm &&& 0xFFF) 20
  machineCode

/-- The function `encodeSType`. -/
def encodeSType (instr : Instruction) (rs1 rs2 imm : Int) : Nat :=
  let machineCode := 0
  let machineCode := machineCode ||| instr.opcode
  let machineCode := machineCode ||| shl32 (toU32 imm &&& 0x1F) 7
  let machineCode := machineCode ||| shl32 instr.funct3 12
  let machineCode := machineCode ||| shl32 (toU32 rs1) 15
  let machineCode := machineCode ||| shl32 (toU32 rs2) 20
  let machineCode := machineCode ||| shl32 (toU32 imm &&& 0xFE0) (25 - 5)
  machineCode

/-- The function `encodeBType`. -/
def encodeBType (instr : Instruction) (rs1 rs2 imm : Int) : Nat :=
  let machineCode := 0
  let machineCode := machineCode ||| instr.opcode
  let machineCode := machineCode ||| ((toU32 imm &&& 0x800) >>> (11 - 7))
  let machineCode := machineCode ||| shl32 (toU32 imm &&& 0x1E) (8 - 1)
  let machineCode := machineCode ||| shl32 instr.funct3 12
  let machineCode := machineCode ||| shl32 (toU32 rs1) 15
  let machineCode := machineCode ||| shl32 (toU32 rs2) 20
  let machineCode := machineCode ||| shl32 (toU32 imm &&& 0x7E0) (25 - 5)
  let machineCode := machineCode ||| shl32 (toU32 imm &&& 0x1000) (31 - 12)
  machineCode

/-- The function `encodeUType`. -/
def encodeUType (instr : Instruction) (rd imm : Int) : Nat :=
  let machineCode := 0
  let machineCode := machineCode ||| instr.opcode
  let machineCode := machineCode ||| shl32 (toU32 rd) 7
  let machineCode := machineCode ||| (toU32 imm &&& 0xFFFFF000)
  machineCode

/-- The function `encodeJType`. -/
def encodeJType (instr : Instruction) (rd imm : Int) : Nat :=
  let machineCode := 0
  let machineCode := machineCode ||| instr.opcode
  let machineCode := machineCode ||| shl32 (toU32 rd) 7
  let machineCode := machineCode ||| shl32 (toU32 imm &&& 0xFF000) (12 - 12)
  let machineCode := machineCode ||| shl32 (toU32 imm &&& 0x800) (20 - 11)
  let machineCode := machineCode ||| shl32 (toU32 imm &&& 0x7FE) (21 - 1)
  let machineCode := machineCode ||| shl32 (toU32 imm &&& 0x100000) (31 - 20)
  machineCode

/-! ## Operand resolution and dispatch -/

/-- The pattern `registers.find(name)` followed by
`throw std::runtime_error("Unknown register: " + name)` when absent. -/
def findRegister (registers : List (Str × Int)) (name : Str) : Except AsmError Int :=
  match registers.lookup name with
  | some number => .ok number
  | none => .error (.unknownRegister name)

/-- The function `parseMemoryOperand`.  The count of the second `substr` is
computed in `size_t` (64 bits): with `)` before `(` it wraps around and the
substring runs to the end of the operand. -/
def parseMemoryOperand (operand : Str) (registers : List (Str × Int)) :
    Except AsmError (Int × Int) :=
  match find '(' operand, find ')' operand with
  | some openParen, some closeParen =>
    let offsetStr := trim (operand.take openParen)
    let count := (closeParen + 18446744073709551616 - openParen - 1) % 18446744073709551616
    let regStr := trim ((operand.drop (openParen + 1)).take count)
    let offsetStep : Except AsmError Int :=
      if isNumber offsetStr then parseNumber offsetStr else .ok 0
    match offsetStep with
    | .error e => .error e
    | .ok offset =>
      match registers.lookup regStr with
      | none => .error (.unknownRegister regStr)
      | some number => .ok (offset, number)
  | _, _ => .error (.invalidMemoryOperand operand)

/-- The block that resolves an immediate-or-symbol operand to an absolute
value: `isNumber` then `parseNumber`, else the symbol's address converted to
`int` (register-immediate instructions, `jalr`, `lui`, `auipc`). -/
def resolveAbsolute (symbolTable : SymbolTable) (operand : Str) : Except AsmError Int :=
  if isNumber operand then parseNumber operand
  else
    match symbolTable.lookup operand with
    | none => .error (.unknownSymbol operand)
    | some address => .ok (toI32 address)

/-- The block that resolves a branch or `jal` target: `isNumber` then
`parseNumber`, else `symbolIt->second - currentAddress` converted to `int`. -/
def resolveRelative (symbolTable : SymbolTable) (operand : Str) (currentAddress : Nat) :
    Except AsmError Int :=
  if isNumber operand then parseNumber operand
  else
    match symbolTable.lookup operand with
    | none => .error (.unknownSymbol operand)
    | some address => .ok (toI32 (sub32 address currentAddress))

/-- The test `opcode == "lb" || ... || opcode == "lhu"`. -/
def isLoadName (opcode : Str) : Bool :=
  opcode == "lb".toList || opcode == "lh".toList || opcode == "lw".toList
    || opcode == "lbu".toList || opcode == "lhu".toList

/-- The `switch (instr.format)` of `assembleInstruction`. -/
def encodeOperands (instr : Instruction) (opcode : Str) (operands : List Str)
    (instructionStr : Str) (registers : List (Str × Int)) (symbolTable : SymbolTable)
    (currentAddress : Nat) : Except AsmError Nat :=
  match instr.format with
  | .R_TYPE =>
    match operands with
    | [o0, o1, o2] => do
      let rd ← findRegister registers o0
      let rs1 ← findRegister registers o1
      let rs2 ← findRegister registers o2
      pure (encodeRType instr rd rs1 rs2)
    | _ => .error (.operandCount .rType instructionStr)
  | .I_TYPE =>
    if isLoadName opcode then
      match operands with
      | [o0, o1] => do
        let rd ← findRegister registers o0
        let (offset, rs1) ← parseMemoryOperand o1 registers
        pure (encodeIType instr rd rs1 offset)
      | _ => .error (.operandCount .load instructionStr)
    else if opcode == "jalr".toList then
      match operands with
      | [o0, o1, o2] => do
        let rd ← findRegister registers o0
        let rs1 ← findRegister registers o1
        let imm ← resolveAbsolute symbolTable o2
        pure (encodeIType instr rd rs1 imm)
      | [o0, o1] => do
        let rs1 ← findRegister registers o0
        let imm ← resolveAbsolute symbolTable o1
        pure (encodeIType instr 1 rs1 imm)
      | _ => .error (.operandCount .jalr instructionStr)
    else
      match operands with
      | [o0, o1, o2] => do
        let rd ← findRegister registers o0
        let rs1 ← findRegister registers o1
        let imm ← resolveAbsolute symbolTable o2
        pure (encodeIType instr rd rs1 imm)
      | _ => .error (.operandCount .iType instructionStr)
  | .S_TYPE =>
    match operands with
    | [o0, o1] => do
      let rs2 ← findRegister registers o0
      let (offset, rs1) ← parseMemoryOperand o1 registers
      pure (encodeSType instr rs1 rs2 offset)
    | _ => .error (.operandCount .sType instructionStr)
  | .B_TYPE =>
    match operands with
    | [o0, o1, o2] => do
      let rs1 ← findRegister registers o0
      let rs2 ← findRegister registers o1
      let imm ← resolveRelative symbolTable o2 currentAddress
      pure (encodeBType instr rs1 rs2 imm)
    | _ => .error (.operandCount .bType instructionStr)
  | .U_TYPE =>
    match operands with
    | [o0, o1] => do
      let rd ← findRegister registers o0
      let imm ← resolveAbsolute symbolTable o1
      pure (encodeUType instr rd imm)
    | _ => .error (.operandCount .uType instructionStr)
  | .J_TYPE =>
    match operands with
    | [o0, o1] => do
      let rd ← findRegister registers o0
      let imm ← resolveRelative symbolTable o1 currentAddress
      pure (encodeJType instr rd imm)
    | [o0] => do
      let imm ← resolveRelative symbolTable o0 currentAddress
      pure (encodeJType instr 1 imm)
    | _ => .error (.operandCount .jType instructionStr)

/-- The opening statements of `assembleInstruction`: cut the text at the first
space into the lower-cased mnemonic `opcode` and the operand list `operands`;
`none` when there is no space (the "Invalid instruction format" exception). -/
def splitInstruction (instructionStr : Str) : Option (Str × List Str) :=
  match find ' ' instructionStr with
  | none => none
  | some spacePos =>
    let opcode := (trim (instructionStr.take spacePos)).map tolower
    let operandsStr := trim (instructionStr.drop (spacePos + 1))
    let operands := parseOperands operandsStr
    some (opcode, operands)

/-- The function `assembleInstruction`. -/
def assembleInstruction (instructionStr : Str) (instructions : List (Str × Instruction))
    (registers : List (Str × Int)) (symbolTable : SymbolTable) (currentAddress : Nat) :
    Except AsmError Nat :=
  match splitInstruction instructionStr with
  | none => .error (.invalidInstructionFormat instructionStr)
  | some (opcode, operands) =>
    match instructions.lookup opcode with
    | none => .error (.unknownInstruction opcode)
    | some instr =>
      encodeOperands instr opcode operands instructionStr registers symbolTable currentAddress

/-- The call `assembleInstruction(line, instructions, registers, symbolTable, address)`
as `main` makes it, with the two catalogs built at start-up. -/
def assembleLine (line : Str) (symbolTable : SymbolTable) (currentAddress : Nat) :
    Except AsmError Nat :=
  assembleInstruction line createInstructionMap createRegisterMap symbolTable currentAddress

/-! ## The two passes of `main` over the source lines -/

/-- The statements `commentPos = line.find('#')` and `line = line.substr(0, commentPos)`
that open both loops. -/
def stripComment (line : Str) : Str :=
  match find '#' line with
  | some commentPos => line.take commentPos
  | none => line

/-- The variables `symbolTable` and `address` of the first pass. -/
structure Pass1State where
  symbolTable : SymbolTable
  address : Nat
deriving DecidableEq, Repr

/-- One iteration of the first `while (std::getline(inFile, line))` loop. -/
def pass1Step (s : Pass1State) (rawLine : Str) : Pass1State :=
  let line := trim (stripComment rawLine)
  if line.isEmpty then s
  else
    match find ':' line with
    | some labelPos =>
      let label := trim (line.take labelPos)
      let symbolTable := (label, s.address) :: s.symbolTable
      let line := trim (line.drop (labelPos + 1))
      if line.isEmpty then { symbolTable := symbolTable, address := s.address }
      else { symbolTable := symbolTable, address := add32 s.address 4 }
    | none => { symbolTable := s.symbolTable, address := add32 s.address 4 }

/-- The first pass: `symbolTable` empty and `address = 0`, then one step per line. -/
def pass1 (lines : List Str) : Pass1State :=
  lines.foldl pass1Step { symbolTable := [], address := 0 }

/-- The state of the second pass: the counter `address`, the words handed to
`writeMachineCode` so far, and the failing line with its exception once the
`catch` block has run (`return 1`). -/
structure Pass2State where
  address : Nat
  words : List Nat
  failure : Option (Str × AsmError)
deriving DecidableEq, Repr

/-- One iteration of the second loop; after `return 1` no line is read any more. -/
def pass2Step (symbolTable : SymbolTable) (s : Pass2State) (rawLine : Str) : Pass2State :=
  match s.failure with
  | some _ => s
  | none =>
    let line := trim (stripComment rawLine)
    if line.isEmpty then s
    else
      let line :=
        match find ':' line with
        | some labelPos => trim (line.drop (labelPos + 1))
        | none => line
      if line.isEmpty then s
      else
        match assembleInstruction line createInstructionMap createRegisterMap
            symbolTable s.address with
        | .ok machineCode =>
          { address := add32 s.address 4, words := s.words ++ [machineCode], failure := none }
        | .error e => { address := s.address, words := s.words, failure := some (line, e) }

/-- The second pass, reading the symbol table of the first. -/
def pass2 (symbolTable : SymbolTable) (lines : List Str) : Pass2State :=
  lines.foldl (pass2Step symbolTable) { address := 0, words := [], failure := none }

/-- The run of `main` on the lines of the input file. -/
def assembleProgram (lines : List Str) : Pass2State :=
  pass2 (pass1 lines).symbolTable lines

/-! ## Vocabulary of the properties -/

/-- The text that is left of a source line once the comment and a label part
(everything up to the first colon) are stripped, when that text is not empty:
the line then holds an instruction. -/
def instructionOf (rawLine : Str) : Option Str :=
  let line := trim (stripComment rawLine)
  let rest :=
    match find ':' line with
    | some labelPos => trim (line.drop (labelPos + 1))
    | none => line
  if rest.isEmpty then none else some rest

/-- The label a source line defines, if it has one. -/
def labelOf (rawLine : Str) : Option Str :=
  let line := trim (stripComment rawLine)
  match find ':' line with
  | some labelPos => some (trim (line.take labelPos))
  | none => none

/-- Number of lines that hold an instruction. -/
def instructionCount (lines : List Str) : Nat :=
  (lines.filter (fun l => (instructionOf l).isSome)).length

/-- An operand token as `parseOperands` can deliver it unchanged: not empty, no
comma, no character of `" \t\n\r"` at either end. -/
def isOperandToken (s : Str) : Bool :=
  s.head?.any (fun c => !isTrimChar c) && s.getLast?.any (fun c => !isTrimChar c)
    && s.all (fun c => c != ',')

/-- Reading of a 12-bit field as a two's-complement number. -/
def signExtend (bits : Nat) (field : Nat) : Int :=
  if field % 2 ^ bits < 2 ^ (bits - 1) then ((field % 2 ^ bits : Nat) : Int)
  else ((field % 2 ^ bits : Nat) : Int) - ((2 ^ bits : Nat) : Int)

/-- The bits `hi:lo` of a word. -/
def bitField (w hi lo : Nat) : Nat := (w >>> lo) % 2 ^ (hi + 1 - lo)

/-- The B-format immediate read back from a word: bit 31 is imm[12], bit 7 is
imm[11], bits 30:25 are imm[10:5], bits 11:8 are imm[4:1], imm[0] is zero; the
13-bit value is sign-extended from bit 12. -/
def decodeBImm (w : Nat) : Int :=
  signExtend 13 (bitField w 31 31 * 2 ^ 12 + bitField w 7 7 * 2 ^ 11
    + bitField w 30 25 * 2 ^ 5 + bitField w 11 8 * 2 ^ 1)

/-- The J-format immediate read back from a word: bit 31 is imm[20], bits 19:12
are imm[19:12], bit 20 is imm[11], bits 30:21 are imm[10:1], imm[0] is zero; the
21-bit value is sign-extended from bit 20. -/
def decodeJImm (w : Nat) : Int :=
  signExtend 21 (bitField w 31 31 * 2 ^ 20 + bitField w 19 12 * 2 ^ 12
    + bitField w 20 20 * 2 ^ 11 + bitField w 30 21 * 2 ^ 1)

/-- The I-format immediate read back from a word: bits 31:20, sign-extended. -/
def decodeIImm (w : Nat) : Int := signExtend 12 (bitField w 31 20)

/-- A descriptor whose fixed fields have the widths of the data model: opcode 7
bits, funct3 3 bits, funct7 7 bits. -/
def Instruction.fieldsInRange (instr : Instruction) : Prop :=
  instr.opcode < 128 ∧ instr.funct3 < 8 ∧ instr.funct7 < 128

/-- The source line made of a mnemonic and three operands, written as in
`add x1, x2, x3`. -/
def line3 (m a b c : Str) : Str := m ++ ' ' :: (a ++ ',' :: ' ' :: (b ++ ',' :: ' ' :: c))

/-- The source line made of a mnemonic and two operands, written as in `lui x1, 5`. -/
def line2 (m a b : Str) : Str := m ++ ' ' :: (a ++ ',' :: ' ' :: b)

/-- The source line made of a mnemonic and one operand, written as in `jal done`. -/
def line1 (m a : Str) : Str := m ++ ' ' :: a

/-- The memory operand written as in `8(x2)`. -/
def memOperand (offset base : Str) : Str := offset ++ '(' :: (base ++ [')'])

/-- The characters a text accepted by `isNumber` can contain. -/
def isNumberChar (c : Char) : Bool :=
  isxdigit c || c == 'x' || c == 'X' || c == '+' || c == '-'

/-- A branch line with three operands, or a `jal` line with one or two, whose
target operand (the last one) is not numeric: the lines whose target is resolved
relative to the current address. -/
def hasRelativeTarget (line : Str) : Bool :=
  match splitInstruction line with
  | none => false
  | some (opcode, operands) =>
    match createInstructionMap.lookup opcode with
    | none => false
    | some instr =>
      match instr.format, operands with
      | .B_TYPE, [_, _, target] => !isNumber target
      | .J_TYPE, [_, target] => !isNumber target
      | .J_TYPE, [target] => !isNumber target
      | _, _ => false

/-! ## Output of a word -/

/-- The call `std::bitset<8>(value).to_string()`: the eight low bits of `value`
as characters, the most significant one first. -/
def bitset8ToString (value : Nat) : Str :=
  [7, 6, 5, 4, 3, 2, 1, 0].map (fun i => if value.testBit i then '1' else '0')

/-- The function `writeMachineCode`: the four lines it sends to the output file,
each ended by `std::endl`. -/
def writeMachineCode (machineCode : Nat) : List Str :=
  [ bitset8ToString ((machineCode >>> 0) &&& 0xFF),
    bitset8ToString ((machineCode >>> 8) &&& 0xFF),
    bitset8ToString ((machineCode >>> 16) &&& 0xFF),
    bitset8ToString ((machineCode >>> 24) &&& 0xFF) ]

/-- The lines of the output file once pass 2 has stopped: `writeMachineCode` is
called on every word in turn. -/
def outputLines (s : Pass2State) : List Str :=
  (s.words.map writeMachineCode).flatten

/-- A text of binary digits read back as a number, first character most
significant. -/
def readBinary (s : Str) : Nat :=
  s.foldl (fun acc c => 2 * acc + (if c = '1' then 1 else 0)) 0

/-! ## Instruction classes and operand roles of the dispatch rules -/

/-- The classes of mnemonics the dispatch rules distinguish. -/
inductive InstrClass where
  | registerRegister
  | registerImmediate
  | load
  | store
  | branch
  | upper
  | jal
  | jalr
deriving DecidableEq, Repr

/-- The class of a catalog mnemonic: the format of its descriptor, with the
loads (`lb`, `lh`, `lw`, `lbu`, `lhu`) and `jalr` set apart from the other
I-format mnemonics. -/
def classOf (opcode : Str) (instr : Instruction) : InstrClass :=
  match instr.format with
  | .R_TYPE => .registerRegister
  | .I_TYPE =>
    if opcode ∈ ["lb".toList, "lh".toList, "lw".toList, "lbu".toList, "lhu".toList] then .load
    else if opcode = "jalr".toList then .jalr
    else .registerImmediate
  | .S_TYPE => .store
  | .B_TYPE => .branch
  | .U_TYPE => .upper
  | .J_TYPE => .jal

/-- What an operand stands for. -/
inductive OperandRole where
  | register
  | memory
  | immediate
  | target
deriving DecidableEq, Repr

/-- The operand lists the dispatch rules allow, by class and operand count:
three operands for register-register, register-immediate and branch lines, two
for loads, stores, `lui` and `auipc`, one or two for `jal`, two or three for
`jalr`; `none` for every other count. -/
def operandRoles : InstrClass → Nat → Option (List OperandRole)
  | .registerRegister, 3 => some [.register, .register, .register]
  | .registerImmediate, 3 => some [.register, .register, .immediate]
  | .load, 2 => some [.register, .memory]
  | .store, 2 => some [.register, .memory]
  | .branch, 3 => some [.register, .register, .target]
  | .upper, 2 => some [.register, .immediate]
  | .jal, 1 => some [.target]
  | .jal, 2 => some [.register, .target]
  | .jalr, 2 => some [.register, .immediate]
  | .jalr, 3 => some [.register, .register, .immediate]
  | _, _ => none

/-- The operand-count message of each class. -/
def countRule : InstrClass → OperandRule
  | .registerRegister => .rType
  | .registerImmediate => .iType
  | .load => .load
  | .store => .sType
  | .branch => .bType
  | .upper => .uType
  | .jal => .jType
  | .jalr => .jalr

/-- The RV32I base integer instructions as the ISA manual assigns them: name,
format, opcode, and funct3 and funct7 where the format has such a field (the
shifts by a constant carry funct7 in the upper bits of their immediate). -/
def rv32iBase : List (String × InstructionFormat × Nat × Option Nat × Option Nat) :=
  [ ("add", .R_TYPE, 0x33, some 0, some 0x00), ("sub", .R_TYPE, 0x33, some 0, some 0x20),
    ("sll", .R_TYPE, 0x33, some 1, some 0x00), ("slt", .R_TYPE, 0x33, some 2, some 0x00),
    ("sltu", .R_TYPE, 0x33, some 3, some 0x00), ("xor", .R_TYPE, 0x33, some 4, some 0x00),
    ("srl", .R_TYPE, 0x33, some 5, some 0x00), ("sra", .R_TYPE, 0x33, some 5, some 0x20),
    ("or", .R_TYPE, 0x33, some 6, some 0x00), ("and", .R_TYPE, 0x33, some 7, some 0x00),
    ("addi", .I_TYPE, 0x13, some 0, none), ("slti", .I_TYPE, 0x13, some 2, none),
    ("sltiu", .I_TYPE, 0x13, some 3, none), ("xori", .I_TYPE, 0x13, some 4, none),
    ("ori", .I_TYPE, 0x13, some 6, none), ("andi", .I_TYPE, 0x13, some 7, none),
    ("slli", .I_TYPE, 0x13, some 1, some 0x00), ("srli", .I_TYPE, 0x13, some 5, some 0x00),
    ("srai", .I_TYPE, 0x13, some 5, some 0x20),
    ("lb", .I_TYPE, 0x03, some 0, none), ("lh", .I_TYPE, 0x03, some 1, none),
    ("lw", .I_TYPE, 0x03, some 2, none), ("lbu", .I_TYPE, 0x03, some 4, none),
    ("lhu", .I_TYPE, 0x03, some 5, none),
    ("sb", .S_TYPE, 0x23, some 0, none), ("sh", .S_TYPE, 0x23, some 1, none),
    ("sw", .S_TYPE, 0x23, some 2, none),
    ("beq", .B_TYPE, 0x63, some 0, none), ("bne", .B_TYPE, 0x63, some 1, none),
    ("blt", .B_TYPE, 0x63, some 4, none), ("bge", .B_TYPE, 0x63, some 5, none),
    ("bltu", .B_TYPE, 0x63, some 6, none), ("bgeu", .B_TYPE, 0x63, some 7, none),
    ("lui", .U_TYPE, 0x37, none, none), ("auipc", .U_TYPE, 0x17, none, none),
    ("jal", .J_TYPE, 0x6F, none, none), ("jalr", .I_TYPE, 0x67, some 0, none) ]

/-- The descriptor the catalog is expected to hold for a line of `rv32iBase`:
stored under its own name, an unassigned field stored as 0. -/
def descriptorOf (row : String × InstructionFormat × Nat × Option Nat × Option Nat) :
    Str × Instruction :=
  (row.1.toList, { name := row.1.toList, format := row.2.1, opcode := row.2.2.1,
                   funct3 := row.2.2.2.1.getD 0, funct7 := row.2.2.2.2.getD 0 })

/-- The ABI register names of RISC-V with their register numbers. -/
def abiNames : List (String × Int) :=
  [ ("zero", 0), ("ra", 1), ("sp", 2), ("gp", 3), ("tp", 4),
    ("t0", 5), ("t1", 6), ("t2", 7), ("t3", 28), ("t4", 29), ("t5", 30), ("t6", 31),
    ("s0", 8), ("s1", 9), ("s2", 18), ("s3", 19), ("s4", 20), ("s5", 21), ("s6", 22),
    ("s7", 23), ("s8", 24), ("s9", 25), ("s10", 26), ("s11", 27), ("fp", 8),
    ("a0", 10), ("a1", 11), ("a2", 12), ("a3", 13), ("a4", 14), ("a5", 15), ("a6", 16),
    ("a7", 17) ]

/-- The other case of an ASCII letter; any other character is left alone. -/
def swapCase (c : Char) : Char :=
  if 65 ≤ c.toNat ∧ c.toNat ≤ 90 then Char.ofNat (c.toNat + 32)
  else if 97 ≤ c.toNat ∧ c.toNat ≤ 122 then Char.ofNat (c.toNat - 32)
  else c

/-- A text with the case of the letters at the flagged positions changed. -/
def changeCase : List Bool → Str → Str
  | b :: bs, c :: cs => (if b then swapCase c else c) :: changeCase bs cs
  | _, cs => cs

/-- The words of a list of instruction texts assembled one after the other, the
one of index `i` at address `4 * (start + i)` on 32 bits. -/
def lineWords (symbolTable : SymbolTable) : Nat → List Str → List (Except AsmError Nat)
  | _, [] => []
  | start, instruction :: rest =>
    assembleLine instruction symbolTable (4 * start % 4294967296)
      :: lineWords symbolTable (start + 1) rest

/-- A text made only of the characters `trim` removes: a blank or
whitespace-only line. -/
def isBlankText (s : Str) : Bool := s.all isTrimChar

/-- The operand counts each class allows: 3 for register-register,
register-immediate and branch lines, 2 for loads, stores, `lui` and `auipc`,
1 or 2 for `jal`, 2 or 3 for `jalr`. -/
def countAllowed : InstrClass → Nat → Bool
  | .registerRegister, n => n == 3
  | .registerImmediate, n => n == 3
  | .branch, n => n == 3
  | .load, n => n == 2
  | .store, n => n == 2
  | .upper, n => n == 2
  | .jal, n => n == 1 || n == 2
  | .jalr, n => n == 2 || n == 3

/-! ## Operand pieces, literal values, formats with a funct3 field -/

/-- The pieces of a text between its commas, in order: the text before the
first comma, the texts between one comma and the next, and the text after the
last comma.  A text with `n` commas has `n + 1` pieces, some possibly empty. -/
def commaPieces : Str → List Str
  | [] => [[]]
  | c :: cs =>
    if c = ',' then [] :: commaPieces cs
    else
      match commaPieces cs with
      | p :: ps => (c :: p) :: ps
      | [] => [[c]]

/-- The value of a run of digit characters read as a numeral of the given base,
most significant digit first. -/
def numeralValue (base : Nat) (digits : Str) : Nat :=
  digits.foldl (fun acc c => acc * base + (digitValue c).getD 0) 0

/-- The value of an immediate literal: the hexadecimal numeral after the prefix
`0x` or `0X`, or else the decimal numeral after an optional sign. -/
def literalValue (s : Str) : Int :=
  if hasHexMarker s then (numeralValue 16 (s.drop 2) : Int)
  else if s.head? = some '-' then -(numeralValue 10 (s.drop 1) : Int)
  else if s.head? = some '+' then (numeralValue 10 (s.drop 1) : Int)
  else (numeralValue 10 s : Int)

/-- Whether a value fits the type `int` (32 bits, two's complement). -/
def fitsInt (v : Int) : Bool := decide (-2147483648 ≤ v) && decide (v ≤ 2147483647)

/-- The formats whose words carry a funct3 field: R, I, S and B. -/
def hasFunct3 : InstructionFormat → Bool
  | .R_TYPE => true
  | .I_TYPE => true
  | .S_TYPE => true
  | .B_TYPE => true
  | .U_TYPE => false
  | .J_TYPE => false

/-! ## Padded memory operands and resolved operand values -/

/-- A memory operand with blanks around the base register and any text after
the closing parenthesis, as in `4( fp )`: the offset text, `(`, the base between
blanks, `)`, the rest. -/
def memOperandPadded (offset ws1 base ws2 rest : Str) : Str :=
  offset ++ '(' :: (ws1 ++ base ++ ws2 ++ ')' :: rest)

/-- The call of a format encoder that `assembleInstruction` makes on a line
whose last operand is an immediate or a target, by class: from the numbers of
the register operands, in order, and the value of the last operand.  `jal` with
no register operand and `jalr` with one take register 1 as destination. -/
def encodeResolved (instr : Instruction) : InstrClass → List Int → Int → Option Nat
  | .registerImmediate, [rd, rs1], imm => some (encodeIType instr rd rs1 imm)
  | .upper, [rd], imm => some (encodeUType instr rd imm)
  | .jalr, [rd, rs1], imm => some (encodeIType instr rd rs1 imm)
  | .jalr, [rs1], imm => some (encodeIType instr 1 rs1 imm)
  | .branch, [rs1, rs2], imm => some (encodeBType instr rs1 rs2 imm)
  | .jal, [rd], imm => some (encodeJType instr rd imm)
  | .jal, [], imm => some (encodeJType instr 1 imm)
  | _, _, _ => none

/-- The catalog numbers of the operands in a register role, in order. -/
def registerValues (roles : List OperandRole) (ops : List Str) : List Int :=
  (roles.zip ops).filterMap
    (fun p => if p.1 = OperandRole.register then createRegisterMap.lookup p.2 else none)

/-! ## Machine-integer and bit-field lemmas -/

theorem toU32_lt (i : Int) : toU32 i < 4294967296 := by
  unfold toU32
  omega

theorem toU32_cast (i : Int) : ((toU32 i : Nat) : Int) = i % 4294967296 := by
  unfold toU32
  omega

theorem toU32_natCast (n : Nat) (h : n < 4294967296) : toU32 (n : Int) = n := by
  unfold toU32
  omega

/-- Masking with a run of `a` ones that starts at bit `b` keeps the field
`x / 2^b % 2^a` in place. -/
theorem land_field (x a b : Nat) :
    x &&& ((2 ^ a - 1) * 2 ^ b) = x / 2 ^ b % 2 ^ a * 2 ^ b := by
  rw [← Nat.shiftLeft_eq, ← Nat.shiftRight_eq_div_pow, ← Nat.and_pow_two_sub_one_eq_mod,
    ← Nat.shiftLeft_eq]
  apply Nat.eq_of_testBit_eq
  intro i
  simp only [Nat.testBit_and, Nat.testBit_shiftLeft, Nat.testBit_shiftRight]
  by_cases h : i ≥ b
  · have : b + (i - b) = i := by omega
    simp [h, this]
  · simp [h]

/-- A bitwise OR of a value below `2^s` with a multiple of `2^s` is their sum. -/
theorem lor_add (acc t s f : Nat) (ht : t = f * 2 ^ s) (hacc : acc < 2 ^ s) :
    acc ||| t = acc + t := by
  subst ht
  rw [Nat.or_comm, Nat.add_comm, Nat.mul_comm]
  exact (Nat.mul_add_lt_is_or hacc f).symm

theorem land_0xFFF (x : Nat) : x &&& 0xFFF = x % 4096 := by
  have h := land_field x 12 0
  norm_num at h
  exact h

theorem land_0x1F (x : Nat) : x &&& 0x1F = x % 32 := by
  have h := land_field x 5 0
  norm_num at h
  exact h

theorem land_0xFE0 (x : Nat) : x &&& 0xFE0 = x / 32 % 128 * 32 := by
  have h := land_field x 7 5
  norm_num at h
  exact h

theorem land_0x800 (x : Nat) : x &&& 0x800 = x / 2048 % 2 * 2048 := by
  have h := land_field x 1 11
  norm_num at h
  exact h

theorem land_0x1E (x : Nat) : x &&& 0x1E = x / 2 % 16 * 2 := by
  have h := land_field x 4 1
  norm_num at h
  exact h

theorem land_0x7E0 (x : Nat) : x &&& 0x7E0 = x / 32 % 64 * 32 := by
  have h := land_field x 6 5
  norm_num at h
  exact h

theorem land_0x1000 (x : Nat) : x &&& 0x1000 = x / 4096 % 2 * 4096 := by
  have h := land_field x 1 12
  norm_num at h
  exact h

theorem land_0xFFFFF000 (x : Nat) : x &&& 0xFFFFF000 = x / 4096 % 1048576 * 4096 := by
  have h := land_field x 20 12
  norm_num at h
  exact h

theorem land_0xFF000 (x : Nat) : x &&& 0xFF000 = x / 4096 % 256 * 4096 := by
  have h := land_field x 8 12
  norm_num at h
  exact h

theorem land_0x7FE (x : Nat) : x &&& 0x7FE = x / 2 % 1024 * 2 := by
  have h := land_field x 10 1
  norm_num at h
  exact h

theorem land_0x100000 (x : Nat) : x &&& 0x100000 = x / 1048576 % 2 * 1048576 := by
  have h := land_field x 1 20
  norm_num at h
  exact h

theorem shl32_eq (x n : Nat) (h : x * 2 ^ n < 4294967296) : shl32 x n = x * 2 ^ n := by
  unfold shl32
  rw [Nat.shiftLeft_eq, Nat.mod_eq_of_lt h]

/-- Variant of `lor_add` with the shifted field written out. -/
theorem lor_field (acc f s : Nat) (hacc : acc < 2 ^ s) : acc ||| f * 2 ^ s = acc + f * 2 ^ s :=
  lor_add acc (f * 2 ^ s) s f rfl hacc

/-- Arithmetic form of `encodeRType` on in-range fields. -/
theorem encodeRType_arith (instr : Instruction) (rd rs1 rs2 : Nat)
    (hi : instr.fieldsInRange) (hrd : rd < 32) (hrs1 : rs1 < 32) (hrs2 : rs2 < 32) :
    encodeRType instr rd rs1 rs2
      = instr.opcode + rd * 2 ^ 7 + instr.funct3 * 2 ^ 12 + rs1 * 2 ^ 15 + rs2 * 2 ^ 20
        + instr.funct7 * 2 ^ 25 := by
  obtain ⟨ho, h3, h7⟩ := hi
  simp only [encodeRType, Nat.zero_or]
  rw [toU32_natCast rd (by omega), toU32_natCast rs1 (by omega), toU32_natCast rs2 (by omega),
    shl32_eq rd 7 (by omega), shl32_eq instr.funct3 12 (by omega), shl32_eq rs1 15 (by omega),
    shl32_eq rs2 20 (by omega), shl32_eq instr.funct7 25 (by omega)]
  rw [lor_field _ rd 7, lor_field _ instr.funct3 12, lor_field _ rs1 15, lor_field _ rs2 20,
    lor_field _ instr.funct7 25]
  all_goals omega

/-- Arithmetic form of `encodeIType` on in-range fields. -/
theorem encodeIType_arith (instr : Instruction) (rd rs1 : Nat) (imm : Int)
    (hi : instr.fieldsInRange) (hrd : rd < 32) (hrs1 : rs1 < 32) :
    encodeIType instr rd rs1 imm
      = instr.opcode + rd * 2 ^ 7 + instr.funct3 * 2 ^ 12 + rs1 * 2 ^ 15
        + (imm % 4096).toNat * 2 ^ 20 := by
  obtain ⟨ho, h3, h7⟩ := hi
  have hu := toU32_cast imm
  have hm : toU32 imm % 4096 = (imm % 4096).toNat := by omega
  simp only [encodeIType, Nat.zero_or, land_0xFFF]
  rw [toU32_natCast rd (by omega), toU32_natCast rs1 (by omega),
    shl32_eq rd 7 (by omega), shl32_eq instr.funct3 12 (by omega), shl32_eq rs1 15 (by omega),
    shl32_eq (toU32 imm % 4096) 20 (by omega), hm]
  rw [lor_field _ rd 7, lor_field _ instr.funct3 12, lor_field _ rs1 15,
    lor_field _ (imm % 4096).toNat 20]
  all_goals omega

/-- Arithmetic form of `encodeSType` on in-range fields. -/
theorem encodeSType_arith (instr : Instruction) (rs1 rs2 : Nat) (imm : Int)
    (hi : instr.fieldsInRange) (hrs1 : rs1 < 32) (hrs2 : rs2 < 32) :
    encodeSType instr rs1 rs2 imm
      = instr.opcode + (imm % 32).toNat * 2 ^ 7 + instr.funct3 * 2 ^ 12 + rs1 * 2 ^ 15
        + rs2 * 2 ^ 20 + (imm / 32 % 128).toNat * 2 ^ 25 := by
  obtain ⟨ho, h3, h7⟩ := hi
  have hu := toU32_cast imm
  have hm : toU32 imm % 32 = (imm % 32).toNat := by omega
  have hd : toU32 imm / 32 % 128 = (imm / 32 % 128).toNat := by omega
  have h20 : shl32 (toU32 imm / 32 % 128 * 32) (25 - 5) = (imm / 32 % 128).toNat * 2 ^ 25 := by
    rw [shl32_eq _ _ (by omega), hd]
    omega
  simp only [encodeSType, Nat.zero_or, land_0x1F, land_0xFE0]
  rw [toU32_natCast rs1 (by omega), toU32_natCast rs2 (by omega), h20,
    shl32_eq (toU32 imm % 32) 7 (by omega), shl32_eq instr.funct3 12 (by omega),
    shl32_eq rs1 15 (by omega), shl32_eq rs2 20 (by omega), hm]
  rw [lor_field _ (imm % 32).toNat 7, lor_field _ instr.funct3 12, lor_field _ rs1 15,
    lor_field _ rs2 20, lor_field _ (imm / 32 % 128).toNat 25]
  all_goals omega

/-- Arithmetic form of `encodeUType` on in-range fields. -/
theorem encodeUType_arith (instr : Instruction) (rd : Nat) (imm : Int)
    (hi : instr.fieldsInRange) (hrd : rd < 32) :
    encodeUType instr rd imm
      = instr.opcode + rd * 2 ^ 7 + toU32 imm / 4096 * 2 ^ 12 := by
  obtain ⟨ho, h3, h7⟩ := hi
  have hu := toU32_lt imm
  have hd : toU32 imm / 4096 % 1048576 * 4096 = toU32 imm / 4096 * 2 ^ 12 := by omega
  simp only [encodeUType, Nat.zero_or, land_0xFFFFF000]
  rw [toU32_natCast rd (by omega), shl32_eq rd 7 (by omega), hd]
  rw [lor_field _ rd 7, lor_field _ (toU32 imm / 4096) 12]
  all_goals omega

/-- Arithmetic form of `encodeBType` on in-range fields, with `u` the bit
pattern of the displacement. -/
theorem encodeBType_arith (instr : Instruction) (rs1 rs2 : Nat) (imm : Int)
    (hi : instr.fieldsInRange) (hrs1 : rs1 < 32) (hrs2 : rs2 < 32) :
    encodeBType instr rs1 rs2 imm
      = instr.opcode + toU32 imm / 2048 % 2 * 2 ^ 7 + toU32 imm / 2 % 16 * 2 ^ 8
        + instr.funct3 * 2 ^ 12 + rs1 * 2 ^ 15 + rs2 * 2 ^ 20
        + toU32 imm / 32 % 64 * 2 ^ 25 + toU32 imm / 4096 % 2 * 2 ^ 31 := by
  obtain ⟨ho, h3, h7⟩ := hi
  have e1 : (toU32 imm / 2048 % 2 * 2048) >>> (11 - 7) = toU32 imm / 2048 % 2 * 2 ^ 7 := by
    rw [Nat.shiftRight_eq_div_pow]
    omega
  have e2 : shl32 (toU32 imm / 2 % 16 * 2) (8 - 1) = toU32 imm / 2 % 16 * 2 ^ 8 := by
    rw [shl32_eq _ _ (by omega)]
    omega
  have e3 : shl32 (toU32 imm / 32 % 64 * 32) (25 - 5) = toU32 imm / 32 % 64 * 2 ^ 25 := by
    rw [shl32_eq _ _ (by omega)]
    omega
  have e4 : shl32 (toU32 imm / 4096 % 2 * 4096) (31 - 12) = toU32 imm / 4096 % 2 * 2 ^ 31 := by
    rw [shl32_eq _ _ (by omega)]
    omega
  simp only [encodeBType, Nat.zero_or, land_0x800, land_0x1E, land_0x7E0, land_0x1000]
  rw [toU32_natCast rs1 (by omega), toU32_natCast rs2 (by omega), e1, e2, e3, e4,
    shl32_eq instr.funct3 12 (by omega), shl32_eq rs1 15 (by omega), shl32_eq rs2 20 (by omega)]
  rw [lor_field _ (toU32 imm / 2048 % 2) 7, lor_field _ (toU32 imm / 2 % 16) 8,
    lor_field _ instr.funct3 12, lor_field _ rs1 15, lor_field _ rs2 20,
    lor_field _ (toU32 imm / 32 % 64) 25, lor_field _ (toU32 imm / 4096 % 2) 31]
  all_goals omega

/-- Arithmetic form of `encodeJType` on in-range fields, with `u` the bit
pattern of the displacement. -/
theorem encodeJType_arith (instr : Instruction) (rd : Nat) (imm : Int)
    (hi : instr.fieldsInRange) (hrd : rd < 32) :
    encodeJType instr rd imm
      = instr.opcode + rd * 2 ^ 7 + toU32 imm / 4096 % 256 * 2 ^ 12
        + toU32 imm / 2048 % 2 * 2 ^ 20 + toU32 imm / 2 % 1024 * 2 ^ 21
        + toU32 imm / 1048576 % 2 * 2 ^ 31 := by
  obtain ⟨ho, h3, h7⟩ := hi
  have e1 : shl32 (toU32 imm / 4096 % 256 * 4096) (12 - 12)
      = toU32 imm / 4096 % 256 * 2 ^ 12 := by
    rw [shl32_eq _ _ (by omega)]
    omega
  have e2 : shl32 (toU32 imm / 2048 % 2 * 2048) (20 - 11) = toU32 imm / 2048 % 2 * 2 ^ 20 := by
    rw [shl32_eq _ _ (by omega)]
    omega
  have e3 : shl32 (toU32 imm / 2 % 1024 * 2) (21 - 1) = toU32 imm / 2 % 1024 * 2 ^ 21 := by
    rw [shl32_eq _ _ (by omega)]
    omega
  have e4 : shl32 (toU32 imm / 1048576 % 2 * 1048576) (31 - 20)
      = toU32 imm / 1048576 % 2 * 2 ^ 31 := by
    rw [shl32_eq _ _ (by omega)]
    omega
  simp only [encodeJType, Nat.zero_or, land_0xFF000, land_0x800, land_0x7FE, land_0x100000]
  rw [toU32_natCast rd (by omega), e1, e2, e3, e4, shl32_eq rd 7 (by omega)]
  rw [lor_field _ rd 7, lor_field _ (toU32 imm / 4096 % 256) 12,
    lor_field _ (toU32 imm / 2048 % 2) 20, lor_field _ (toU32 imm / 2 % 1024) 21,
    lor_field _ (toU32 imm / 1048576 % 2) 31]
  all_goals omega

/-! ## String lemmas -/

theorem find_append_cons (c : Char) (a r : Str) (h : c ∉ a) :
    find c (a ++ c :: r) = some a.length := by
  induction a with
  | nil => simp [find]
  | cons d ds ih =>
    have hd : d ≠ c := fun e => h (by simp [e])
    have hds : c ∉ ds := fun e => h (by simp [e])
    simp [find, hd, ih hds]

theorem find_eq_none (c : Char) (a : Str) (h : c ∉ a) : find c a = none := by
  induction a with
  | nil => rfl
  | cons d ds ih =>
    have hd : d ≠ c := fun e => h (by simp [e])
    have hds : c ∉ ds := fun e => h (by simp [e])
    simp [find, hd, ih hds]

theorem take_length_append (a r : Str) : (a ++ r).take a.length = a := by
  simp

theorem drop_length_succ_append (a r : Str) (c : Char) :
    (a ++ c :: r).drop (a.length + 1) = r := by
  induction a with
  | nil => rfl
  | cons d ds ih => simp

theorem dropWhile_eq_self (p : Char → Bool) (s : Str)
    (h : s.head?.any (fun c => !p c) = true) : s.dropWhile p = s := by
  cases s with
  | nil => simp at h
  | cons d ds =>
    simp at h
    simp [List.dropWhile_cons, h]

/-- A text whose first and last characters are no white space is its own trim. -/
theorem trim_eq_self (s : Str) (h1 : s.head?.any (fun c => !isTrimChar c) = true)
    (h2 : s.getLast?.any (fun c => !isTrimChar c) = true) : trim s = s := by
  unfold trim
  rw [dropWhile_eq_self isTrimChar s h1, dropWhile_eq_self isTrimChar s.reverse
    (by rw [List.head?_reverse]; exact h2), List.reverse_reverse]

theorem trim_cons_blank (c : Char) (s : Str) (h : isTrimChar c = true) :
    trim (c :: s) = trim s := by
  simp [trim, List.dropWhile_cons, h]

theorem getlineTokens_append_delim (delim : Char) (a r acc : Str) (h : delim ∉ a) :
    getlineTokens delim (a ++ delim :: r) acc
      = (acc.reverse ++ a) :: getlineTokens delim r [] := by
  induction a generalizing acc with
  | nil => simp [getlineTokens]
  | cons d ds ih =>
    have hd : d ≠ delim := fun e => h (by simp [e])
    have hds : delim ∉ ds := fun e => h (by simp [e])
    simp [getlineTokens, hd, ih _ hds]

theorem getlineTokens_last (delim : Char) (a acc : Str) (h : delim ∉ a)
    (hne : acc.reverse ++ a ≠ []) :
    getlineTokens delim a acc = [acc.reverse ++ a] := by
  induction a generalizing acc with
  | nil =>
    have : acc ≠ [] := by simpa using hne
    simp [getlineTokens, this]
  | cons d ds ih =>
    have hd : d ≠ delim := fun e => h (by simp [e])
    have hds : delim ∉ ds := fun e => h (by simp [e])
    simp [getlineTokens, hd, ih (d :: acc) hds]


theorem head_any_append (p : Char → Bool) (a r : Str) (h : a.head?.any p = true) :
    (a ++ r).head?.any p = true := by
  cases a with
  | nil => simp at h
  | cons d ds => simpa using h

theorem getLast_any_append (p : Char → Bool) (r c : Str) (h : c.getLast?.any p = true) :
    (r ++ c).getLast?.any p = true := by
  rw [← List.head?_reverse] at h ⊢
  rw [List.reverse_append]
  exact head_any_append p _ _ h

theorem getLast_any_cons (p : Char → Bool) (d : Char) (c : Str)
    (h : c.getLast?.any p = true) : (d :: c).getLast?.any p = true :=
  getLast_any_append p [d] c h

theorem token_head (s : Str) (h : isOperandToken s = true) :
    s.head?.any (fun c => !isTrimChar c) = true := by
  simp only [isOperandToken, Bool.and_eq_true] at h
  exact h.1.1

theorem token_last (s : Str) (h : isOperandToken s = true) :
    s.getLast?.any (fun c => !isTrimChar c) = true := by
  simp only [isOperandToken, Bool.and_eq_true] at h
  exact h.1.2

theorem token_no_comma (s : Str) (h : isOperandToken s = true) : ',' ∉ s := by
  simp only [isOperandToken, Bool.and_eq_true, List.all_eq_true] at h
  intro hc
  have := h.2 ',' hc
  simp at this

theorem token_ne_nil (s : Str) (h : isOperandToken s = true) : s ≠ [] := by
  intro e
  subst e
  simp [isOperandToken] at h

theorem token_trim (s : Str) (h : isOperandToken s = true) : trim s = s :=
  trim_eq_self s (token_head s h) (token_last s h)

theorem token_blank_trim (s : Str) (h : isOperandToken s = true) : trim (' ' :: s) = s := by
  rw [trim_cons_blank ' ' s (by decide)]
  exact token_trim s h

/-- The operand list of a three-operand line. -/
theorem parseOperands_three (a b c : Str) (ha : isOperandToken a = true)
    (hb : isOperandToken b = true) (hc : isOperandToken c = true) :
    parseOperands (trim (a ++ ',' :: ' ' :: (b ++ ',' :: ' ' :: c))) = [a, b, c] := by
  rw [trim_eq_self _ (head_any_append _ _ _ (token_head a ha))
    (getLast_any_append _ _ _ (getLast_any_cons _ _ _ (getLast_any_cons _ _ _
      (getLast_any_append _ _ _ (getLast_any_cons _ _ _ (getLast_any_cons _ _ _
        (token_last c hc)))))))]
  unfold parseOperands
  rw [getlineTokens_append_delim _ _ _ _ (token_no_comma a ha)]
  rw [show ' ' :: (b ++ ',' :: ' ' :: c) = (' ' :: b) ++ ',' :: ' ' :: c from rfl]
  rw [getlineTokens_append_delim _ _ _ _
    (by simpa using token_no_comma b hb)]
  rw [getlineTokens_last _ _ _ (by simpa using token_no_comma c hc) (by simp)]
  simp [token_trim a ha, token_blank_trim b hb, token_blank_trim c hc]

/-- The operand list of a two-operand line. -/
theorem parseOperands_two (a b : Str) (ha : isOperandToken a = true)
    (hb : isOperandToken b = true) :
    parseOperands (trim (a ++ ',' :: ' ' :: b)) = [a, b] := by
  rw [trim_eq_self _ (head_any_append _ _ _ (token_head a ha))
    (getLast_any_append _ _ _ (getLast_any_cons _ _ _ (getLast_any_cons _ _ _
      (token_last b hb))))]
  unfold parseOperands
  rw [getlineTokens_append_delim _ _ _ _ (token_no_comma a ha)]
  rw [getlineTokens_last _ _ _ (by simpa using token_no_comma b hb) (by simp)]
  simp [token_trim a ha, token_blank_trim b hb]

/-- The operand list of a one-operand line. -/
theorem parseOperands_one (a : Str) (ha : isOperandToken a = true) :
    parseOperands (trim a) = [a] := by
  rw [token_trim a ha]
  unfold parseOperands
  rw [getlineTokens_last _ _ _ (token_no_comma a ha) (by simpa using token_ne_nil a ha)]
  simp [token_trim a ha]

theorem splitInstruction_cut (m rest : Str) (hm : ' ' ∉ m) :
    splitInstruction (m ++ ' ' :: rest)
      = some ((trim m).map tolower, parseOperands (trim rest)) := by
  unfold splitInstruction
  rw [find_append_cons ' ' m rest hm]
  simp only [take_length_append, drop_length_succ_append]

theorem splitInstruction_line3 (m a b c : Str) (hm : ' ' ∉ m) (ha : isOperandToken a = true)
    (hb : isOperandToken b = true) (hc : isOperandToken c = true) :
    splitInstruction (line3 m a b c) = some ((trim m).map tolower, [a, b, c]) := by
  unfold line3
  rw [splitInstruction_cut m _ hm, parseOperands_three a b c ha hb hc]

theorem splitInstruction_line2 (m a b : Str) (hm : ' ' ∉ m) (ha : isOperandToken a = true)
    (hb : isOperandToken b = true) :
    splitInstruction (line2 m a b) = some ((trim m).map tolower, [a, b]) := by
  unfold line2
  rw [splitInstruction_cut m _ hm, parseOperands_two a b ha hb]

theorem splitInstruction_line1 (m a : Str) (hm : ' ' ∉ m) (ha : isOperandToken a = true) :
    splitInstruction (line1 m a) = some ((trim m).map tolower, [a]) := by
  unfold line1
  rw [splitInstruction_cut m _ hm, parseOperands_one a ha]

/-! ## Catalog facts -/

theorem lookup_mem {α : Type} (l : List (Str × α)) (k : Str) (v : α)
    (h : l.lookup k = some v) : (k, v) ∈ l := by
  induction l with
  | nil => simp at h
  | cons p ps ih =>
    obtain ⟨k', v'⟩ := p
    rw [List.lookup_cons] at h
    by_cases e : k = k'
    · subst e
      simp at h
      simp [h]
    · have : (k == k') = false := by simpa using e
      rw [this] at h
      exact List.mem_cons_of_mem _ (ih h)

theorem registers_spec :
    ∀ p ∈ createRegisterMap, isOperandToken p.1 = true ∧ 0 ≤ p.2 ∧ p.2 < 32
      ∧ '(' ∉ p.1 ∧ ')' ∉ p.1 := by
  decide

theorem instructions_spec :
    ∀ p ∈ createInstructionMap, ' ' ∉ p.1 ∧ (trim p.1).map tolower = p.1
      ∧ p.2.opcode < 128 ∧ p.2.funct3 < 8 ∧ p.2.funct7 < 128 := by
  decide

/-! ## Catalog lookups -/

theorem findRegister_of_lookup (registers : List (Str × Int)) (name : Str) (n : Int)
    (h : registers.lookup name = some n) : findRegister registers name = .ok n := by
  simp [findRegister, h]

/-- The value of a catalog register as a natural number below 32. -/
theorem register_index (name : Str) (n : Int) (h : createRegisterMap.lookup name = some n) :
    isOperandToken name = true ∧ n.toNat < 32 ∧ ((n.toNat : Nat) : Int) = n
      ∧ '(' ∉ name ∧ ')' ∉ name := by
  have hs := registers_spec (name, n) (lookup_mem _ _ _ h)
  obtain ⟨h1, h2, h3, h4, h5⟩ := hs
  refine ⟨h1, ?_, ?_, h4, h5⟩
  · simp only at h2 h3
    omega
  · simp only at h2 h3
    omega

theorem descriptor_fieldsInRange (name : Str) (instr : Instruction)
    (h : createInstructionMap.lookup name = some instr) : instr.fieldsInRange :=
  (instructions_spec (name, instr) (lookup_mem _ _ _ h)).2.2

/-! ## Reading fields back from a word -/

/-- Reading the eight fields of a B-format word back from their sum. -/
theorem bword_fields (op b11 i41 f3 rs1 rs2 i105 b12 : Nat) (hop : op < 128) (h11 : b11 < 2)
    (h41 : i41 < 16) (hf3 : f3 < 8) (hrs1 : rs1 < 32) (hrs2 : rs2 < 32) (h105 : i105 < 64)
    (h12 : b12 < 2) (w : Nat)
    (hw : w = op + b11 * 2 ^ 7 + i41 * 2 ^ 8 + f3 * 2 ^ 12 + rs1 * 2 ^ 15 + rs2 * 2 ^ 20
        + i105 * 2 ^ 25 + b12 * 2 ^ 31) :
    bitField w 6 0 = op ∧ bitField w 7 7 = b11 ∧ bitField w 11 8 = i41
      ∧ bitField w 14 12 = f3 ∧ bitField w 19 15 = rs1 ∧ bitField w 24 20 = rs2
      ∧ bitField w 30 25 = i105 ∧ bitField w 31 31 = b12 := by
  simp only [bitField, Nat.shiftRight_eq_div_pow]
  norm_num
  refine ⟨?_, ?_, ?_, ?_, ?_, ?_, ?_, ?_⟩ <;> omega

/-- Reading the six fields of a J-format word back from their sum. -/
theorem jword_fields (op rd i1912 b11 i101 b20 : Nat) (hop : op < 128) (hrd : rd < 32)
    (h1912 : i1912 < 256) (h11 : b11 < 2) (h101 : i101 < 1024) (h20 : b20 < 2) (w : Nat)
    (hw : w = op + rd * 2 ^ 7 + i1912 * 2 ^ 12 + b11 * 2 ^ 20 + i101 * 2 ^ 21 + b20 * 2 ^ 31) :
    bitField w 6 0 = op ∧ bitField w 11 7 = rd ∧ bitField w 19 12 = i1912
      ∧ bitField w 20 20 = b11 ∧ bitField w 30 21 = i101 ∧ bitField w 31 31 = b20 := by
  simp only [bitField, Nat.shiftRight_eq_div_pow]
  norm_num
  refine ⟨?_, ?_, ?_, ?_, ?_, ?_⟩ <;> omega

/-- The 13 low bits of an even bit pattern, split into the B-format pieces. -/
theorem bsplit (u : Nat) :
    u % 8192 = u / 4096 % 2 * 4096 + u / 2048 % 2 * 2048 + u / 32 % 64 * 32
      + u / 2 % 16 * 2 + u % 2 := by
  omega

/-- The 21 low bits of a bit pattern, split into the J-format pieces. -/
theorem jsplit (u : Nat) :
    u % 2097152 = u / 1048576 % 2 * 1048576 + u / 4096 % 256 * 4096
      + u / 2048 % 2 * 2048 + u / 2 % 1024 * 2 + u % 2 := by
  have h1 : u % 2097152 = u / 1048576 % 2 * 1048576 + u % 1048576 := by omega
  have h2 : u % 1048576 = u / 4096 % 256 * 4096 + u % 4096 := by omega
  have h3 : u % 4096 = u / 2048 % 2 * 2048 + u % 2048 := by omega
  have h4 : u % 2048 = u / 2 % 1024 * 2 + u % 2 := by omega
  omega

/-- Sign extension of a 12-bit residue gives back a value of the signed range. -/
theorem signExtend_12 (v : Nat) (d : Int) (hv : (v : Int) = d % 4096) (hlo : -2048 ≤ d)
    (hhi : d ≤ 2047) : signExtend 12 v = d := by
  simp only [signExtend]
  norm_num
  split <;> omega

/-- Sign extension of a 13-bit residue gives back a value of the signed range. -/
theorem signExtend_13 (v : Nat) (d : Int) (hv : (v : Int) = d % 8192) (hlo : -4096 ≤ d)
    (hhi : d ≤ 4095) : signExtend 13 v = d := by
  simp only [signExtend]
  norm_num
  split <;> omega

/-- Sign extension of a 21-bit residue gives back a value of the signed range. -/
theorem signExtend_21 (v : Nat) (d : Int) (hv : (v : Int) = d % 2097152) (hlo : -1048576 ≤ d)
    (hhi : d ≤ 1048575) : signExtend 21 v = d := by
  simp only [signExtend]
  norm_num
  split <;> omega

/-- The residue of an integer modulo `2^k` from its 32-bit pattern. -/
theorem toU32_mod (d : Int) (k : Nat) (hk : k ∣ 4294967296) :
    ((toU32 d % k : Nat) : Int) = d % (k : Int) := by
  rw [Int.natCast_mod, toU32_cast]
  exact Int.emod_emod_of_dvd d (by exact_mod_cast hk)

/-! ## Encodings of register-register and immediate instructions -/

/-- C1: for every R-type mnemonic `m` of the catalog and register names `a`,
`b`, `c` of the register catalog with indices `rd`, `rs1`, `rs2`, the line
`m a, b, c` assembles, for any symbol table and address, to
`opcode + rd*2^7 + funct3*2^12 + rs1*2^15 + rs2*2^20 + funct7*2^25`; the R-type
mnemonics are the ten listed ones, and `add x1, x2, x3` gives `0x003100B3`. -/
theorem assemble_rtype_word (m a b c : Str) (instr : Instruction) (rd rs1 rs2 : Int)
    (symbolTable : SymbolTable) (currentAddress : Nat)
    (hm : createInstructionMap.lookup m = some instr) (hf : instr.format = .R_TYPE)
    (ha : createRegisterMap.lookup a = some rd) (hb : createRegisterMap.lookup b = some rs1)
    (hc : createRegisterMap.lookup c = some rs2) :
    assembleLine (line3 m a b c) symbolTable currentAddress
        = .ok (instr.opcode + rd.toNat * 2 ^ 7 + instr.funct3 * 2 ^ 12 + rs1.toNat * 2 ^ 15
            + rs2.toNat * 2 ^ 20 + instr.funct7 * 2 ^ 25)
      ∧ (createInstructionMap.filter (fun p => p.2.format = .R_TYPE)).map Prod.fst
        = ["add".toList, "sub".toList, "sll".toList, "slt".toList, "sltu".toList,
            "xor".toList, "srl".toList, "sra".toList, "or".toList, "and".toList]
      ∧ assembleLine "add x1, x2, x3".toList symbolTable currentAddress = .ok 0x003100B3 := by
  obtain ⟨hsp, hlow, hi⟩ := instructions_spec (m, instr) (lookup_mem _ _ _ hm)
  obtain ⟨ta, ba, ca, -, -⟩ := register_index a rd ha
  obtain ⟨tb, bb, cb, -, -⟩ := register_index b rs1 hb
  obtain ⟨tc, bc, cc, -, -⟩ := register_index c rs2 hc
  refine ⟨?_, by decide, rfl⟩
  unfold assembleLine assembleInstruction
  rw [splitInstruction_line3 m a b c hsp ta tb tc]
  simp only at hlow
  simp only [hlow, hm, encodeOperands, hf]
  rw [findRegister_of_lookup _ _ _ ha, findRegister_of_lookup _ _ _ hb,
    findRegister_of_lookup _ _ _ hc]
  have := encodeRType_arith instr rd.toNat rs1.toNat rs2.toNat hi ba bb bc
  rw [ca, cb, cc] at this
  simp only [← this]
  rfl

/-- Witness of `assemble_rtype_word`: `sub a0, fp, t6`. -/
theorem assemble_rtype_word_witness :
    assembleLine (line3 "sub".toList "a0".toList "fp".toList "t6".toList) [] 8
        = .ok (0x33 + 10 * 2 ^ 7 + 0 * 2 ^ 12 + 8 * 2 ^ 15 + 31 * 2 ^ 20 + 0x20 * 2 ^ 25) :=
  (assemble_rtype_word "sub".toList "a0".toList "fp".toList "t6".toList
    (entry "sub" .R_TYPE 0b0110011 0b000 0b0100000).2 10 8 31 [] 8
    (by decide) (by decide) (by decide) (by decide) (by decide)).1

/-- C2 (as stated, refuted): the line `addi x5, x0, -1` does not assemble to
`0xFFF002B3`; that word carries the R-type opcode `0110011` in bits 6:0. -/
theorem addi_minus_one_not_0xFFF002B3 :
    assembleLine "addi x5, x0, -1".toList [] 0 ≠ .ok 0xFFF002B3 := by
  intro h
  have e : assembleLine "addi x5, x0, -1".toList [] 0 = .ok 0xFFF00293 := rfl
  rw [e] at h
  exact absurd (Except.ok.inj h) (by decide)

/-- C2 (amended): for every symbol table and current address the line
`addi x5, x0, -1` assembles to `0xFFF00293`: opcode `0010011`, rd 5, funct3 0,
rs1 0 and the immediate field `0xFFF`. -/
theorem addi_minus_one_word (symbolTable : SymbolTable) (currentAddress : Nat) :
    assembleLine "addi x5, x0, -1".toList symbolTable currentAddress = .ok 0xFFF00293
      ∧ 0xFFF00293 = 0b0010011 + 5 * 2 ^ 7 + 0 * 2 ^ 12 + 0 * 2 ^ 15 + 0xFFF * 2 ^ 20 :=
  ⟨rfl, by decide⟩

/-- C3: for a descriptor with in-range fixed fields, `rd`, `rs1` in 0..31 and
an immediate `imm`, `encodeIType` returns
`opcode + rd*2^7 + funct3*2^12 + rs1*2^15 + (imm mod 4096)*2^20`; two
immediates give the same word exactly when they are congruent modulo 4096; and
for `-2048 <= imm <= 2047` sign-extending bits 31:20 of the word gives `imm`. -/
theorem encodeIType_layout (instr : Instruction) (rd rs1 : Nat) (imm imm' : Int)
    (hi : instr.fieldsInRange) (hrd : rd < 32) (hrs1 : rs1 < 32) :
    encodeIType instr rd rs1 imm
        = instr.opcode + rd * 2 ^ 7 + instr.funct3 * 2 ^ 12 + rs1 * 2 ^ 15
          + (imm % 4096).toNat * 2 ^ 20
      ∧ (encodeIType instr rd rs1 imm = encodeIType instr rd rs1 imm'
          ↔ imm % 4096 = imm' % 4096)
      ∧ (-2048 ≤ imm ∧ imm ≤ 2047 → decodeIImm (encodeIType instr rd rs1 imm) = imm) := by
  have e := encodeIType_arith instr rd rs1 imm hi hrd hrs1
  have e' := encodeIType_arith instr rd rs1 imm' hi hrd hrs1
  obtain ⟨ho, h3, h7⟩ := hi
  refine ⟨e, ?_, ?_⟩
  · rw [e, e']
    constructor
    · intro h
      omega
    · intro h
      rw [h]
  · intro hr
    rw [e]
    simp only [decodeIImm, signExtend, bitField, Nat.shiftRight_eq_div_pow]
    norm_num
    split <;> omega

/-- Witness of `encodeIType_layout`: the `addi` descriptor, `rd = 5`,
`rs1 = 0`, immediates `-1` and `4095`. -/
theorem encodeIType_layout_witness :
    encodeIType (entry "addi" .I_TYPE 0b0010011 0b000 0).2 (5 : Nat) (0 : Nat) (-1)
        = 0b0010011 + 5 * 2 ^ 7 + 0 * 2 ^ 12 + 0 * 2 ^ 15 + ((-1 : Int) % 4096).toNat * 2 ^ 20
      ∧ (encodeIType (entry "addi" .I_TYPE 0b0010011 0b000 0).2 (5 : Nat) (0 : Nat) (-1)
          = encodeIType (entry "addi" .I_TYPE 0b0010011 0b000 0).2 (5 : Nat) (0 : Nat) 4095
          ↔ (-1 : Int) % 4096 = 4095 % 4096)
      ∧ (-2048 ≤ (-1 : Int) ∧ (-1 : Int) ≤ 2047 →
          decodeIImm (encodeIType (entry "addi" .I_TYPE 0b0010011 0b000 0).2
            (5 : Nat) (0 : Nat) (-1)) = -1) :=
  encodeIType_layout (entry "addi" .I_TYPE 0b0010011 0b000 0).2 5 0 (-1) 4095
    ⟨by decide, by decide, by decide⟩ (by decide) (by decide)

/-! ## Branch, jump and upper-immediate encodings -/

/-- C4: for every branch descriptor of the catalog, `rs1`, `rs2` in 0..31 and
every even displacement `d` with `-4096 <= d <= 4094`, the word of
`encodeBType` has bits 6:0 = opcode, 14:12 = funct3, 19:15 = rs1, 24:20 = rs2,
and the immediate rebuilt from bits 31, 7, 30:25, 11:8 and sign-extended from
bit 12 is `d`. -/
theorem encodeBType_roundtrip (name : Str) (instr : Instruction) (rs1 rs2 : Nat) (d : Int)
    (hm : createInstructionMap.lookup name = some instr) (_hf : instr.format = .B_TYPE)
    (hrs1 : rs1 < 32) (hrs2 : rs2 < 32) (heven : d % 2 = 0) (hlo : -4096 ≤ d)
    (hhi : d ≤ 4094) :
    bitField (encodeBType instr rs1 rs2 d) 6 0 = instr.opcode
      ∧ bitField (encodeBType instr rs1 rs2 d) 14 12 = instr.funct3
      ∧ bitField (encodeBType instr rs1 rs2 d) 19 15 = rs1
      ∧ bitField (encodeBType instr rs1 rs2 d) 24 20 = rs2
      ∧ decodeBImm (encodeBType instr rs1 rs2 d) = d := by
  have hi := descriptor_fieldsInRange name instr hm
  have e := encodeBType_arith instr rs1 rs2 d hi hrs1 hrs2
  obtain ⟨ho, h3, h7⟩ := hi
  have hs := bsplit (toU32 d)
  have h2 : toU32 d % 2 = 0 := by
    have := toU32_mod d 2 (by norm_num)
    omega
  have hrel : ((toU32 d / 4096 % 2 * 2 ^ 12 + toU32 d / 2048 % 2 * 2 ^ 11
      + toU32 d / 32 % 64 * 2 ^ 5 + toU32 d / 2 % 16 * 2 ^ 1 : Nat) : Int) = d % 8192 := by
    have hc := toU32_mod d 8192 (by norm_num)
    rw [hs, h2] at hc
    norm_num at hc ⊢
    exact hc
  obtain ⟨k0, k7, k8, k12, k15, k20, k25, k31⟩ :=
    bword_fields instr.opcode (toU32 d / 2048 % 2) (toU32 d / 2 % 16) instr.funct3 rs1 rs2
      (toU32 d / 32 % 64) (toU32 d / 4096 % 2) ho (by omega) (by omega) h3 hrs1 hrs2
      (by omega) (by omega) _ e
  refine ⟨k0, k12, k15, k20, ?_⟩
  unfold decodeBImm
  rw [k7, k8, k25, k31]
  exact signExtend_13 _ d hrel hlo (by omega)

/-- Witness of `encodeBType_roundtrip`: `bne`, `rs1 = 10`, `rs2 = 11`, `d = -4096`. -/
theorem encodeBType_roundtrip_witness :
    bitField (encodeBType (entry "bne" .B_TYPE 0b1100011 0b001 0).2 (10 : Nat) (11 : Nat)
        (-4096)) 6 0 = 0b1100011
      ∧ bitField (encodeBType (entry "bne" .B_TYPE 0b1100011 0b001 0).2 (10 : Nat) (11 : Nat)
        (-4096)) 14 12 = 0b001
      ∧ bitField (encodeBType (entry "bne" .B_TYPE 0b1100011 0b001 0).2 (10 : Nat) (11 : Nat)
        (-4096)) 19 15 = 10
      ∧ bitField (encodeBType (entry "bne" .B_TYPE 0b1100011 0b001 0).2 (10 : Nat) (11 : Nat)
        (-4096)) 24 20 = 11
      ∧ decodeBImm (encodeBType (entry "bne" .B_TYPE 0b1100011 0b001 0).2 (10 : Nat)
        (11 : Nat) (-4096)) = -4096 :=
  encodeBType_roundtrip "bne".toList (entry "bne" .B_TYPE 0b1100011 0b001 0).2 10 11 (-4096)
    (by decide) (by decide) (by decide) (by decide) (by decide) (by decide) (by decide)

/-- C5: for the `jal` descriptor, `rd` in 0..31 and every even displacement
`d` with `-1048576 <= d <= 1048574`, the word of `encodeJType` has bits
6:0 = opcode and 11:7 = rd, and the immediate rebuilt from bits 31, 19:12, 20,
30:21 and sign-extended from bit 20 is `d`. -/
theorem encodeJType_roundtrip (instr : Instruction) (rd : Nat) (d : Int)
    (hm : createInstructionMap.lookup "jal".toList = some instr)
    (hrd : rd < 32) (heven : d % 2 = 0) (hlo : -1048576 ≤ d) (hhi : d ≤ 1048574) :
    bitField (encodeJType instr rd d) 6 0 = instr.opcode
      ∧ bitField (encodeJType instr rd d) 11 7 = rd
      ∧ decodeJImm (encodeJType instr rd d) = d := by
  have hi := descriptor_fieldsInRange _ instr hm
  have e := encodeJType_arith instr rd d hi hrd
  obtain ⟨ho, h3, h7⟩ := hi
  have hs := jsplit (toU32 d)
  have h2 : toU32 d % 2 = 0 := by
    have := toU32_mod d 2 (by norm_num)
    omega
  have hrel : ((toU32 d / 1048576 % 2 * 2 ^ 20 + toU32 d / 4096 % 256 * 2 ^ 12
      + toU32 d / 2048 % 2 * 2 ^ 11 + toU32 d / 2 % 1024 * 2 ^ 1 : Nat) : Int)
        = d % 2097152 := by
    have hc := toU32_mod d 2097152 (by norm_num)
    rw [hs, h2] at hc
    norm_num at hc ⊢
    exact hc
  obtain ⟨k0, k7, k12, k20, k21, k31⟩ :=
    jword_fields instr.opcode rd (toU32 d / 4096 % 256) (toU32 d / 2048 % 2)
      (toU32 d / 2 % 1024) (toU32 d / 1048576 % 2) ho hrd (by omega) (by omega) (by omega)
      (by omega) _ e
  refine ⟨k0, k7, ?_⟩
  unfold decodeJImm
  rw [k12, k20, k21, k31]
  exact signExtend_21 _ d hrel hlo (by omega)

/-- Witness of `encodeJType_roundtrip`: `rd = 1`, `d = -8`. -/
theorem encodeJType_roundtrip_witness :
    bitField (encodeJType (entry "jal" .J_TYPE 0b1101111 0 0).2 (1 : Nat) (-8)) 6 0 = 0b1101111
      ∧ bitField (encodeJType (entry "jal" .J_TYPE 0b1101111 0 0).2 (1 : Nat) (-8)) 11 7 = 1
      ∧ decodeJImm (encodeJType (entry "jal" .J_TYPE 0b1101111 0 0).2 (1 : Nat) (-8)) = -8 :=
  encodeJType_roundtrip (entry "jal" .J_TYPE 0b1101111 0 0).2 1 (-8) (by decide) (by decide)
    (by decide) (by decide) (by decide)

/-- C7: for `lui` and `auipc`, `rd` in 0..31 and an immediate `imm`,
`encodeUType` returns `opcode + rd*2^7 +` the bit pattern of `imm` with its low
12 bits cleared; bits 31:12 of the word are bits 31:12 of `imm`, unshifted;
immediates that agree on bits 31:12 give the same word; and `lui x1, 0x12345`
and `lui x1, 0x12000` assemble to the same word `0x000120B7`. -/
theorem encodeUType_layout (name : Str) (instr : Instruction) (rd : Nat) (imm imm' : Int)
    (symbolTable : SymbolTable) (currentAddress : Nat)
    (_hn : name = "lui".toList ∨ name = "auipc".toList)
    (hm : createInstructionMap.lookup name = some instr) (hrd : rd < 32) :
    encodeUType instr rd imm
        = instr.opcode + rd * 2 ^ 7 + (toU32 imm - toU32 imm % 4096)
      ∧ bitField (encodeUType instr rd imm) 31 12 = bitField (toU32 imm) 31 12
      ∧ (toU32 imm / 4096 = toU32 imm' / 4096 →
          encodeUType instr rd imm = encodeUType instr rd imm')
      ∧ assembleLine "lui x1, 0x12345".toList symbolTable currentAddress = .ok 0x000120B7
      ∧ assembleLine "lui x1, 0x12000".toList symbolTable currentAddress = .ok 0x000120B7 := by
  have hi := descriptor_fieldsInRange _ instr hm
  have e := encodeUType_arith instr rd imm hi hrd
  have e' := encodeUType_arith instr rd imm' hi hrd
  obtain ⟨ho, h3, h7⟩ := hi
  have hl := toU32_lt imm
  refine ⟨by rw [e]; omega, ?_, ?_, rfl, rfl⟩
  · rw [e]
    simp only [bitField, Nat.shiftRight_eq_div_pow]
    norm_num
    omega
  · intro h
    rw [e, e', h]

/-- Witness of `encodeUType_layout`: `auipc`, `rd = 3`, immediates `0x12345`
and `0x12FFF`. -/
theorem encodeUType_layout_witness :
    encodeUType (entry "auipc" .U_TYPE 0b0010111 0 0).2 (3 : Nat) 0x12345
        = encodeUType (entry "auipc" .U_TYPE 0b0010111 0 0).2 (3 : Nat) 0x12FFF :=
  (encodeUType_layout "auipc".toList (entry "auipc" .U_TYPE 0b0010111 0 0).2 3 0x12345 0x12FFF
    [] 0 (Or.inr rfl) (by decide) (by decide)).2.2.1 (by decide)

/-! ## Numeric text and memory operands -/

theorem isdigit_isNumberChar (c : Char) (h : isdigit c = true) : isNumberChar c = true := by
  simp [isNumberChar, isxdigit, h]

theorem isxdigit_isNumberChar (c : Char) (h : isxdigit c = true) : isNumberChar c = true := by
  simp [isNumberChar, h]

theorem isNumber_chars (t : Str) (h : isNumber t = true) :
    t ≠ [] ∧ ∀ c ∈ t, isNumberChar c = true := by
  unfold isNumber at h
  cases t with
  | nil => simp at h
  | cons c0 r =>
    refine ⟨by simp, ?_⟩
    simp only [List.isEmpty_cons, Bool.false_eq_true, if_false] at h
    by_cases hx : hasHexMarker (c0 :: r) = true
    · rw [if_pos hx] at h
      match r, hx, h with
      | c1 :: c2 :: rest, hx, h =>
        simp only [hasHexMarker, Bool.and_eq_true, Bool.or_eq_true, beq_iff_eq] at hx
        simp only [List.drop_succ_cons, List.drop_zero, List.all_eq_true] at h
        intro c hc
        simp only [List.mem_cons] at hc
        rcases hc with e | e | e
        · subst e
          rw [hx.1]
          decide
        · subst e
          rcases hx.2 with e' | e' <;> rw [e'] <;> decide
        · exact isxdigit_isNumberChar c (h c (by simpa using e))
    · rw [if_neg hx] at h
      simp only [List.head?_cons, Option.some.injEq] at h
      by_cases hs : c0 = '-' ∨ c0 = '+'
      · rw [if_pos hs] at h
        simp only [List.drop_succ_cons, List.drop_zero, List.all_eq_true] at h
        intro c hc
        simp only [List.mem_cons] at hc
        rcases hc with e | e
        · subst e
          rcases hs with e' | e' <;> rw [e'] <;> decide
        · exact isdigit_isNumberChar c (h c e)
      · rw [if_neg hs] at h
        simp only [List.drop_zero, List.all_eq_true] at h
        intro c hc
        exact isdigit_isNumberChar c (h c hc)

theorem isNumberChar_plain (c : Char) (h : isNumberChar c = true) :
    isTrimChar c = false ∧ c ≠ ',' ∧ c ≠ '(' ∧ c ≠ ')' := by
  refine ⟨?_, ?_, ?_, ?_⟩
  · cases hc : isTrimChar c with
    | false => rfl
    | true =>
      exfalso
      simp only [isTrimChar, Bool.or_eq_true, beq_iff_eq] at hc
      rcases hc with ((e | e) | e) | e <;> subst e <;> revert h <;> decide
  · rintro rfl
    revert h
    decide
  · rintro rfl
    revert h
    decide
  · rintro rfl
    revert h
    decide


theorem not_mem_of_forall_ne (c : Char) (t : Str) (h : ∀ d ∈ t, d ≠ c) : c ∉ t :=
  fun hc => h c hc rfl

/-- What is known of a text accepted by `isNumber`. -/
theorem isNumber_shape (t : Str) (h : isNumber t = true) :
    isOperandToken t = true ∧ '(' ∉ t ∧ ')' ∉ t
      ∧ t.head?.any (fun c => !isTrimChar c) = true := by
  obtain ⟨hne, hall⟩ := isNumber_chars t h
  have hhead : t.head?.any (fun c => !isTrimChar c) = true := by
    cases t with
    | nil => exact absurd rfl hne
    | cons c r =>
      simp [(isNumberChar_plain c (hall c (by simp))).1]
  have hlast : t.getLast?.any (fun c => !isTrimChar c) = true := by
    rw [← List.head?_reverse]
    cases hr : t.reverse with
    | nil => exact absurd (List.reverse_eq_nil_iff.mp hr) hne
    | cons c r =>
      have hc : c ∈ t := by
        rw [← List.mem_reverse, hr]
        simp
      simp [(isNumberChar_plain c (hall c hc)).1]
  refine ⟨?_, ?_, ?_, hhead⟩
  · simp only [isOperandToken, Bool.and_eq_true, List.all_eq_true]
    refine ⟨⟨hhead, hlast⟩, ?_⟩
    intro c hc
    simpa using (isNumberChar_plain c (hall c hc)).2.1
  · exact not_mem_of_forall_ne _ _ (fun d hd => (isNumberChar_plain d (hall d hd)).2.2.1)
  · exact not_mem_of_forall_ne _ _ (fun d hd => (isNumberChar_plain d (hall d hd)).2.2.2)

theorem registers_short : ∀ p ∈ createRegisterMap, p.1.length < 5 := by
  decide

/-- A memory operand `offset(base)` is an operand token when the offset text
starts with no blank and neither part holds a comma. -/
theorem memOperand_token (t b : Str) (ht : t.head?.any (fun c => !isTrimChar c) = true)
    (htc : ',' ∉ t) (hbc : ',' ∉ b) : isOperandToken (memOperand t b) = true := by
  simp only [isOperandToken, Bool.and_eq_true, List.all_eq_true, memOperand]
  refine ⟨⟨head_any_append _ _ _ ht, ?_⟩, ?_⟩
  · rw [show t ++ '(' :: (b ++ [')']) = (t ++ '(' :: b) ++ [')'] by simp]
    exact getLast_any_append _ _ _ (by decide)
  · intro c hc
    simp only [List.mem_append, List.mem_cons, List.mem_singleton, List.not_mem_nil,
      or_false] at hc
    rcases hc with h | h | h | h
    · have : c ≠ ',' := fun e => htc (e ▸ h)
      simpa using this
    · subst h
      decide
    · have : c ≠ ',' := fun e => hbc (e ▸ h)
      simpa using this
    · subst h
      decide

/-- The function `parseMemoryOperand` on `offset(base)` with a numeric offset
text and a known base register. -/
theorem parseMemoryOperand_numeric (t b : Str) (registers : List (Str × Int))
    (off rs1 : Int) (ht : isNumber t = true) (hp : parseNumber t = .ok off)
    (hb : registers.lookup b = some rs1) (htok : isOperandToken b = true)
    (hbc : ')' ∉ b) (hlen : b.length < 18446744073709551616) :
    parseMemoryOperand (memOperand t b) registers = .ok (off, rs1) := by
  obtain ⟨ttok, hto, htc, -⟩ := isNumber_shape t ht
  have hopen : find '(' (memOperand t b) = some t.length :=
    find_append_cons '(' t _ hto
  have hclose : find ')' (memOperand t b) = some (t.length + 1 + b.length) := by
    have e : memOperand t b = (t ++ '(' :: b) ++ ')' :: [] := by simp [memOperand]
    rw [e, find_append_cons ')' (t ++ '(' :: b) [] (by simp [htc, hbc])]
    simp
    omega
  unfold parseMemoryOperand
  rw [hopen, hclose]
  have hcount : (t.length + 1 + b.length + 18446744073709551616 - t.length - 1)
      % 18446744073709551616 = b.length := by
    omega
  simp only [hcount]
  have e1 : (memOperand t b).take t.length = t := by simp [memOperand]
  have e2 : ((memOperand t b).drop (t.length + 1)).take b.length = b := by
    unfold memOperand
    rw [drop_length_succ_append]
    simp
  rw [e1, e2, token_trim t ttok, token_trim b htok]
  simp [ht, hp, hb]


/-- C6: for every store mnemonic `m`, register names `s` and `b` with indices
`rs2` and `rs1`, and a numeric offset text `t` parsing to `off`, the line
`m s, t(b)` assembles to `opcode + (off mod 32)*2^7 + funct3*2^12 + rs1*2^15 +
rs2*2^20 + ((off div 32) mod 128)*2^25`; the store mnemonics are `sb`, `sh`,
`sw`, and `sw x5, 8(x2)` gives `0x00512423`. -/
theorem assemble_store_word (m s b t : Str) (instr : Instruction) (rs2 rs1 off : Int)
    (symbolTable : SymbolTable) (currentAddress : Nat)
    (hm : createInstructionMap.lookup m = some instr) (hf : instr.format = .S_TYPE)
    (hs : createRegisterMap.lookup s = some rs2) (hb : createRegisterMap.lookup b = some rs1)
    (ht : isNumber t = true) (hp : parseNumber t = .ok off) :
    assembleLine (line2 m s (memOperand t b)) symbolTable currentAddress
        = .ok (instr.opcode + (off % 32).toNat * 2 ^ 7 + instr.funct3 * 2 ^ 12
            + rs1.toNat * 2 ^ 15 + rs2.toNat * 2 ^ 20 + (off / 32 % 128).toNat * 2 ^ 25)
      ∧ (createInstructionMap.filter (fun p => p.2.format = .S_TYPE)).map Prod.fst
        = ["sb".toList, "sh".toList, "sw".toList]
      ∧ assembleLine "sw x5, 8(x2)".toList symbolTable currentAddress = .ok 0x00512423 := by
  obtain ⟨hsp, hlow, hi⟩ := instructions_spec (m, instr) (lookup_mem _ _ _ hm)
  obtain ⟨ts, bs, cs, -, -⟩ := register_index s rs2 hs
  obtain ⟨tb, bb, cb, -, hbc⟩ := register_index b rs1 hb
  obtain ⟨ttok, -, -, thead⟩ := isNumber_shape t ht
  have hlen : b.length < 18446744073709551616 := by
    have := registers_short (b, rs1) (lookup_mem _ _ _ hb)
    simp only at this
    omega
  have hmem : isOperandToken (memOperand t b) = true :=
    memOperand_token t b thead (token_no_comma t ttok) (token_no_comma b tb)
  refine ⟨?_, by decide, rfl⟩
  unfold assembleLine assembleInstruction
  rw [splitInstruction_line2 m s _ hsp ts hmem]
  simp only at hlow
  simp only [hlow, hm, encodeOperands, hf]
  rw [findRegister_of_lookup _ _ _ hs,
    parseMemoryOperand_numeric t b createRegisterMap off rs1 ht hp hb tb hbc hlen]
  have := encodeSType_arith instr rs1.toNat rs2.toNat off hi bb bs
  rw [cb, cs] at this
  simp only [← this]
  rfl

/-- Witness of `assemble_store_word`: `sh a1, -3(sp)`. -/
theorem assemble_store_word_witness :
    assembleLine (line2 "sh".toList "a1".toList (memOperand "-3".toList "sp".toList)) [] 0
        = .ok (0b0100011 + ((-3 : Int) % 32).toNat * 2 ^ 7 + 0b001 * 2 ^ 12
            + (2 : Int).toNat * 2 ^ 15 + (11 : Int).toNat * 2 ^ 20
            + ((-3 : Int) / 32 % 128).toNat * 2 ^ 25) :=
  (assemble_store_word "sh".toList "a1".toList "sp".toList "-3".toList
    (entry "sh" .S_TYPE 0b0100011 0b001 0).2 11 2 (-3) [] 0
    (by decide) (by decide) (by decide) (by decide) (by decide) rfl).1

/-! ## Address accounting of the two passes -/

theorem add32_lt (a b : Nat) : add32 a b < 4294967296 := by
  unfold add32
  omega

theorem instructionCount_nil : instructionCount [] = 0 := rfl

theorem instructionCount_cons (l : Str) (ls : List Str) :
    instructionCount (l :: ls)
      = (if (instructionOf l).isSome then 1 else 0) + instructionCount ls := by
  unfold instructionCount
  by_cases h : (instructionOf l).isSome = true
  · simp [List.filter_cons, h]
    omega
  · simp [List.filter_cons, h]

theorem instructionCount_append (xs ys : List Str) :
    instructionCount (xs ++ ys) = instructionCount xs + instructionCount ys := by
  simp [instructionCount]

theorem instructionCount_replicate (n : Nat) (l : Str) (h : (instructionOf l).isSome = true) :
    instructionCount (List.replicate n l) = n := by
  induction n with
  | zero => rfl
  | succ k ih =>
    rw [List.replicate_succ, instructionCount_cons, ih, h]
    simp
    omega

theorem find_cases (c : Char) (t : Str) :
    find c t = none ∨ ∃ p, find c t = some p := by
  cases find c t with
  | none => exact Or.inl rfl
  | some p => exact Or.inr ⟨p, rfl⟩

/-- One step of pass 1 moves the counter by 4 exactly on the lines that hold
an instruction. -/
theorem pass1Step_address (s : Pass1State) (l : Str) :
    (pass1Step s l).address
      = if (instructionOf l).isSome then add32 s.address 4 else s.address := by
  unfold pass1Step instructionOf
  generalize trim (stripComment l) = t
  cases hline : t.isEmpty
  · have hne : t ≠ [] := by
      intro e
      subst e
      simp at hline
    rcases find_cases ':' t with hf | ⟨labelPos, hf⟩
    · simp [hf, hline, hne]
    · simp only [hf, Bool.false_eq_true, if_false]
      cases hr : (trim (List.drop (labelPos + 1) t)).isEmpty <;> simp [hne]
  · have he : t = [] := List.isEmpty_iff.mp hline
    subst he
    simp [find]

/-- One step of pass 1 binds the label of the line, if any, to the counter. -/
theorem pass1Step_label (s : Pass1State) (l label : Str) (h : labelOf l = some label) :
    (pass1Step s l).symbolTable.lookup label = some s.address := by
  unfold labelOf at h
  unfold pass1Step
  generalize trim (stripComment l) = t at h
  rcases find_cases ':' t with hf | ⟨labelPos, hf⟩
  · simp [hf] at h
  · simp only [hf, Option.some.injEq] at h
    have hne : t.isEmpty = false := by
      cases t with
      | nil => simp [find] at hf
      | cons c r => rfl
    simp only [hne, Bool.false_eq_true, if_false, h, hf]
    cases hr : (trim (List.drop (labelPos + 1) t)).isEmpty <;> simp [List.lookup]

/-- One step of pass 2 on a state that has not failed. -/
theorem pass2Step_running (symbolTable : SymbolTable) (s : Pass2State) (l : Str)
    (hs : s.failure = none) :
    pass2Step symbolTable s l
      = match instructionOf l with
        | none => s
        | some instruction =>
          match assembleLine instruction symbolTable s.address with
          | .ok machineCode =>
            { address := add32 s.address 4, words := s.words ++ [machineCode],
              failure := none }
          | .error e =>
            { address := s.address, words := s.words, failure := some (instruction, e) } := by
  unfold pass2Step instructionOf assembleLine
  simp only [hs]
  generalize trim (stripComment l) = t
  cases hline : t.isEmpty
  · rcases find_cases ':' t with hf | ⟨labelPos, hf⟩
    · simp only [hf, hline, Bool.false_eq_true, if_false]
      try rfl
    · simp only [hf, Bool.false_eq_true, if_false]
      cases hr : (trim (List.drop (labelPos + 1) t)).isEmpty
      · simp only [Bool.false_eq_true, if_false]
        try rfl
      · simp
  · have he : t = [] := List.isEmpty_iff.mp hline
    subst he
    simp [find]

theorem pass2Step_failed (symbolTable : SymbolTable) (s : Pass2State) (l : Str)
    (hs : s.failure ≠ none) : pass2Step symbolTable s l = s := by
  unfold pass2Step
  cases hf : s.failure with
  | none => exact absurd hf hs
  | some p => rfl

theorem pass2_fold_failed (symbolTable : SymbolTable) (s : Pass2State) (ls : List Str)
    (hs : s.failure ≠ none) : ls.foldl (pass2Step symbolTable) s = s := by
  induction ls with
  | nil => rfl
  | cons l ls ih => rw [List.foldl_cons, pass2Step_failed _ _ _ hs, ih]

theorem pass1_fold_address (s : Pass1State) (ls : List Str) (hs : s.address < 4294967296) :
    (ls.foldl pass1Step s).address = (s.address + 4 * instructionCount ls) % 4294967296 := by
  induction ls generalizing s with
  | nil =>
    simp only [List.foldl_nil, instructionCount_nil]
    omega
  | cons l ls ih =>
    rw [List.foldl_cons, instructionCount_cons]
    have hstep := pass1Step_address s l
    by_cases h : (instructionOf l).isSome = true
    · simp only [h, if_true] at hstep ⊢
      rw [ih _ (by rw [hstep]; exact add32_lt _ _), hstep]
      unfold add32
      omega
    · simp only [h, if_false, Bool.false_eq_true] at hstep ⊢
      rw [ih _ (by rw [hstep]; exact hs), hstep]
      omega

theorem pass2_fold_address (symbolTable : SymbolTable) (s : Pass2State) (ls : List Str)
    (hs : s.address < 4294967296)
    (hok : (ls.foldl (pass2Step symbolTable) s).failure = none) :
    (ls.foldl (pass2Step symbolTable) s).address
      = (s.address + 4 * instructionCount ls) % 4294967296 := by
  induction ls generalizing s with
  | nil =>
    simp only [List.foldl_nil, instructionCount_nil]
    omega
  | cons l ls ih =>
    rw [List.foldl_cons] at hok ⊢
    rw [instructionCount_cons]
    have hrun : s.failure = none := by
      by_contra hne
      rw [pass2Step_failed _ _ _ hne, pass2_fold_failed _ _ _ hne] at hok
      exact hne hok
    have hstep := pass2Step_running symbolTable s l hrun
    cases hi : instructionOf l with
    | none =>
      simp only [hi] at hstep
      rw [hstep] at hok ⊢
      rw [ih s hs hok]
      simp
    | some instruction =>
      simp only [hi] at hstep
      cases ha : assembleLine instruction symbolTable s.address with
      | ok w =>
        simp only [ha] at hstep
        rw [hstep] at hok ⊢
        rw [ih _ (add32_lt _ _) hok]
        simp only [Option.isSome_some, if_true]
        unfold add32
        omega
      | error e =>
        simp only [ha] at hstep
        rw [hstep] at hok
        rw [pass2_fold_failed _ _ _ (by simp)] at hok
        simp at hok

/-- The counter of pass 1 after a list of lines. -/
theorem pass1_address (ls : List Str) :
    (pass1 ls).address = 4 * instructionCount ls % 4294967296 := by
  unfold pass1
  rw [pass1_fold_address _ _ (by decide)]
  simp

/-- The counter of pass 2 after a list of lines that all assembled. -/
theorem pass2_address (symbolTable : SymbolTable) (ls : List Str)
    (hok : (pass2 symbolTable ls).failure = none) :
    (pass2 symbolTable ls).address = 4 * instructionCount ls % 4294967296 := by
  unfold pass2 at hok ⊢
  rw [pass2_fold_address _ _ _ (by decide) hok]
  simp

theorem take_succ_of_get (ls : List Str) (k : Nat) (l : Str) (h : ls[k]? = some l) :
    ls.take (k + 1) = ls.take k ++ [l] := by
  rw [List.take_succ, h]
  rfl


theorem pass1_snoc (ls : List Str) (l : Str) : pass1 (ls ++ [l]) = pass1Step (pass1 ls) l := by
  simp [pass1, List.foldl_append]

theorem pass2_snoc (symbolTable : SymbolTable) (ls : List Str) (l : Str) :
    pass2 symbolTable (ls ++ [l]) = pass2Step symbolTable (pass2 symbolTable ls) l := by
  simp [pass2, List.foldl_append]

/-- C8 (as stated, refuted): the counter is a `uint32_t`.  In a source of
`2^30 + 1` instruction lines the line of index `i = 2^30` is visited in pass 1
at address 0, not at `4 * i = 2^32`. -/
theorem address_wraps_at_2pow30 :
    (instructionOf "add x1, x2, x3".toList).isSome = true
      ∧ instructionCount
          ((List.replicate 1073741825 "add x1, x2, x3".toList).take 1073741824) = 1073741824
      ∧ (pass1 ((List.replicate 1073741825 "add x1, x2, x3".toList).take 1073741824)).address
          = 0
      ∧ (pass1 ((List.replicate 1073741825 "add x1, x2, x3".toList).take 1073741824)).address
          ≠ 4 * 1073741824 := by
  have hmin : min 1073741824 1073741825 = 1073741824 := by decide
  have hi : (instructionOf "add x1, x2, x3".toList).isSome = true := by decide
  have hc : instructionCount
      ((List.replicate 1073741825 "add x1, x2, x3".toList).take 1073741824)
        = 1073741824 := by
    rw [List.take_replicate, hmin, instructionCount_replicate _ _ hi]
  have ha : (pass1 ((List.replicate 1073741825 "add x1, x2, x3".toList).take
      1073741824)).address = 0 := by
    rw [pass1_address, hc]
  refine ⟨hi, hc, ha, ?_⟩
  rw [ha]
  decide

/-- C8 (amended): let `l` be the line of index `k` of a source and `i` the
number of instruction-bearing lines before it.  When pass 1 reaches `l` its
counter is `4 * i mod 2^32` (it is a 32-bit unsigned integer; this is `4 * i`
for `i < 2^30`).  When all earlier lines assemble, pass 2 reaches `l` with the
same counter and, if `l` holds an instruction, hands it to `assembleInstruction`
at that address.  A label on `l` is bound by pass 1 to that same value: label-only,
blank and comment-only lines add nothing. -/
theorem pass_addresses (lines : List Str) (k : Nat) (l : Str) (symbolTable : SymbolTable)
    (hl : lines[k]? = some l) :
    (pass1 (lines.take k)).address = 4 * instructionCount (lines.take k) % 4294967296
      ∧ ((pass2 symbolTable (lines.take k)).failure = none →
          (pass2 symbolTable (lines.take k)).address = (pass1 (lines.take k)).address
            ∧ ∀ instruction, instructionOf l = some instruction →
              (∀ w, assembleLine instruction symbolTable
                    (4 * instructionCount (lines.take k) % 4294967296) = .ok w →
                  pass2 symbolTable (lines.take (k + 1))
                    = { address := add32 (4 * instructionCount (lines.take k) % 4294967296) 4,
                        words := (pass2 symbolTable (lines.take k)).words ++ [w],
                        failure := none })
              ∧ (∀ e, assembleLine instruction symbolTable
                    (4 * instructionCount (lines.take k) % 4294967296) = .error e →
                  pass2 symbolTable (lines.take (k + 1))
                    = { address := 4 * instructionCount (lines.take k) % 4294967296,
                        words := (pass2 symbolTable (lines.take k)).words,
                        failure := some (instruction, e) }))
      ∧ (∀ label, labelOf l = some label →
          (pass1 (lines.take (k + 1))).symbolTable.lookup label
            = some (4 * instructionCount (lines.take k) % 4294967296))
      ∧ (instructionOf l = none →
          instructionCount (lines.take (k + 1)) = instructionCount (lines.take k))
      ∧ (instructionCount (lines.take k) < 1073741824 →
          4 * instructionCount (lines.take k) % 4294967296
            = 4 * instructionCount (lines.take k)) := by
  have h1 := pass1_address (lines.take k)
  have hsucc := take_succ_of_get lines k l hl
  refine ⟨h1, ?_, ?_, ?_, ?_⟩
  · intro hok
    have h2 := pass2_address symbolTable (lines.take k) hok
    refine ⟨by rw [h1, h2], ?_⟩
    intro instruction hi
    have hstep := pass2Step_running symbolTable (pass2 symbolTable (lines.take k)) l hok
    rw [← pass2_snoc, ← hsucc] at hstep
    simp only [hi, h2] at hstep
    constructor
    · intro w hw
      rw [hstep]
      simp only [hw]
    · intro e he
      rw [hstep]
      simp only [he]
  · intro label hlab
    rw [hsucc, pass1_snoc, pass1Step_label _ _ _ hlab, h1]
  · intro hn
    rw [hsucc, instructionCount_append, instructionCount_cons, hn]
    rfl
  · intro hlt
    omega

/-- Witness of `pass_addresses`: the fourth line of a five-line source, after a
label-only line, a comment line and two instructions. -/
theorem pass_addresses_witness :
    (pass1 (["top:".toList, "add x1, x2, x3".toList, "# note".toList,
        "loop: addi x1, x1, -1".toList, "bne x1, x0, loop".toList].take 3)).address
      = 4 * instructionCount (["top:".toList, "add x1, x2, x3".toList, "# note".toList,
          "loop: addi x1, x1, -1".toList, "bne x1, x0, loop".toList].take 3) % 4294967296
      ∧ instructionCount (["top:".toList, "add x1, x2, x3".toList, "# note".toList,
          "loop: addi x1, x1, -1".toList, "bne x1, x0, loop".toList].take 3) = 1 :=
  ⟨(pass_addresses ["top:".toList, "add x1, x2, x3".toList, "# note".toList,
      "loop: addi x1, x1, -1".toList, "bne x1, x0, loop".toList] 3
      "loop: addi x1, x1, -1".toList [] (by decide)).1, by decide⟩

/-! ## Symbolic targets and the current address -/

theorem resolveRelative_symbol (symbolTable : SymbolTable) (L : Str) (A pc : Nat)
    (hnum : isNumber L = false) (hA : symbolTable.lookup L = some A) :
    resolveRelative symbolTable L pc = .ok (toI32 (sub32 A pc)) := by
  simp [resolveRelative, hnum, hA]

theorem resolveAbsolute_symbol (symbolTable : SymbolTable) (L : Str) (A : Nat)
    (hnum : isNumber L = false) (hA : symbolTable.lookup L = some A) :
    resolveAbsolute symbolTable L = .ok (toI32 A) := by
  simp [resolveAbsolute, hnum, hA]

theorem resolveRelative_numeric (symbolTable : SymbolTable) (t : Str) (pc : Nat)
    (hnum : isNumber t = true) : resolveRelative symbolTable t pc = parseNumber t := by
  simp [resolveRelative, hnum]

/-- The displacement `A - pc` of 32-bit addresses, read as a signed number. -/
theorem toI32_sub32 (A pc : Nat) :
    -2147483648 ≤ toI32 (sub32 A pc) ∧ toI32 (sub32 A pc) ≤ 2147483647
      ∧ (toI32 (sub32 A pc) - ((A : Int) - (pc : Int))) % 4294967296 = 0
      ∧ (-2147483648 ≤ (A : Int) - (pc : Int) → (A : Int) - (pc : Int) ≤ 2147483647 →
          toI32 (sub32 A pc) = (A : Int) - (pc : Int)) := by
  unfold toI32 sub32
  split <;> omega

theorem jal_format (jal : Instruction)
    (h : createInstructionMap.lookup "jal".toList = some jal) : jal.format = .J_TYPE := by
  have e : createInstructionMap.lookup "jal".toList
      = some (entry "jal" .J_TYPE 0b1101111 0 0).2 := by decide
  rw [e] at h
  rw [← Option.some.inj h]
  rfl

/-- C9 (as stated, refuted): a non-numeric name bound in the symbol table can
hold a comma; the label `a,b` is bound by pass 1, yet the branch that names it
has four operands for `parseOperands` and fails with the operand-count error. -/
theorem branch_to_label_with_comma :
    createInstructionMap.lookup "beq".toList = some (entry "beq" .B_TYPE 0b1100011 0b000 0).2
      ∧ createRegisterMap.lookup "x1".toList = some 1
      ∧ createRegisterMap.lookup "x2".toList = some 2
      ∧ isNumber "a,b".toList = false
      ∧ (pass1 ["a,b: add x1, x2, x3".toList, "beq x1, x2, a,b".toList]).symbolTable
          = [("a,b".toList, 0)]
      ∧ List.lookup "a,b".toList [("a,b".toList, 0)] = some 0
      ∧ assembleLine (line3 "beq".toList "x1".toList "x2".toList "a,b".toList)
          [("a,b".toList, 0)] 4
          = .error (.operandCount .bType "beq x1, x2, a,b".toList)
      ∧ assembleLine (line3 "beq".toList "x1".toList "x2".toList "a,b".toList)
          [("a,b".toList, 0)] 4
          ≠ .ok (encodeBType (entry "beq" .B_TYPE 0b1100011 0b000 0).2 1 2
              (toI32 (sub32 0 4))) := by
  refine ⟨by decide, by decide, by decide, by decide, by decide, by decide, rfl, ?_⟩
  intro h
  have e : assembleLine (line3 "beq".toList "x1".toList "x2".toList "a,b".toList)
      [("a,b".toList, 0)] 4 = .error (.operandCount .bType "beq x1, x2, a,b".toList) := rfl
  rw [e] at h
  cases h

/-- C9 (amended): for every branch mnemonic `m`, known registers `a` and `b`
and a non-numeric target name `L` that is an operand token (not empty, no comma,
no blank at either end) bound in the symbol table to `A`, the line `m a, b, L`
assembles at address `pc` to `encodeBType` of the displacement `A - pc`,
computed modulo `2^32` and read as a signed 32-bit integer, forward or backward
alike; `jal r, L` and `jal L` use the same displacement in `encodeJType`. -/
theorem assemble_branch_symbol (m a b L : Str) (instr : Instruction) (rs1 rs2 : Int)
    (A pc : Nat) (symbolTable : SymbolTable)
    (hm : createInstructionMap.lookup m = some instr) (hf : instr.format = .B_TYPE)
    (ha : createRegisterMap.lookup a = some rs1) (hb : createRegisterMap.lookup b = some rs2)
    (hL : isOperandToken L = true) (hnum : isNumber L = false)
    (hA : symbolTable.lookup L = some A) :
    assembleLine (line3 m a b L) symbolTable pc
        = .ok (encodeBType instr rs1 rs2 (toI32 (sub32 A pc)))
      ∧ (∀ jal r rd, createInstructionMap.lookup "jal".toList = some jal →
          createRegisterMap.lookup r = some rd →
          assembleLine (line2 "jal".toList r L) symbolTable pc
            = .ok (encodeJType jal rd (toI32 (sub32 A pc))))
      ∧ (∀ jal, createInstructionMap.lookup "jal".toList = some jal →
          assembleLine (line1 "jal".toList L) symbolTable pc
            = .ok (encodeJType jal 1 (toI32 (sub32 A pc))))
      ∧ -2147483648 ≤ toI32 (sub32 A pc) ∧ toI32 (sub32 A pc) ≤ 2147483647
      ∧ (toI32 (sub32 A pc) - ((A : Int) - (pc : Int))) % 4294967296 = 0
      ∧ (-2147483648 ≤ (A : Int) - (pc : Int) → (A : Int) - (pc : Int) ≤ 2147483647 →
          toI32 (sub32 A pc) = (A : Int) - (pc : Int)) := by
  obtain ⟨hsp, hlow, -⟩ := instructions_spec (m, instr) (lookup_mem _ _ _ hm)
  obtain ⟨ta, -, -, -, -⟩ := register_index a rs1 ha
  obtain ⟨tb, -, -, -, -⟩ := register_index b rs2 hb
  refine ⟨?_, ?_, ?_, toI32_sub32 A pc⟩
  · unfold assembleLine assembleInstruction
    rw [splitInstruction_line3 m a b L hsp ta tb hL]
    simp only at hlow
    simp only [hlow, hm, encodeOperands, hf]
    rw [findRegister_of_lookup _ _ _ ha, findRegister_of_lookup _ _ _ hb,
      resolveRelative_symbol _ _ _ _ hnum hA]
    rfl
  · intro jal r rd hj hr
    obtain ⟨tr, -, -, -, -⟩ := register_index r rd hr
    have hjf : jal.format = .J_TYPE := jal_format jal hj
    unfold assembleLine assembleInstruction
    rw [splitInstruction_line2 _ r L (by decide) tr hL]
    rw [show (trim "jal".toList).map tolower = "jal".toList by decide]
    simp only [hj, encodeOperands, hjf]
    rw [findRegister_of_lookup _ _ _ hr, resolveRelative_symbol _ _ _ _ hnum hA]
    rfl
  · intro jal hj
    have hjf : jal.format = .J_TYPE := jal_format jal hj
    unfold assembleLine assembleInstruction
    rw [splitInstruction_line1 _ L (by decide) hL]
    rw [show (trim "jal".toList).map tolower = "jal".toList by decide]
    simp only [hj, encodeOperands, hjf]
    rw [resolveRelative_symbol _ _ _ _ hnum hA]
    rfl


/-- Witness of `assemble_branch_symbol`: a backward branch, `bge t0, t1, loop`
at address 12 with `loop` bound to 4. -/
theorem assemble_branch_symbol_witness :
    assembleLine (line3 "bge".toList "t0".toList "t1".toList "loop".toList)
        [("loop".toList, 4)] 12
      = .ok (encodeBType (entry "bge" .B_TYPE 0b1100011 0b101 0).2 5 6 (toI32 (sub32 4 12)))
      ∧ toI32 (sub32 4 12) = -8 :=
  ⟨(assemble_branch_symbol "bge".toList "t0".toList "t1".toList "loop".toList
    (entry "bge" .B_TYPE 0b1100011 0b101 0).2 5 6 4 12 [("loop".toList, 4)]
    (by decide) (by decide) (by decide) (by decide) (by decide) (by decide) (by decide)).1,
    by decide⟩

/-- The dispatch does not read the current address unless the line has a
relative target. -/
theorem encodeOperands_address_free (instr : Instruction) (opcode : Str)
    (operands : List Str) (line : Str) (symbolTable : SymbolTable) (pc1 pc2 : Nat)
    (h : (match instr.format, operands with
      | .B_TYPE, [_, _, target] => !isNumber target
      | .J_TYPE, [_, target] => !isNumber target
      | .J_TYPE, [target] => !isNumber target
      | _, _ => false) = false) :
    encodeOperands instr opcode operands line createRegisterMap symbolTable pc1
      = encodeOperands instr opcode operands line createRegisterMap symbolTable pc2 := by
  unfold encodeOperands
  cases hf : instr.format <;> simp only [hf] at h ⊢
  · rcases operands with _ | ⟨a, _ | ⟨b, _ | ⟨t, _ | ⟨u, r⟩⟩⟩⟩ <;> try rfl
    simp only [Bool.not_eq_false'] at h
    simp only [resolveRelative_numeric _ _ _ h]
  · rcases operands with _ | ⟨a, _ | ⟨b, _ | ⟨t, r⟩⟩⟩ <;> try rfl
    · simp only [Bool.not_eq_false'] at h
      simp only [resolveRelative_numeric _ _ _ h]
    · simp only [Bool.not_eq_false'] at h
      simp only [resolveRelative_numeric _ _ _ h]


/-- C10: the result of `assembleInstruction` depends on the current address only
for a branch or `jal` line whose target operand is not numeric: any other line
gives the same result (word or error) at any two addresses.  A numeric branch
or `jal` target is passed to the encoder verbatim, and a symbolic operand of a
register-immediate instruction, `jalr`, `lui` or `auipc` is passed as the
symbol's absolute address. -/
theorem address_independence (line : Str) (symbolTable : SymbolTable) (pc1 pc2 : Nat) :
    (hasRelativeTarget line = false →
        assembleLine line symbolTable pc1 = assembleLine line symbolTable pc2)
      ∧ (∀ opcode a b t instr rs1 rs2 v,
          splitInstruction line = some (opcode, [a, b, t]) →
          createInstructionMap.lookup opcode = some instr → instr.format = .B_TYPE →
          createRegisterMap.lookup a = some rs1 → createRegisterMap.lookup b = some rs2 →
          isNumber t = true → parseNumber t = .ok v →
          assembleLine line symbolTable pc1 = .ok (encodeBType instr rs1 rs2 v))
      ∧ (∀ opcode a t instr rd v,
          splitInstruction line = some (opcode, [a, t]) →
          createInstructionMap.lookup opcode = some instr → instr.format = .J_TYPE →
          createRegisterMap.lookup a = some rd →
          isNumber t = true → parseNumber t = .ok v →
          assembleLine line symbolTable pc1 = .ok (encodeJType instr rd v))
      ∧ (∀ opcode t instr v,
          splitInstruction line = some (opcode, [t]) →
          createInstructionMap.lookup opcode = some instr → instr.format = .J_TYPE →
          isNumber t = true → parseNumber t = .ok v →
          assembleLine line symbolTable pc1 = .ok (encodeJType instr 1 v))
      ∧ (∀ opcode a b L instr rd rs1 A,
          splitInstruction line = some (opcode, [a, b, L]) →
          createInstructionMap.lookup opcode = some instr → instr.format = .I_TYPE →
          isLoadName opcode = false →
          createRegisterMap.lookup a = some rd → createRegisterMap.lookup b = some rs1 →
          isNumber L = false → symbolTable.lookup L = some A →
          assembleLine line symbolTable pc1 = .ok (encodeIType instr rd rs1 (toI32 A)))
      ∧ (∀ a L instr rs1 A,
          splitInstruction line = some ("jalr".toList, [a, L]) →
          createInstructionMap.lookup "jalr".toList = some instr →
          createRegisterMap.lookup a = some rs1 →
          isNumber L = false → symbolTable.lookup L = some A →
          assembleLine line symbolTable pc1 = .ok (encodeIType instr 1 rs1 (toI32 A)))
      ∧ (∀ opcode a L instr rd A,
          splitInstruction line = some (opcode, [a, L]) →
          createInstructionMap.lookup opcode = some instr → instr.format = .U_TYPE →
          createRegisterMap.lookup a = some rd →
          isNumber L = false → symbolTable.lookup L = some A →
          assembleLine line symbolTable pc1 = .ok (encodeUType instr rd (toI32 A))) := by
  refine ⟨?_, ?_, ?_, ?_, ?_, ?_, ?_⟩
  · intro h
    unfold hasRelativeTarget at h
    unfold assembleLine assembleInstruction
    cases hs : splitInstruction line with
    | none => rfl
    | some p =>
      obtain ⟨opcode, operands⟩ := p
      simp only [hs] at h ⊢
      cases hl : createInstructionMap.lookup opcode with
      | none => rfl
      | some instr =>
        simp only [hl] at h ⊢
        exact encodeOperands_address_free instr opcode operands line symbolTable pc1 pc2 h
  · intro opcode a b t instr rs1 rs2 v hs hl hf ha hb hn hp
    unfold assembleLine assembleInstruction
    simp only [hs, hl, encodeOperands, hf]
    rw [findRegister_of_lookup _ _ _ ha, findRegister_of_lookup _ _ _ hb,
      resolveRelative_numeric _ _ _ hn, hp]
    rfl
  · intro opcode a t instr rd v hs hl hf ha hn hp
    unfold assembleLine assembleInstruction
    simp only [hs, hl, encodeOperands, hf]
    rw [findRegister_of_lookup _ _ _ ha, resolveRelative_numeric _ _ _ hn, hp]
    rfl
  · intro opcode t instr v hs hl hf hn hp
    unfold assembleLine assembleInstruction
    simp only [hs, hl, encodeOperands, hf]
    rw [resolveRelative_numeric _ _ _ hn, hp]
    rfl
  · intro opcode a b L instr rd rs1 A hs hl hf hload ha hb hn hA
    unfold assembleLine assembleInstruction
    simp only [hs, hl, encodeOperands, hf, hload]
    by_cases hj : (opcode == "jalr".toList) = true
    · simp only [hj, if_true, Bool.false_eq_true, if_false]
      rw [findRegister_of_lookup _ _ _ ha, findRegister_of_lookup _ _ _ hb,
        resolveAbsolute_symbol _ _ _ hn hA]
      rfl
    · simp only [hj, if_false, Bool.false_eq_true]
      rw [findRegister_of_lookup _ _ _ ha, findRegister_of_lookup _ _ _ hb,
        resolveAbsolute_symbol _ _ _ hn hA]
      rfl
  · intro a L instr rs1 A hs hl ha hn hA
    have hf : instr.format = .I_TYPE := by
      have e : createInstructionMap.lookup "jalr".toList
          = some (entry "jalr" .I_TYPE 0b1100111 0b000 0).2 := by decide
      rw [e] at hl
      rw [← Option.some.inj hl]
      rfl
    unfold assembleLine assembleInstruction
    simp only [hs, hl, encodeOperands, hf]
    rw [show isLoadName "jalr".toList = false by decide]
    simp only [Bool.false_eq_true, if_false, beq_self_eq_true, if_true]
    rw [findRegister_of_lookup _ _ _ ha, resolveAbsolute_symbol _ _ _ hn hA]
    rfl
  · intro opcode a L instr rd A hs hl hf ha hn hA
    unfold assembleLine assembleInstruction
    simp only [hs, hl, encodeOperands, hf]
    rw [findRegister_of_lookup _ _ _ ha, resolveAbsolute_symbol _ _ _ hn hA]
    rfl

/-- Witness of `address_independence`: a branch with a numeric target gives the
same word at addresses 0 and 400, the number being the encoded displacement. -/
theorem address_independence_witness :
    assembleLine "beq x1, x2, 8".toList [] 0 = assembleLine "beq x1, x2, 8".toList [] 400
      ∧ assembleLine "beq x1, x2, 8".toList [] 0
          = .ok (encodeBType (entry "beq" .B_TYPE 0b1100011 0b000 0).2 1 2 8) :=
  ⟨(address_independence "beq x1, x2, 8".toList [] 0 400).1 (by decide),
    (address_independence "beq x1, x2, 8".toList [] 0 400).2.1 "beq".toList "x1".toList
      "x2".toList "8".toList (entry "beq" .B_TYPE 0b1100011 0b000 0).2 1 2 8
      (by decide) (by decide) (by decide) (by decide) (by decide) (by decide) rfl⟩

/-! ## Operand counts -/

theorem isLoadName_iff (opcode : Str) :
    isLoadName opcode = true
      ↔ opcode ∈ ["lb".toList, "lh".toList, "lw".toList, "lbu".toList, "lhu".toList] := by
  simp [isLoadName, or_assoc]

theorem operandRoles_isSome (c : InstrClass) (n : Nat) :
    (operandRoles c n).isSome = countAllowed c n := by
  cases c <;> rcases n with _ | _ | _ | _ | n <;> simp [operandRoles, countAllowed]

/-- The dispatch on a list of operands whose count the class does not allow. -/
theorem encodeOperands_bad_count (instr : Instruction) (opcode : Str) (operands : List Str)
    (line : Str) (registers : List (Str × Int)) (symbolTable : SymbolTable) (pc : Nat)
    (h : operandRoles (classOf opcode instr) operands.length = none) :
    encodeOperands instr opcode operands line registers symbolTable pc
      = .error (.operandCount (countRule (classOf opcode instr)) line) := by
  unfold encodeOperands
  unfold classOf at h ⊢
  cases hf : instr.format <;> simp only [hf] at h ⊢
  · rcases operands with _ | ⟨a, _ | ⟨b, _ | ⟨c, _ | ⟨d, r⟩⟩⟩⟩ <;>
      first | rfl | (simp [operandRoles] at h)
  · by_cases hl : isLoadName opcode = true
    · have hl' := (isLoadName_iff opcode).mp hl
      simp only [hl, hl', if_true] at h ⊢
      rcases operands with _ | ⟨a, _ | ⟨b, _ | ⟨c, r⟩⟩⟩ <;>
        first | rfl | (simp [operandRoles] at h)
    · have hl' : ¬ opcode ∈ ["lb".toList, "lh".toList, "lw".toList, "lbu".toList,
          "lhu".toList] := fun hm => hl ((isLoadName_iff opcode).mpr hm)
      simp only [hl, hl', if_false] at h ⊢
      by_cases hj : opcode = "jalr".toList
      · simp only [hj, if_true, beq_self_eq_true] at h ⊢
        rcases operands with _ | ⟨a, _ | ⟨b, _ | ⟨c, _ | ⟨d, r⟩⟩⟩⟩ <;>
          first | rfl | (simp [operandRoles] at h)
      · have hj' : (opcode == "jalr".toList) = false := by simpa using hj
        simp only [hj, hj', if_false, Bool.false_eq_true] at h ⊢
        rcases operands with _ | ⟨a, _ | ⟨b, _ | ⟨c, _ | ⟨d, r⟩⟩⟩⟩ <;>
          first | rfl | (simp [operandRoles] at h)
  · rcases operands with _ | ⟨a, _ | ⟨b, _ | ⟨c, r⟩⟩⟩ <;>
      first | rfl | (simp [operandRoles] at h)
  · rcases operands with _ | ⟨a, _ | ⟨b, _ | ⟨c, _ | ⟨d, r⟩⟩⟩⟩ <;>
      first | rfl | (simp [operandRoles] at h)
  · rcases operands with _ | ⟨a, _ | ⟨b, _ | ⟨c, r⟩⟩⟩ <;>
      first | rfl | (simp [operandRoles] at h)
  · rcases operands with _ | ⟨a, _ | ⟨b, _ | ⟨c, r⟩⟩⟩ <;>
      first | rfl | (simp [operandRoles] at h)

/-- C12: for every line whose mnemonic is in the catalog and whose operand
list, as split by `parseOperands`, has a count the mnemonic's class does not
allow (3 for R-type, register-immediate and branch; 2 for loads, stores, `lui`
and `auipc`; 1 or 2 for `jal`; 2 or 3 for `jalr`), `assembleInstruction` fails
with the operand-count error of that class and returns no word, whatever the
operands are. -/
theorem wrong_operand_count (line opcode : Str) (operands : List Str) (instr : Instruction)
    (symbolTable : SymbolTable) (currentAddress : Nat)
    (hs : splitInstruction line = some (opcode, operands))
    (hl : createInstructionMap.lookup opcode = some instr)
    (hc : countAllowed (classOf opcode instr) operands.length = false) :
    assembleLine line symbolTable currentAddress
        = .error (.operandCount (countRule (classOf opcode instr)) line)
      ∧ ∀ w, assembleLine line symbolTable currentAddress ≠ .ok w := by
  have hnone : operandRoles (classOf opcode instr) operands.length = none := by
    have h := operandRoles_isSome (classOf opcode instr) operands.length
    rw [hc] at h
    cases hr : operandRoles (classOf opcode instr) operands.length with
    | none => rfl
    | some roles => simp [hr] at h
  have e : assembleLine line symbolTable currentAddress
      = .error (.operandCount (countRule (classOf opcode instr)) line) := by
    unfold assembleLine assembleInstruction
    simp only [hs, hl]
    exact encodeOperands_bad_count instr opcode operands line _ _ _ hnone
  refine ⟨e, ?_⟩
  intro w hw
  rw [e] at hw
  cases hw

/-- Witness of `wrong_operand_count`: `add x1, x2` with valid registers. -/
theorem wrong_operand_count_witness :
    assembleLine "add x1, x2".toList [] 0
      = .error (.operandCount .rType "add x1, x2".toList) :=
  (wrong_operand_count "add x1, x2".toList "add".toList ["x1".toList, "x2".toList]
    (entry "add" .R_TYPE 0b0110011 0b000 0b0000000).2 [] 0 (by decide) (by decide)
    (by decide)).1

/-! ## The output lines of a word -/

theorem bit_char_value (v i : Nat) :
    (if (if v.testBit i then '1' else '0') = '1' then 1 else 0) = v / 2 ^ i % 2 := by
  rw [Nat.testBit_to_div_mod]
  have h : v / 2 ^ i % 2 < 2 := Nat.mod_lt _ (by decide)
  by_cases h1 : v / 2 ^ i % 2 = 1
  · simp [h1]
  · have h0 : v / 2 ^ i % 2 = 0 := by omega
    simp [h0]

/-- The eight low bits of a number, most significant first, add up to its
residue modulo 256. -/
theorem byte_split (v : Nat) :
    2 * (2 * (2 * (2 * (2 * (2 * (2 * (v / 128 % 2) + v / 64 % 2) + v / 32 % 2) + v / 16 % 2)
      + v / 8 % 2) + v / 4 % 2) + v / 2 % 2) + v % 2 = v % 256 := by
  have h1 : v % 256 = v / 128 % 2 * 128 + v % 128 := by omega
  have h2 : v % 128 = v / 64 % 2 * 64 + v % 64 := by omega
  have h3 : v % 64 = v / 32 % 2 * 32 + v % 32 := by omega
  have h4 : v % 32 = v / 16 % 2 * 16 + v % 16 := by omega
  have h5 : v % 16 = v / 8 % 2 * 8 + v % 8 := by omega
  have h6 : v % 8 = v / 4 % 2 * 4 + v % 4 := by omega
  have h7 : v % 4 = v / 2 % 2 * 2 + v % 2 := by omega
  omega

theorem readBinary_bitset8 (v : Nat) : readBinary (bitset8ToString v) = v % 256 := by
  simp only [readBinary, bitset8ToString, List.map_cons, List.map_nil, List.foldl_cons,
    List.foldl_nil, bit_char_value]
  have := byte_split v
  norm_num at this ⊢
  omega

theorem bitset8_length (v : Nat) : (bitset8ToString v).length = 8 := rfl

theorem bitset8_chars (v : Nat) : ∀ c ∈ bitset8ToString v, c = '0' ∨ c = '1' := by
  intro c hc
  simp only [bitset8ToString, List.map_cons, List.map_nil, List.mem_cons, List.mem_singleton,
    List.not_mem_nil, or_false] at hc
  rcases hc with h | h | h | h | h | h | h | h <;> rw [h] <;> split <;> simp

/-- Character `j` of the rendering is bit `7 - j` of the value. -/
theorem bitset8_get (v j : Nat) (hj : j < 8) :
    (bitset8ToString v)[j]? = some (if v / 2 ^ (7 - j) % 2 = 1 then '1' else '0') := by
  have e : ∀ i, v.testBit i = decide (v / 2 ^ i % 2 = 1) := fun i => Nat.testBit_to_div_mod
  interval_cases j <;> simp [bitset8ToString, e]

theorem land_0xFF (x : Nat) : x &&& 0xFF = x % 256 := by
  have h := land_field x 8 0
  norm_num at h
  exact h

/-- C14: for every 32-bit word `w`, `writeMachineCode` emits exactly four lines
of exactly eight characters `0` or `1`; line `k` renders the byte
`(w >> 8k) & 0xFF`, most significant bit first, so the least significant byte
comes first; and the four lines read back as bytes `b0..b3` give
`b0 + b1*2^8 + b2*2^16 + b3*2^24 = w`. -/
theorem writeMachineCode_layout (w : Nat) (hw : w < 4294967296) :
    (writeMachineCode w).length = 4
      ∧ (∀ line ∈ writeMachineCode w, line.length = 8 ∧ ∀ c ∈ line, c = '0' ∨ c = '1')
      ∧ (∀ k, k < 4 → ∃ line, (writeMachineCode w)[k]? = some line
          ∧ line = bitset8ToString ((w >>> (8 * k)) &&& 0xFF)
          ∧ (∀ j, j < 8 → (line)[j]?
              = some (if ((w >>> (8 * k)) &&& 0xFF) / 2 ^ (7 - j) % 2 = 1 then '1' else '0'))
          ∧ readBinary line = (w >>> (8 * k)) &&& 0xFF)
      ∧ (∃ l0 l1 l2 l3, writeMachineCode w = [l0, l1, l2, l3]
          ∧ readBinary l0 + readBinary l1 * 2 ^ 8 + readBinary l2 * 2 ^ 16
              + readBinary l3 * 2 ^ 24 = w) := by
  refine ⟨rfl, ?_, ?_, ?_⟩
  · intro line hl
    simp only [writeMachineCode, List.mem_cons, List.mem_singleton, List.not_mem_nil,
      or_false] at hl
    rcases hl with h | h | h | h <;> rw [h] <;> exact ⟨bitset8_length _, bitset8_chars _⟩
  · intro k hk
    have hb : ∀ x, readBinary (bitset8ToString (x &&& 0xFF)) = x &&& 0xFF := by
      intro x
      rw [readBinary_bitset8, land_0xFF]
      omega
    interval_cases k
    · exact ⟨_, rfl, rfl, fun j hj => bitset8_get _ j hj, hb _⟩
    · exact ⟨_, rfl, rfl, fun j hj => bitset8_get _ j hj, hb _⟩
    · exact ⟨_, rfl, rfl, fun j hj => bitset8_get _ j hj, hb _⟩
    · exact ⟨_, rfl, rfl, fun j hj => bitset8_get _ j hj, hb _⟩
  · refine ⟨_, _, _, _, rfl, ?_⟩
    simp only [readBinary_bitset8, land_0xFF, Nat.shiftRight_eq_div_pow]
    omega

/-- Witness of `writeMachineCode_layout`: the word of `add x1, x2, x3`. -/
theorem writeMachineCode_layout_witness :
    writeMachineCode 0x003100B3
        = ["10110011".toList, "00000000".toList, "00110001".toList, "00000000".toList]
      ∧ (writeMachineCode 0x003100B3).length = 4 :=
  ⟨by decide, (writeMachineCode_layout 0x003100B3 (by decide)).1⟩

/-! ## The instruction catalog -/

theorem lookup_none_of_not_mem {α : Type} (l : List (Str × α)) (k : Str)
    (h : k ∉ l.map Prod.fst) : l.lookup k = none := by
  induction l with
  | nil => rfl
  | cons p ps ih =>
    obtain ⟨k', v'⟩ := p
    simp only [List.map_cons, List.mem_cons, not_or] at h
    rw [List.lookup_cons]
    have : (k == k') = false := by simpa using h.1
    rw [this]
    exact ih h.2

/-- C15: the instruction catalog holds exactly the 37 RV32I mnemonics, each
stored once under its own name with the format, opcode, funct3 and funct7 of the
RV32I base ISA (an unassigned field is stored as 0); and a line whose
lower-cased mnemonic is none of them fails with the unknown-instruction error. -/
theorem catalog_is_rv32i (line opcode : Str) (operands : List Str)
    (symbolTable : SymbolTable) (currentAddress : Nat) :
    createInstructionMap = rv32iBase.map descriptorOf
      ∧ createInstructionMap.map Prod.fst
          = ["add", "sub", "sll", "slt", "sltu", "xor", "srl", "sra", "or", "and", "addi",
              "slti", "sltiu", "xori", "ori", "andi", "slli", "srli", "srai", "lb", "lh",
              "lw", "lbu", "lhu", "sb", "sh", "sw", "beq", "bne", "blt", "bge", "bltu",
              "bgeu", "lui", "auipc", "jal", "jalr"].map String.toList
      ∧ createInstructionMap.length = 37
      ∧ (createInstructionMap.map Prod.fst).Nodup
      ∧ (∀ p ∈ createInstructionMap, p.2.name = p.1 ∧ p.2.opcode < 2 ^ 7
          ∧ p.2.funct3 < 2 ^ 3 ∧ p.2.funct7 < 2 ^ 7)
      ∧ createInstructionMap.lookup "sub".toList
          = some { name := "sub".toList, format := .R_TYPE, opcode := 0b0110011,
                   funct3 := 0b000, funct7 := 0b0100000 }
      ∧ createInstructionMap.lookup "srai".toList
          = some { name := "srai".toList, format := .I_TYPE, opcode := 0b0010011,
                   funct3 := 0b101, funct7 := 0b0100000 }
      ∧ createInstructionMap.lookup "bgeu".toList
          = some { name := "bgeu".toList, format := .B_TYPE, opcode := 0b1100011,
                   funct3 := 0b111, funct7 := 0 }
      ∧ createInstructionMap.lookup "jalr".toList
          = some { name := "jalr".toList, format := .I_TYPE, opcode := 0b1100111,
                   funct3 := 0b000, funct7 := 0 }
      ∧ (splitInstruction line = some (opcode, operands) →
          opcode ∉ createInstructionMap.map Prod.fst →
          assembleLine line symbolTable currentAddress = .error (.unknownInstruction opcode)) := by
  refine ⟨by decide, by decide, by decide, by decide, by decide, by decide, by decide,
    by decide, by decide, ?_⟩
  intro hs hn
  unfold assembleLine assembleInstruction
  simp only [hs, lookup_none_of_not_mem _ _ hn]

/-- Witness of `catalog_is_rv32i`: the line `NOP x0`. -/
theorem catalog_is_rv32i_witness :
    assembleLine "NOP x0".toList [] 0 = .error (.unknownInstruction "nop".toList) :=
  (catalog_is_rv32i "NOP x0".toList "nop".toList ["x0".toList] [] 0).2.2.2.2.2.2.2.2.2
    (by decide) (by decide)

/-! ## Register aliases -/

/-- The function `parseMemoryOperand` on `offset(base)` when the offset text
holds no parenthesis and the base text is a plain token. -/
theorem parseMemoryOperand_shape (off b : Str) (registers : List (Str × Int))
    (hoo : '(' ∉ off) (hoc : ')' ∉ off) (htok : isOperandToken b = true)
    (hbc : ')' ∉ b) (hlen : b.length < 18446744073709551616) :
    parseMemoryOperand (memOperand off b) registers
      = match (if isNumber (trim off) then parseNumber (trim off) else .ok 0 :
            Except AsmError Int) with
        | .error e => .error e
        | .ok offset =>
          match registers.lookup b with
          | none => .error (.unknownRegister b)
          | some number => .ok (offset, number) := by
  have hopen : find '(' (memOperand off b) = some off.length :=
    find_append_cons '(' off _ hoo
  have hclose : find ')' (memOperand off b) = some (off.length + 1 + b.length) := by
    have e : memOperand off b = (off ++ '(' :: b) ++ ')' :: [] := by simp [memOperand]
    rw [e, find_append_cons ')' (off ++ '(' :: b) [] (by simp [hoc, hbc])]
    simp
    omega
  unfold parseMemoryOperand
  rw [hopen, hclose]
  have hcount : (off.length + 1 + b.length + 18446744073709551616 - off.length - 1)
      % 18446744073709551616 = b.length := by
    omega
  simp only [hcount]
  have e1 : (memOperand off b).take off.length = off := by simp [memOperand]
  have e2 : ((memOperand off b).drop (off.length + 1)).take b.length = b := by
    unfold memOperand
    rw [drop_length_succ_append]
    simp
  rw [e1, e2, token_trim b htok]

/-- Two catalog names of one register give the same memory operand. -/
theorem parseMemoryOperand_alias (off r r' : Str) (n : Int) (hoo : '(' ∉ off)
    (hoc : ')' ∉ off) (hr : createRegisterMap.lookup r = some n)
    (hr' : createRegisterMap.lookup r' = some n) :
    parseMemoryOperand (memOperand off r) createRegisterMap
      = parseMemoryOperand (memOperand off r') createRegisterMap := by
  obtain ⟨t, -, -, -, c⟩ := register_index r n hr
  obtain ⟨t', -, -, -, c'⟩ := register_index r' n hr'
  have hlen : r.length < 18446744073709551616 := by
    have := registers_short (r, n) (lookup_mem _ _ _ hr)
    simp only at this
    omega
  have hlen' : r'.length < 18446744073709551616 := by
    have := registers_short (r', n) (lookup_mem _ _ _ hr')
    simp only at this
    omega
  rw [parseMemoryOperand_shape off r _ hoo hoc t c hlen,
    parseMemoryOperand_shape off r' _ hoo hoc t' c' hlen', hr, hr']

theorem findRegister_alias (r r' : Str) (n : Int) (hr : createRegisterMap.lookup r = some n)
    (hr' : createRegisterMap.lookup r' = some n) :
    findRegister createRegisterMap r = findRegister createRegisterMap r' := by
  rw [findRegister_of_lookup _ _ _ hr, findRegister_of_lookup _ _ _ hr']

/-! ## Undefined symbols -/

theorem resolveAbsolute_unbound (symbolTable : SymbolTable) (L : Str)
    (hnum : isNumber L = false) (hun : symbolTable.lookup L = none) :
    resolveAbsolute symbolTable L = .error (.unknownSymbol L) := by
  simp [resolveAbsolute, hnum, hun]

theorem resolveRelative_unbound (symbolTable : SymbolTable) (L : Str) (pc : Nat)
    (hnum : isNumber L = false) (hun : symbolTable.lookup L = none) :
    resolveRelative symbolTable L pc = .error (.unknownSymbol L) := by
  simp [resolveRelative, hnum, hun]

theorem findRegister_of_isSome (registers : List (Str × Int)) (name : Str)
    (h : (registers.lookup name).isSome = true) :
    ∃ n, findRegister registers name = .ok n := by
  obtain ⟨n, hn⟩ := Option.isSome_iff_exists.mp h
  exact ⟨n, findRegister_of_lookup _ _ _ hn⟩

/-- The dispatch on a well-formed operand list whose register operands are
valid and whose immediate or target operand is an unbound symbol. -/
theorem encodeOperands_unbound (instr : Instruction) (opcode : Str) (ops : List Str)
    (line : Str) (symbolTable : SymbolTable) (pc : Nat) (roles : List OperandRole) (L : Str)
    (hroles : operandRoles (classOf opcode instr) ops.length = some roles)
    (hregs : ∀ p ∈ roles.zip ops, p.1 = OperandRole.register →
      (createRegisterMap.lookup p.2).isSome = true)
    (hsym : (OperandRole.immediate, L) ∈ roles.zip ops
      ∨ (OperandRole.target, L) ∈ roles.zip ops)
    (hnum : isNumber L = false) (hun : symbolTable.lookup L = none) :
    encodeOperands instr opcode ops line createRegisterMap symbolTable pc
      = .error (.unknownSymbol L) := by
  have ha := resolveAbsolute_unbound symbolTable L hnum hun
  have hr := resolveRelative_unbound symbolTable L pc hnum hun
  unfold encodeOperands
  unfold classOf at hroles
  cases hfmt : instr.format <;> simp only [hfmt] at hroles ⊢
  · rcases ops with _ | ⟨a, _ | ⟨b, _ | ⟨c, _ | ⟨d, rest⟩⟩⟩⟩ <;>
      simp [operandRoles] at hroles
    subst hroles
    simp at hsym
  · by_cases hl : isLoadName opcode = true
    · have hl' := (isLoadName_iff opcode).mp hl
      simp only [hl, hl', if_true] at hroles ⊢
      rcases ops with _ | ⟨a, _ | ⟨b, _ | ⟨c, rest⟩⟩⟩ <;> simp [operandRoles] at hroles
      subst hroles
      simp at hsym
    · have hl' : ¬ opcode ∈ ["lb".toList, "lh".toList, "lw".toList, "lbu".toList,
          "lhu".toList] := fun hm => hl ((isLoadName_iff opcode).mpr hm)
      simp only [hl, hl', if_false] at hroles ⊢
      by_cases hjalr : opcode = "jalr".toList
      · simp only [hjalr, if_true, beq_self_eq_true] at hroles ⊢
        rcases ops with _ | ⟨a, _ | ⟨b, _ | ⟨c, _ | ⟨d, rest⟩⟩⟩⟩ <;>
          simp [operandRoles] at hroles
        · subst hroles
          simp at hsym
          subst hsym
          obtain ⟨va, hva⟩ := findRegister_of_isSome _ a
            (hregs (OperandRole.register, a) (by simp) rfl)
          simp [hva, ha]
          try rfl
        · subst hroles
          simp at hsym
          subst hsym
          obtain ⟨va, hva⟩ := findRegister_of_isSome _ a
            (hregs (OperandRole.register, a) (by simp) rfl)
          obtain ⟨vb, hvb⟩ := findRegister_of_isSome _ b
            (hregs (OperandRole.register, b) (by simp) rfl)
          simp [hva, hvb, ha]
          try rfl
      · have hj' : (opcode == "jalr".toList) = false := by simpa using hjalr
        simp only [hjalr, hj', if_false, Bool.false_eq_true] at hroles ⊢
        rcases ops with _ | ⟨a, _ | ⟨b, _ | ⟨c, _ | ⟨d, rest⟩⟩⟩⟩ <;>
          simp [operandRoles] at hroles
        subst hroles
        simp at hsym
        subst hsym
        obtain ⟨va, hva⟩ := findRegister_of_isSome _ a
            (hregs (OperandRole.register, a) (by simp) rfl)
        obtain ⟨vb, hvb⟩ := findRegister_of_isSome _ b
            (hregs (OperandRole.register, b) (by simp) rfl)
        simp [hva, hvb, ha]
        try rfl
  · rcases ops with _ | ⟨a, _ | ⟨b, _ | ⟨c, rest⟩⟩⟩ <;> simp [operandRoles] at hroles
    subst hroles
    simp at hsym
  · rcases ops with _ | ⟨a, _ | ⟨b, _ | ⟨c, _ | ⟨d, rest⟩⟩⟩⟩ <;>
      simp [operandRoles] at hroles
    subst hroles
    simp at hsym
    subst hsym
    obtain ⟨va, hva⟩ := findRegister_of_isSome _ a
            (hregs (OperandRole.register, a) (by simp) rfl)
    obtain ⟨vb, hvb⟩ := findRegister_of_isSome _ b
            (hregs (OperandRole.register, b) (by simp) rfl)
    simp [hva, hvb, hr]
    try rfl
  · rcases ops with _ | ⟨a, _ | ⟨b, _ | ⟨c, rest⟩⟩⟩ <;> simp [operandRoles] at hroles
    subst hroles
    simp at hsym
    subst hsym
    obtain ⟨va, hva⟩ := findRegister_of_isSome _ a
            (hregs (OperandRole.register, a) (by simp) rfl)
    simp [hva, ha]
    try rfl
  · rcases ops with _ | ⟨a, _ | ⟨b, _ | ⟨c, rest⟩⟩⟩ <;> simp [operandRoles] at hroles
    · subst hroles
      simp at hsym
      subst hsym
      simp [hr]
      try rfl
    · subst hroles
      simp at hsym
      subst hsym
      obtain ⟨va, hva⟩ := findRegister_of_isSome _ a
            (hregs (OperandRole.register, a) (by simp) rfl)
      simp [hva, hr]
      try rfl

/-- The words pass 2 has written after lines that all assembled are the words
of their instructions, one after the other. -/
theorem pass2_fold_words (symbolTable : SymbolTable) (s : Pass2State) (ls : List Str)
    (n : Nat) (hs : s.address = 4 * n % 4294967296)
    (hok : (ls.foldl (pass2Step symbolTable) s).failure = none) :
    (ls.foldl (pass2Step symbolTable) s).words.map Except.ok
      = s.words.map Except.ok ++ lineWords symbolTable n (ls.filterMap instructionOf) := by
  induction ls generalizing s n with
  | nil => simp [lineWords]
  | cons l ls ih =>
    rw [List.foldl_cons] at hok ⊢
    have hrun : s.failure = none := by
      by_contra hne
      rw [pass2Step_failed _ _ _ hne, pass2_fold_failed _ _ _ hne] at hok
      exact hne hok
    have hstep := pass2Step_running symbolTable s l hrun
    cases hi : instructionOf l with
    | none =>
      simp only [hi] at hstep
      rw [hstep] at hok ⊢
      rw [ih s n hs hok]
      simp [List.filterMap_cons, hi]
    | some instruction =>
      simp only [hi] at hstep
      cases ha : assembleLine instruction symbolTable s.address with
      | ok w =>
        simp only [ha] at hstep
        rw [hstep] at hok ⊢
        rw [ih _ (n + 1) (by simp only [hs, add32]; omega) hok]
        rw [hs] at ha
        simp [List.filterMap_cons, hi, lineWords, ha]
      | error e =>
        simp only [ha] at hstep
        rw [hstep] at hok
        rw [pass2_fold_failed _ _ _ (by simp)] at hok
        simp at hok

theorem pass2_words (symbolTable : SymbolTable) (ls : List Str)
    (hok : (pass2 symbolTable ls).failure = none) :
    (pass2 symbolTable ls).words.map Except.ok
      = lineWords symbolTable 0 (ls.filterMap instructionOf) := by
  unfold pass2 at hok ⊢
  rw [pass2_fold_words symbolTable _ ls 0 (by rfl) hok]
  rfl

theorem filterMap_instructionOf_length (ls : List Str) :
    (ls.filterMap instructionOf).length = instructionCount ls := by
  unfold instructionCount
  induction ls with
  | nil => rfl
  | cons l ls ih =>
    cases hi : instructionOf l <;> simp [List.filterMap_cons, List.filter_cons, hi, ih]

theorem lineWords_length (symbolTable : SymbolTable) (n : Nat) (xs : List Str) :
    (lineWords symbolTable n xs).length = xs.length := by
  induction xs generalizing n with
  | nil => rfl
  | cons x xs ih => simp [lineWords, ih]

theorem pass2_words_length (symbolTable : SymbolTable) (ls : List Str)
    (hok : (pass2 symbolTable ls).failure = none) :
    (pass2 symbolTable ls).words.length = instructionCount ls := by
  have h := congrArg List.length (pass2_words symbolTable ls hok)
  rw [List.length_map, lineWords_length, filterMap_instructionOf_length] at h
  exact h

theorem pass2_append (symbolTable : SymbolTable) (xs ys : List Str) :
    pass2 symbolTable (xs ++ ys)
      = ys.foldl (pass2Step symbolTable) (pass2 symbolTable xs) := by
  simp [pass2, List.foldl_append]

/-- C13: in a source whose first instruction line that fails to assemble is a
well-formed line (catalog mnemonic, allowed operand count, valid registers)
whose symbolic operand is not bound in the symbol table of pass 1, the run ends
with the unknown-symbol error for that operand, and the words emitted are
exactly the words of the instruction lines before it, in order: none for the
failing line, none for any later line. -/
theorem undefined_symbol_stops_run (pre post : List Str) (l instruction opcode : Str)
    (ops : List Str) (instr : Instruction) (roles : List OperandRole) (L : Str)
    (hpre : (pass2 (pass1 (pre ++ l :: post)).symbolTable pre).failure = none)
    (hi : instructionOf l = some instruction)
    (hs : splitInstruction instruction = some (opcode, ops))
    (hl : createInstructionMap.lookup opcode = some instr)
    (hroles : operandRoles (classOf opcode instr) ops.length = some roles)
    (hregs : ∀ p ∈ roles.zip ops, p.1 = OperandRole.register →
      (createRegisterMap.lookup p.2).isSome = true)
    (hsym : (OperandRole.immediate, L) ∈ roles.zip ops
      ∨ (OperandRole.target, L) ∈ roles.zip ops)
    (hnum : isNumber L = false)
    (hun : (pass1 (pre ++ l :: post)).symbolTable.lookup L = none) :
    (assembleProgram (pre ++ l :: post)).failure = some (instruction, .unknownSymbol L)
      ∧ (assembleProgram (pre ++ l :: post)).words
          = (pass2 (pass1 (pre ++ l :: post)).symbolTable pre).words
      ∧ (assembleProgram (pre ++ l :: post)).words.map Except.ok
          = lineWords (pass1 (pre ++ l :: post)).symbolTable 0 (pre.filterMap instructionOf)
      ∧ (assembleProgram (pre ++ l :: post)).words.length = instructionCount pre
      ∧ outputLines (assembleProgram (pre ++ l :: post))
          = outputLines (pass2 (pass1 (pre ++ l :: post)).symbolTable pre) := by
  generalize hst : (pass1 (pre ++ l :: post)).symbolTable = st at hpre hun
  have herr : assembleLine instruction st (pass2 st pre).address
      = .error (.unknownSymbol L) := by
    unfold assembleLine assembleInstruction
    simp only [hs, hl]
    exact encodeOperands_unbound instr opcode ops instruction st _ roles L hroles hregs hsym
      hnum hun
  have hstep := pass2Step_running st (pass2 st pre) l hpre
  simp only [hi, herr] at hstep
  have hrun : assembleProgram (pre ++ l :: post)
      = { address := (pass2 st pre).address, words := (pass2 st pre).words,
          failure := some (instruction, .unknownSymbol L) } := by
    unfold assembleProgram
    rw [hst, pass2_append, List.foldl_cons, hstep, pass2_fold_failed _ _ _ (by simp)]
  rw [hrun]
  refine ⟨rfl, rfl, ?_, ?_, rfl⟩
  · exact pass2_words st pre hpre
  · exact pass2_words_length st pre hpre

/-- Witness of `undefined_symbol_stops_run`: a branch to the undefined label
`done` on the third line; the two words before it are emitted, nothing else. -/
theorem undefined_symbol_stops_run_witness :
    (assembleProgram ["start: addi x1, x0, 5".toList, "add x2, x1, x1".toList,
        "beq x1, x2, done".toList, "sub x3, x2, x1".toList]).failure
        = some ("beq x1, x2, done".toList, .unknownSymbol "done".toList)
      ∧ (assembleProgram ["start: addi x1, x0, 5".toList, "add x2, x1, x1".toList,
          "beq x1, x2, done".toList, "sub x3, x2, x1".toList]).words
        = [0x00500093, 0x00108133] :=
  ⟨(undefined_symbol_stops_run ["start: addi x1, x0, 5".toList, "add x2, x1, x1".toList]
      ["sub x3, x2, x1".toList] "beq x1, x2, done".toList "beq x1, x2, done".toList
      "beq".toList ["x1".toList, "x2".toList, "done".toList]
      (entry "beq" .B_TYPE 0b1100011 0b000 0).2 [.register, .register, .target]
      "done".toList (by decide) (by decide) (by decide) (by decide) (by decide)
      (by decide) (by decide) (by decide) (by decide)).1, by decide⟩

/-! ## Memory operands -/

theorem find_lt_length (c : Char) (t : Str) (i : Nat) (h : find c t = some i) :
    i < t.length := by
  induction t generalizing i with
  | nil => simp [find] at h
  | cons d ds ih =>
    unfold find at h
    by_cases hd : d = c
    · simp [hd] at h
      subst h
      simp
    · simp only [hd, if_false, Option.map_eq_some'] at h
      obtain ⟨j, hj, rfl⟩ := h
      have := ih j hj
      simp
      omega

theorem find_none_iff (c : Char) (t : Str) : find c t = none ↔ c ∉ t := by
  constructor
  · intro h hc
    induction t with
    | nil => simp at hc
    | cons d ds ih =>
      unfold find at h
      by_cases hd : d = c
      · simp [hd] at h
      · simp only [hd, if_false, Option.map_eq_none'] at h
        rcases List.mem_cons.mp hc with e | e
        · exact hd e.symm
        · exact ih h e
  · exact find_eq_none c t

/-- The only exceptions of `std::stoi`. -/
theorem stoi_errors (s : Str) (base : Nat) (e : AsmError) (h : stoi s base = .error e) :
    e = .stoiInvalidArgument ∨ e = .stoiOutOfRange := by
  unfold stoi at h
  simp only at h
  split_ifs at h <;>
    first
    | exact Or.inl (Except.error.inj h).symm
    | exact Or.inr (Except.error.inj h).symm

theorem parseNumber_errors (s : Str) (e : AsmError) (h : parseNumber s = .error e) :
    e = .stoiInvalidArgument ∨ e = .stoiOutOfRange := by
  unfold parseNumber at h
  split at h <;> exact stoi_errors _ _ e h

/-- The function `parseMemoryOperand` when both parentheses are there and the
first `)` comes after the first `(`. -/
theorem parseMemoryOperand_ordered (t : Str) (registers : List (Str × Int)) (o c : Nat)
    (hlen : t.length < 18446744073709551616)
    (ho : find '(' t = some o) (hc : find ')' t = some c) (hoc : o < c) :
    parseMemoryOperand t registers
      = match (if isNumber (trim (t.take o)) then parseNumber (trim (t.take o)) else .ok 0 :
            Except AsmError Int) with
        | .error e => .error e
        | .ok offset =>
          match registers.lookup (trim ((t.drop (o + 1)).take (c - o - 1))) with
          | none => .error (.unknownRegister (trim ((t.drop (o + 1)).take (c - o - 1))))
          | some number => .ok (offset, number) := by
  have hcl := find_lt_length _ _ _ hc
  have hcount : (c + 18446744073709551616 - o - 1) % 18446744073709551616 = c - o - 1 := by
    omega
  unfold parseMemoryOperand
  rw [ho, hc]
  simp only [hcount]


/-- C16 (as stated, refuted): the operand `4294967296(x1)` has both
parentheses, the text between them is the register `x1` and the text before
`(` is numeric, yet `parseMemoryOperand` does not return a pair: the value does
not fit `int` and the conversion throws `std::out_of_range`.  Two further
inputs leave the claim: `)(x1`, where the `)` comes first and the register is
read from the text after `(`, and `-(x1)`, whose offset `isNumber` accepts and
`std::stoi` rejects. -/
theorem memory_operand_offset_out_of_range :
    find '(' "4294967296(x1)".toList = some 10
      ∧ find ')' "4294967296(x1)".toList = some 13
      ∧ createRegisterMap.lookup "x1".toList = some 1
      ∧ isNumber "4294967296".toList = true
      ∧ parseMemoryOperand "4294967296(x1)".toList createRegisterMap = .error .stoiOutOfRange
      ∧ (∀ off idx, parseMemoryOperand "4294967296(x1)".toList createRegisterMap
          ≠ .ok (off, idx))
      ∧ parseMemoryOperand ")(x1".toList createRegisterMap = .ok (0, 1)
      ∧ parseMemoryOperand "-(x1)".toList createRegisterMap
          = .error .stoiInvalidArgument := by
  have e : parseMemoryOperand "4294967296(x1)".toList createRegisterMap
      = .error .stoiOutOfRange := rfl
  refine ⟨by decide, by decide, by decide, by decide, e, ?_, rfl, rfl⟩
  intro off idx h
  rw [e] at h
  cases h

/-- C16 (amended): `parseMemoryOperand` fails with the malformed-memory-operand
error exactly when the token lacks a `(` or lacks a `)`.  Otherwise, when the
first `)` comes after the first `(`: a numeric text before `(` whose value does
not fit `int` gives the out-of-range error of the conversion; when that text
converts to `off`, or is not numeric (`off = 0`), the call fails with the
unknown-register error exactly when the trimmed text between the first `(` and
the first `)` is no catalog name, and otherwise returns `(off, idx)` with the
index of that register. -/
theorem parseMemoryOperand_cases (t : Str) (registers : List (Str × Int))
    (hlen : t.length < 18446744073709551616) :
    (parseMemoryOperand t registers = .error (.invalidMemoryOperand t)
        ↔ (find '(' t = none ∨ find ')' t = none))
      ∧ ((find '(' t = none ↔ '(' ∉ t) ∧ (find ')' t = none ↔ ')' ∉ t))
      ∧ ∀ o c, find '(' t = some o → find ')' t = some c → o < c →
          (isNumber (trim (t.take o)) = true →
              parseNumber (trim (t.take o)) = .error .stoiOutOfRange →
              parseMemoryOperand t registers = .error .stoiOutOfRange)
          ∧ ∀ off, ((isNumber (trim (t.take o)) = true
                  ∧ parseNumber (trim (t.take o)) = .ok off)
                ∨ (isNumber (trim (t.take o)) = false ∧ off = 0)) →
              (registers.lookup (trim ((t.drop (o + 1)).take (c - o - 1))) = none →
                  parseMemoryOperand t registers
                    = .error (.unknownRegister (trim ((t.drop (o + 1)).take (c - o - 1)))))
              ∧ (∀ idx, registers.lookup (trim ((t.drop (o + 1)).take (c - o - 1)))
                    = some idx →
                  parseMemoryOperand t registers = .ok (off, idx)) := by
  refine ⟨?_, ⟨find_none_iff _ _, find_none_iff _ _⟩, ?_⟩
  · constructor
    · intro h
      rcases find_cases '(' t with ho | ⟨o, ho⟩
      · exact Or.inl ho
      · rcases find_cases ')' t with hc | ⟨c, hc⟩
        · exact Or.inr hc
        · exfalso
          unfold parseMemoryOperand at h
          simp only [ho, hc] at h
          split at h
          · rename_i e he
            have h1 := Except.error.inj h
            subst h1
            split at he
            · rcases parseNumber_errors _ _ he with h2 | h2 <;> cases h2
            · cases he
          · split at h <;> cases h
    · intro h
      unfold parseMemoryOperand
      rcases h with h | h
      · rw [h]
      · rw [h]
        cases find '(' t <;> rfl
  · intro o c ho hc hoc
    have hshape := parseMemoryOperand_ordered t registers o c hlen ho hc hoc
    refine ⟨?_, ?_⟩
    · intro hn hp
      rw [hshape]
      simp only [hn, if_true, hp]
    · intro off hoff
      have hstep : (if isNumber (trim (t.take o)) then parseNumber (trim (t.take o))
          else .ok 0 : Except AsmError Int) = .ok off := by
        rcases hoff with ⟨hn, hp⟩ | ⟨hn, h0⟩
        · simp only [hn, if_true, hp]
        · simp [hn, h0]
      refine ⟨?_, ?_⟩
      · intro hr
        rw [hshape]
        simp only [hstep, hr]
      · intro idx hr
        rw [hshape]
        simp only [hstep, hr]

/-- Witness of `parseMemoryOperand_cases`: the operands `-4( sp )` and `8(x99)`. -/
theorem parseMemoryOperand_cases_witness :
    parseMemoryOperand "-4( sp )".toList createRegisterMap = .ok (-4, 2)
      ∧ parseMemoryOperand "8(x99)".toList createRegisterMap
          = .error (.unknownRegister "x99".toList) :=
  ⟨((parseMemoryOperand_cases "-4( sp )".toList createRegisterMap (by decide)).2.2 2 7
      (by decide) (by decide) (by decide)).2 (-4) (Or.inl ⟨by decide, rfl⟩) |>.2 2 (by decide),
    ((parseMemoryOperand_cases "8(x99)".toList createRegisterMap (by decide)).2.2 1 5
      (by decide) (by decide) (by decide)).2 8 (Or.inl ⟨by decide, rfl⟩) |>.1 (by decide)⟩

/-! ## Blanks around a text -/

theorem blank_iff (ws : Str) : isBlankText ws = true ↔ ∀ c ∈ ws, isTrimChar c = true := by
  simp [isBlankText]

theorem dropWhile_blank (ws : Str) (h : isBlankText ws = true) :
    ws.dropWhile isTrimChar = [] :=
  List.dropWhile_eq_nil_iff.mpr ((blank_iff ws).mp h)

theorem trim_blank (ws : Str) (h : isBlankText ws = true) : trim ws = [] := by
  simp [trim, dropWhile_blank ws h]

theorem blank_reverse (ws : Str) (h : isBlankText ws = true) :
    isBlankText ws.reverse = true := by
  rw [blank_iff] at h ⊢
  intro c hc
  exact h c (List.mem_reverse.mp hc)

theorem blank_append (a b : Str) (ha : isBlankText a = true) (hb : isBlankText b = true) :
    isBlankText (a ++ b) = true := by
  rw [blank_iff] at ha hb ⊢
  intro c hc
  rcases List.mem_append.mp hc with h | h
  · exact ha c h
  · exact hb c h

theorem dropWhile_blank_append (ws r : Str) (h : isBlankText ws = true) :
    (ws ++ r).dropWhile isTrimChar = r.dropWhile isTrimChar :=
  List.dropWhile_append_of_pos ((blank_iff ws).mp h)

theorem dropWhile_append_keep (l r : Str) (h : l.dropWhile isTrimChar ≠ []) :
    (l ++ r).dropWhile isTrimChar = l.dropWhile isTrimChar ++ r := by
  induction l with
  | nil => simp at h
  | cons c cs ih =>
    by_cases hc : isTrimChar c = true
    · simp only [List.cons_append, List.dropWhile_cons, hc, if_true] at h ⊢
      exact ih h
    · simp [List.dropWhile_cons, hc]

/-- Blanks around a text that starts and ends with no blank are trimmed away. -/
theorem trim_pad (ws1 tok ws2 : Str) (h1 : isBlankText ws1 = true)
    (h2 : isBlankText ws2 = true) (hh : tok.head?.any (fun c => !isTrimChar c) = true)
    (hl : tok.getLast?.any (fun c => !isTrimChar c) = true) :
    trim (ws1 ++ tok ++ ws2) = tok := by
  unfold trim
  rw [List.append_assoc, dropWhile_blank_append _ _ h1,
    dropWhile_eq_self _ _ (head_any_append _ _ _ hh), List.reverse_append,
    dropWhile_blank_append _ _ (blank_reverse _ h2),
    dropWhile_eq_self _ _ (by rw [List.head?_reverse]; exact hl), List.reverse_reverse]

/-- Every text is its trimmed form with blanks before and after. -/
theorem trim_decompose (t : Str) :
    ∃ ws1 ws2, t = ws1 ++ trim t ++ ws2 ∧ isBlankText ws1 = true
      ∧ isBlankText ws2 = true := by
  refine ⟨t.takeWhile isTrimChar,
    (((t.dropWhile isTrimChar).reverse).takeWhile isTrimChar).reverse, ?_, ?_, ?_⟩
  · unfold trim
    rw [List.append_assoc, ← List.reverse_append, List.takeWhile_append_dropWhile,
      List.reverse_reverse, List.takeWhile_append_dropWhile]
  · rw [blank_iff]
    intro c hc
    exact List.mem_takeWhile_imp hc
  · rw [blank_iff]
    intro c hc
    exact List.mem_takeWhile_imp (List.mem_reverse.mp hc)

/-- Blanks after a text do not change its trimmed form. -/
theorem trim_append_blank (l ws : Str) (h : isBlankText ws = true) :
    trim (l ++ ws) = trim l := by
  unfold trim
  by_cases hl : l.dropWhile isTrimChar = []
  · have hb : isBlankText l = true := (blank_iff l).mpr (List.dropWhile_eq_nil_iff.mp hl)
    rw [hl, dropWhile_blank _ (blank_append _ _ hb h)]
  · rw [dropWhile_append_keep _ _ hl, List.reverse_append,
      dropWhile_blank_append _ _ (blank_reverse _ h)]

theorem trim_sublist_mem (t : Str) (c : Char) (h : c ∈ trim t) : c ∈ t := by
  obtain ⟨ws1, ws2, e, -, -⟩ := trim_decompose t
  rw [e]
  simp [h]

/-! ## Default destination of `jal` and `jalr` -/

theorem blank_no_comma (ws : Str) (h : isBlankText ws = true) : ',' ∉ ws := by
  intro hc
  have := (blank_iff ws).mp h _ hc
  revert this
  decide

theorem blank_cons (ws : Str) (h : isBlankText ws = true) : isBlankText (' ' :: ws) = true :=
  blank_append [' '] ws (by decide) h

/-- The operand list of a line with one operand that has blanks around it. -/
theorem parseOperands_one_pad (ws1 tok ws2 : Str) (h1 : isBlankText ws1 = true)
    (h2 : isBlankText ws2 = true) (ht : isOperandToken tok = true) :
    parseOperands (trim (ws1 ++ tok ++ ws2)) = [tok] := by
  rw [trim_pad ws1 tok ws2 h1 h2 (token_head _ ht) (token_last _ ht)]
  have := parseOperands_one tok ht
  rw [token_trim _ ht] at this
  exact this

/-- The operand list of a two-operand line whose last operand has blanks
around it. -/
theorem parseOperands_two_pad (a ws1 tok ws2 : Str) (ha : isOperandToken a = true)
    (h1 : isBlankText ws1 = true) (h2 : isBlankText ws2 = true)
    (ht : isOperandToken tok = true) :
    parseOperands (trim (a ++ ',' :: ' ' :: (ws1 ++ tok ++ ws2))) = [a, tok] := by
  have e : a ++ ',' :: ' ' :: (ws1 ++ tok ++ ws2)
      = [] ++ (a ++ ',' :: ' ' :: (ws1 ++ tok)) ++ ws2 := by simp
  rw [e, trim_pad [] _ ws2 rfl h2 (head_any_append _ _ _ (token_head a ha))
    (getLast_any_append _ _ _ (getLast_any_cons _ _ _ (getLast_any_cons _ _ _
      (getLast_any_append _ _ _ (token_last tok ht)))))]
  unfold parseOperands
  rw [getlineTokens_append_delim _ _ _ _ (token_no_comma a ha)]
  rw [getlineTokens_last _ _ _
    (by
      have := blank_no_comma ws1 h1
      have := token_no_comma tok ht
      simp [*]) (by simp)]
  have e2 : ' ' :: (ws1 ++ tok) = (' ' :: ws1) ++ tok ++ [] := by simp
  simp only [List.map_cons, List.map_nil, List.reverse_nil, List.nil_append, token_trim a ha]
  rw [e2, trim_pad _ tok [] (blank_cons ws1 h1) rfl (token_head _ ht) (token_last _ ht)]

/-- The operand list of a three-operand line whose last operand has blanks
around it. -/
theorem parseOperands_three_pad (a b ws1 tok ws2 : Str) (ha : isOperandToken a = true)
    (hb : isOperandToken b = true) (h1 : isBlankText ws1 = true)
    (h2 : isBlankText ws2 = true) (ht : isOperandToken tok = true) :
    parseOperands (trim (a ++ ',' :: ' ' :: (b ++ ',' :: ' ' :: (ws1 ++ tok ++ ws2))))
      = [a, b, tok] := by
  have e : a ++ ',' :: ' ' :: (b ++ ',' :: ' ' :: (ws1 ++ tok ++ ws2))
      = [] ++ (a ++ ',' :: ' ' :: (b ++ ',' :: ' ' :: (ws1 ++ tok))) ++ ws2 := by simp
  rw [e, trim_pad [] _ ws2 rfl h2 (head_any_append _ _ _ (token_head a ha))
    (getLast_any_append _ _ _ (getLast_any_cons _ _ _ (getLast_any_cons _ _ _
      (getLast_any_append _ _ _ (getLast_any_cons _ _ _ (getLast_any_cons _ _ _
        (getLast_any_append _ _ _ (token_last tok ht))))))))]
  unfold parseOperands
  rw [getlineTokens_append_delim _ _ _ _ (token_no_comma a ha)]
  rw [show ' ' :: (b ++ ',' :: ' ' :: (ws1 ++ tok)) = (' ' :: b) ++ ',' :: ' ' :: (ws1 ++ tok)
    from rfl]
  rw [getlineTokens_append_delim _ _ _ _ (by simpa using token_no_comma b hb)]
  rw [getlineTokens_last _ _ _
    (by
      have := blank_no_comma ws1 h1
      have := token_no_comma tok ht
      simp [*]) (by simp)]
  have e2 : ' ' :: (ws1 ++ tok) = (' ' :: ws1) ++ tok ++ [] := by simp
  simp only [List.map_cons, List.map_nil, List.reverse_nil, List.nil_append, token_trim a ha,
    token_blank_trim b hb]
  rw [e2, trim_pad _ tok [] (blank_cons ws1 h1) rfl (token_head _ ht) (token_last _ ht)]

theorem splitInstruction_line1_pad (m t : Str) (hm : ' ' ∉ m)
    (ht : isOperandToken (trim t) = true) :
    splitInstruction (line1 m t) = some ((trim m).map tolower, [trim t]) := by
  obtain ⟨ws1, ws2, e, h1, h2⟩ := trim_decompose t
  unfold line1
  rw [splitInstruction_cut m _ hm]
  conv_lhs => rw [e]
  rw [parseOperands_one_pad ws1 _ ws2 h1 h2 ht]

theorem splitInstruction_line2_pad (m a t : Str) (hm : ' ' ∉ m) (ha : isOperandToken a = true)
    (ht : isOperandToken (trim t) = true) :
    splitInstruction (line2 m a t) = some ((trim m).map tolower, [a, trim t]) := by
  obtain ⟨ws1, ws2, e, h1, h2⟩ := trim_decompose t
  unfold line2
  rw [splitInstruction_cut m _ hm]
  conv_lhs => rw [e]
  rw [parseOperands_two_pad a ws1 _ ws2 ha h1 h2 ht]

theorem splitInstruction_line3_pad (m a b t : Str) (hm : ' ' ∉ m)
    (ha : isOperandToken a = true) (hb : isOperandToken b = true)
    (ht : isOperandToken (trim t) = true) :
    splitInstruction (line3 m a b t) = some ((trim m).map tolower, [a, b, trim t]) := by
  obtain ⟨ws1, ws2, e, h1, h2⟩ := trim_decompose t
  unfold line3
  rw [splitInstruction_cut m _ hm]
  conv_lhs => rw [e]
  rw [parseOperands_three_pad a b ws1 _ ws2 ha hb h1 h2 ht]


/-- C17 (as stated, refuted): a target text can hold a comma; with the label
`a,b` (bound by pass 1 like any text before a colon) `jal a,b` has two operands
and fails on the register `a`, while `jal ra, a,b` has three and fails with the
operand-count error; with the text `x5,8` the first line even yields a word. -/
theorem jal_target_with_comma :
    assembleLine (line1 "jal".toList "a,b".toList) [("a,b".toList, 0)] 0
        = .error (.unknownRegister "a".toList)
      ∧ assembleLine (line2 "jal".toList "ra".toList "a,b".toList) [("a,b".toList, 0)] 0
        = .error (.operandCount .jType "jal ra, a,b".toList)
      ∧ assembleLine (line1 "jal".toList "a,b".toList) [("a,b".toList, 0)] 0
        ≠ assembleLine (line2 "jal".toList "ra".toList "a,b".toList) [("a,b".toList, 0)] 0
      ∧ assembleLine (line1 "jal".toList "x5,8".toList) [] 0 = .ok 0x008002EF
      ∧ assembleLine (line2 "jal".toList "ra".toList "x5,8".toList) [] 0
        = .error (.operandCount .jType "jal ra, x5,8".toList)
      ∧ assembleLine (line2 "jalr".toList "x1".toList "a,b".toList) [] 0
        ≠ assembleLine (line3 "jalr".toList "ra".toList "x1".toList "a,b".toList) [] 0 := by
  have e1 : assembleLine (line1 "jal".toList "a,b".toList) [("a,b".toList, 0)] 0
      = .error (.unknownRegister "a".toList) := rfl
  have e2 : assembleLine (line2 "jal".toList "ra".toList "a,b".toList) [("a,b".toList, 0)] 0
      = .error (.operandCount .jType "jal ra, a,b".toList) := rfl
  have e3 : assembleLine (line2 "jalr".toList "x1".toList "a,b".toList) [] 0
      = .error (.unknownRegister "a".toList) := rfl
  have e4 : assembleLine (line3 "jalr".toList "ra".toList "x1".toList "a,b".toList) [] 0
      = .error (.operandCount .jalr "jalr ra, x1, a,b".toList) := rfl
  refine ⟨e1, e2, ?_, rfl, rfl, ?_⟩
  · rw [e1, e2]
    intro h
    cases Except.error.inj h
  · rw [e3, e4]
    intro h
    cases Except.error.inj h

/-- C17 (amended): the one-operand form of `jal` and the two-operand form of
`jalr` default the destination to register 1 (`ra`): for every target text `T`
whose trimmed form is an operand token (not empty, no comma), every register
name `R`, symbol table and current address, `jal T` gives the same result as
`jal ra, T`, and `jalr R, T` the same result as `jalr ra, R, T`. -/
theorem default_link_register (T R : Str) (n : Int) (symbolTable : SymbolTable)
    (currentAddress : Nat) (hT : isOperandToken (trim T) = true)
    (hR : createRegisterMap.lookup R = some n) :
    assembleLine (line1 "jal".toList T) symbolTable currentAddress
        = assembleLine (line2 "jal".toList "ra".toList T) symbolTable currentAddress
      ∧ assembleLine (line2 "jalr".toList R T) symbolTable currentAddress
        = assembleLine (line3 "jalr".toList "ra".toList R T) symbolTable currentAddress
      ∧ createRegisterMap.lookup "ra".toList = some 1 := by
  obtain ⟨tR, -, -, -, -⟩ := register_index R n hR
  have hra : findRegister createRegisterMap "ra".toList = .ok 1 := rfl
  have hjal : createInstructionMap.lookup "jal".toList
      = some (entry "jal" .J_TYPE 0b1101111 0 0).2 := by decide
  have hjalr : createInstructionMap.lookup "jalr".toList
      = some (entry "jalr" .I_TYPE 0b1100111 0b000 0).2 := by decide
  refine ⟨?_, ?_, by decide⟩
  · unfold assembleLine assembleInstruction
    rw [splitInstruction_line1_pad _ T (by decide) hT,
      splitInstruction_line2_pad _ _ T (by decide) (by decide) hT]
    rw [show (trim "jal".toList).map tolower = "jal".toList by decide]
    simp only [hjal, encodeOperands, entry, hra]
    rfl
  · unfold assembleLine assembleInstruction
    rw [splitInstruction_line2_pad _ R T (by decide) tR hT,
      splitInstruction_line3_pad _ _ R T (by decide) (by decide) tR hT]
    rw [show (trim "jalr".toList).map tolower = "jalr".toList by decide]
    simp only [hjalr, encodeOperands, entry, hra,
      show isLoadName "jalr".toList = false by decide, Bool.false_eq_true, if_false,
      beq_self_eq_true, if_true]
    rfl

/-- Witness of `default_link_register`: the target ` loop` and the register `t0`. -/
theorem default_link_register_witness :
    assembleLine (line1 "jal".toList " loop".toList) [("loop".toList, 64)] 16
        = assembleLine (line2 "jal".toList "ra".toList " loop".toList) [("loop".toList, 64)] 16
      ∧ assembleLine (line1 "jal".toList " loop".toList) [("loop".toList, 64)] 16
        = .ok 0x030000EF :=
  ⟨(default_link_register " loop".toList "t0".toList 5 [("loop".toList, 64)] 16
    (by decide) (by decide)).1, rfl⟩

/-! ## Case of the mnemonic -/

/-- A character whose code lies in a short range is one of the characters of
that range. -/
theorem char_cases (c : Char) : c = Char.ofNat c.toNat := (Char.ofNat_toNat c).symm

theorem tolower_swapCase (c : Char) : tolower (swapCase c) = tolower c := by
  unfold swapCase
  split_ifs with h1 h2
  · have e := char_cases c
    generalize c.toNat = n at h1 e
    subst e
    obtain ⟨ha, hb⟩ := h1
    interval_cases n <;> decide
  · have e := char_cases c
    generalize c.toNat = n at h1 h2 e
    subst e
    obtain ⟨ha, hb⟩ := h2
    interval_cases n <;> decide
  · rfl

theorem swapCase_space (c : Char) (h : swapCase c = ' ') : c = ' ' := by
  unfold swapCase at h
  split_ifs at h with h1 h2
  · exfalso
    have e := char_cases c
    generalize c.toNat = n at h h1 e
    subst e
    obtain ⟨ha, hb⟩ := h1
    interval_cases n <;> revert h <;> decide
  · exfalso
    have e := char_cases c
    generalize c.toNat = n at h h1 h2 e
    subst e
    obtain ⟨ha, hb⟩ := h2
    interval_cases n <;> revert h <;> decide
  · exact h

theorem isTrimChar_tolower (c : Char) : isTrimChar (tolower c) = isTrimChar c := by
  unfold tolower
  split_ifs with h1
  · have e := char_cases c
    generalize c.toNat = n at h1 e
    subst e
    obtain ⟨ha, hb⟩ := h1
    interval_cases n <;> decide
  · rfl

theorem map_tolower_changeCase (flags : List Bool) (m : Str) :
    (changeCase flags m).map tolower = m.map tolower := by
  induction m generalizing flags with
  | nil => cases flags <;> rfl
  | cons c cs ih =>
    cases flags with
    | nil => rfl
    | cons b bs =>
      cases b
      · simp [changeCase, ih]
      · simp [changeCase, ih, tolower_swapCase]

theorem changeCase_no_space (flags : List Bool) (m : Str) (h : ' ' ∉ m) :
    ' ' ∉ changeCase flags m := by
  induction m generalizing flags with
  | nil => cases flags <;> simp [changeCase]
  | cons c cs ih =>
    have hc : c ≠ ' ' := fun e => h (by simp [e])
    have hcs : ' ' ∉ cs := fun e => h (by simp [e])
    cases flags with
    | nil => simpa [changeCase] using h
    | cons b bs =>
      have hrest := ih bs hcs
      cases b
      · simp only [changeCase, Bool.false_eq_true, if_false, List.mem_cons, not_or]
        exact ⟨fun e => hc e.symm, hrest⟩
      · simp only [changeCase, if_true, List.mem_cons, not_or]
        exact ⟨fun e => hc (swapCase_space c e.symm), hrest⟩

theorem trim_map_tolower (s : Str) : (trim s).map tolower = trim (s.map tolower) := by
  have hp : isTrimChar ∘ tolower = isTrimChar := funext isTrimChar_tolower
  unfold trim
  rw [List.dropWhile_map, hp, ← List.map_reverse, List.dropWhile_map, hp, List.map_reverse]

theorem changeCase_length (flags : List Bool) (m : Str) :
    (changeCase flags m).length = m.length := by
  induction m generalizing flags with
  | nil => cases flags <;> rfl
  | cons c cs ih =>
    cases flags with
    | nil => rfl
    | cons b bs => simp [changeCase, ih]

/-- The lower-cased mnemonic does not depend on the case of its letters. -/
theorem opcode_changeCase (flags : List Bool) (m : Str) :
    (trim (changeCase flags m)).map tolower = (trim m).map tolower := by
  rw [trim_map_tolower, trim_map_tolower, map_tolower_changeCase]

/-- The dispatch returns the same word whatever instruction text it is given
to quote in its messages. -/
theorem encodeOperands_word_quote (instr : Instruction) (opcode : Str) (ops : List Str)
    (line line' : Str) (registers : List (Str × Int)) (symbolTable : SymbolTable) (pc w : Nat)
    (h : encodeOperands instr opcode ops line registers symbolTable pc = .ok w) :
    encodeOperands instr opcode ops line' registers symbolTable pc = .ok w := by
  unfold encodeOperands at h ⊢
  cases hfmt : instr.format <;> simp only [hfmt] at h ⊢
  · rcases ops with _ | ⟨a, _ | ⟨b, _ | ⟨c, _ | ⟨d, rest⟩⟩⟩⟩ <;>
      first | exact h | cases h
  · by_cases hl : isLoadName opcode = true
    · simp only [hl, if_true] at h ⊢
      rcases ops with _ | ⟨a, _ | ⟨b, _ | ⟨c, rest⟩⟩⟩ <;> first | exact h | cases h
    · simp only [hl, if_false] at h ⊢
      by_cases hj : (opcode == "jalr".toList) = true
      · simp only [hj, if_true] at h ⊢
        rcases ops with _ | ⟨a, _ | ⟨b, _ | ⟨c, _ | ⟨d, rest⟩⟩⟩⟩ <;>
          first | exact h | cases h
      · simp only [hj, if_false] at h ⊢
        rcases ops with _ | ⟨a, _ | ⟨b, _ | ⟨c, _ | ⟨d, rest⟩⟩⟩⟩ <;>
          first | exact h | cases h
  · rcases ops with _ | ⟨a, _ | ⟨b, _ | ⟨c, rest⟩⟩⟩ <;> first | exact h | cases h
  · rcases ops with _ | ⟨a, _ | ⟨b, _ | ⟨c, _ | ⟨d, rest⟩⟩⟩⟩ <;>
      first | exact h | cases h
  · rcases ops with _ | ⟨a, _ | ⟨b, _ | ⟨c, rest⟩⟩⟩ <;> first | exact h | cases h
  · rcases ops with _ | ⟨a, _ | ⟨b, _ | ⟨c, rest⟩⟩⟩ <;> first | exact h | cases h

/-- One direction of the case-insensitivity of the mnemonic. -/
theorem assemble_changeCase (m m' rest : Str)
    (symbolTable : SymbolTable) (pc w : Nat) (hm : ' ' ∉ m) (hm' : ' ' ∉ m')
    (hop : (trim m').map tolower = (trim m).map tolower)
    (h : assembleLine (m ++ ' ' :: rest) symbolTable pc = .ok w) :
    assembleLine (m' ++ ' ' :: rest) symbolTable pc = .ok w := by
  unfold assembleLine assembleInstruction at h ⊢
  rw [splitInstruction_cut m rest hm] at h
  rw [splitInstruction_cut m' rest hm', hop]
  simp only at h ⊢
  cases hl : createInstructionMap.lookup ((trim m).map tolower) with
  | none =>
    rw [hl] at h
    cases h
  | some instr =>
    rw [hl] at h
    exact encodeOperands_word_quote instr _ _ _ _ _ _ _ _ h

/-- C18: mnemonic lookup is case-insensitive: changing the case of any ASCII
letters of the mnemonic (the text before the first space) leaves the result of
`assembleInstruction` unchanged when it is a word; `ADD x1, x2, x3` and
`Add x1, x2, x3` assemble to the word of `add x1, x2, x3`. -/
theorem mnemonic_case_insensitive (flags : List Bool) (m rest : Str)
    (symbolTable : SymbolTable) (currentAddress w : Nat) (hm : ' ' ∉ m) :
    (assembleLine (m ++ ' ' :: rest) symbolTable currentAddress = .ok w
        ↔ assembleLine (changeCase flags m ++ ' ' :: rest) symbolTable currentAddress = .ok w)
      ∧ find ' ' (changeCase flags m ++ ' ' :: rest) = find ' ' (m ++ ' ' :: rest)
      ∧ assembleLine "ADD x1, x2, x3".toList symbolTable currentAddress
          = assembleLine "add x1, x2, x3".toList symbolTable currentAddress
      ∧ assembleLine "Add x1, x2, x3".toList symbolTable currentAddress
          = assembleLine "add x1, x2, x3".toList symbolTable currentAddress
      ∧ changeCase [true, true, true] "add".toList = "ADD".toList
      ∧ changeCase [true] "add".toList = "Add".toList := by
  have hm' := changeCase_no_space flags m hm
  have hop := opcode_changeCase flags m
  have hlen := changeCase_length flags m
  refine ⟨⟨?_, ?_⟩, ?_, rfl, rfl, by decide, by decide⟩
  · exact assemble_changeCase m _ rest symbolTable currentAddress w hm hm' hop
  · exact assemble_changeCase _ m rest symbolTable currentAddress w hm' hm hop.symm
  · rw [find_append_cons _ _ _ hm', find_append_cons _ _ _ hm, hlen]

/-- Witness of `mnemonic_case_insensitive`: `sUb` for `sub`. -/
theorem mnemonic_case_insensitive_witness :
    assembleLine ("sub".toList ++ ' ' :: "x3, x2, x1".toList) [] 0 = .ok 0x401101B3
      ↔ assembleLine (changeCase [false, true, false] "sub".toList
          ++ ' ' :: "x3, x2, x1".toList) [] 0 = .ok 0x401101B3 :=
  (mnemonic_case_insensitive [false, true, false] "sub".toList "x3, x2, x1".toList [] 0
    0x401101B3 (by decide)).1

/-! ## Redefined labels -/

theorem pass1Step_lookup_other (s : Pass1State) (l name : Str)
    (h : labelOf l ≠ some name) :
    (pass1Step s l).symbolTable.lookup name = s.symbolTable.lookup name := by
  unfold labelOf at h
  unfold pass1Step
  generalize trim (stripComment l) = t at h
  by_cases hline : t.isEmpty = true
  · simp [hline]
  · simp only [hline, if_false, Bool.false_eq_true]
    rcases find_cases ':' t with hf | ⟨labelPos, hf⟩
    · simp [hf]
    · simp only [hf, ne_eq, Option.some.injEq] at h
      have hne : (name == trim (List.take labelPos t)) = false := by
        simpa using fun e : name = trim (List.take labelPos t) => h e.symm
      simp only [hf]
      split <;> simp [List.lookup, hne]

theorem pass1_fold_lookup_other (s : Pass1State) (ls : List Str) (name : Str)
    (h : ∀ l ∈ ls, labelOf l ≠ some name) :
    (ls.foldl pass1Step s).symbolTable.lookup name = s.symbolTable.lookup name := by
  induction ls generalizing s with
  | nil => rfl
  | cons l ls ih =>
    rw [List.foldl_cons, ih _ (fun l' hl' => h l' (List.mem_cons_of_mem _ hl')),
      pass1Step_lookup_other _ _ _ (h l (List.mem_cons_self _ _))]

theorem pass1_append (xs ys : List Str) :
    pass1 (xs ++ ys) = ys.foldl pass1Step (pass1 xs) := by
  simp [pass1, List.foldl_append]

/-! ## Blank lines and comments -/

theorem blank_no_hash (ws : Str) (h : isBlankText ws = true) : '#' ∉ ws := by
  intro hc
  have := (blank_iff ws).mp h _ hc
  revert this
  decide

theorem find_append_left (c : Char) (l r : Str) (i : Nat) (h : find c l = some i) :
    find c (l ++ r) = some i := by
  induction l generalizing i with
  | nil => simp [find] at h
  | cons d ds ih =>
    unfold find at h
    simp only [List.cons_append]
    unfold find
    by_cases hd : d = c
    · simpa [hd] using h
    · simp only [hd, if_false, Option.map_eq_some'] at h ⊢
      obtain ⟨j, hj, hji⟩ := h
      exact ⟨j, ih j hj, hji⟩

theorem find_le_length (c : Char) (t : Str) (i : Nat) (h : find c t = some i) :
    i ≤ t.length := by
  induction t generalizing i with
  | nil => simp [find] at h
  | cons d ds ih =>
    unfold find at h
    by_cases hd : d = c
    · simp [hd] at h
      omega
    · simp only [hd, if_false, Option.map_eq_some'] at h
      obtain ⟨j, hj, rfl⟩ := h
      have := ih j hj
      simp
      omega

/-- A blank or whitespace-only line holds nothing once stripped. -/
theorem strip_blank (x : Str) (h : isBlankText x = true) : trim (stripComment x) = [] := by
  unfold stripComment
  rw [find_eq_none '#' x (blank_no_hash x h)]
  exact trim_blank x h

/-- A comment-only line holds nothing once stripped. -/
theorem strip_comment_only (ws rest : Str) (h : isBlankText ws = true) :
    trim (stripComment (ws ++ '#' :: rest)) = [] := by
  unfold stripComment
  rw [find_append_cons '#' ws rest (blank_no_hash ws h)]
  simp only [take_length_append]
  exact trim_blank ws h

/-- Comment text appended to a line, with or without blanks before the `#`,
leaves the stripped line as it was. -/
theorem strip_append_comment (l ws c : Str) (h : isBlankText ws = true) :
    trim (stripComment (l ++ ws ++ '#' :: c)) = trim (stripComment l) := by
  unfold stripComment
  rcases find_cases '#' l with hf | ⟨i, hf⟩
  · have hn : '#' ∉ l ++ ws := by
      intro hc
      rcases List.mem_append.mp hc with hc | hc
      · exact (find_none_iff '#' l).mp hf hc
      · exact blank_no_hash ws h hc
    rw [find_append_cons '#' (l ++ ws) c hn, hf]
    simp only [take_length_append]
    exact trim_append_blank l ws h
  · rw [List.append_assoc, find_append_left '#' l _ i hf, hf]
    simp only
    rw [List.take_append_of_le_length (find_le_length _ _ _ hf)]

theorem pass1Step_congr (s : Pass1State) (x y : Str)
    (h : trim (stripComment x) = trim (stripComment y)) : pass1Step s x = pass1Step s y := by
  unfold pass1Step
  simp only [h]

theorem pass2Step_congr (symbolTable : SymbolTable) (s : Pass2State) (x y : Str)
    (h : trim (stripComment x) = trim (stripComment y)) :
    pass2Step symbolTable s x = pass2Step symbolTable s y := by
  unfold pass2Step
  simp only [h]

theorem pass1Step_skip (s : Pass1State) (x : Str) (h : trim (stripComment x) = []) :
    pass1Step s x = s := by
  unfold pass1Step
  simp [h]

theorem pass2Step_skip (symbolTable : SymbolTable) (s : Pass2State) (x : Str)
    (h : trim (stripComment x) = []) : pass2Step symbolTable s x = s := by
  unfold pass2Step
  cases hf : s.failure <;> simp [h]


/-- C20: inserting a blank line, a whitespace-only line or a comment-only line
(first non-blank character `#`) at any position of a source changes neither
the symbol table of pass 1 nor the words or the error of pass 2; appending
comment text `# ...` to the end of any line changes neither. -/
theorem blank_and_comment_lines (pre post : List Str) (x l ws c : Str)
    (symbolTable : SymbolTable)
    (hx : isBlankText x = true
      ∨ ∃ blanks rest, isBlankText blanks = true ∧ x = blanks ++ '#' :: rest)
    (hws : isBlankText ws = true) :
    pass1 (pre ++ x :: post) = pass1 (pre ++ post)
      ∧ pass2 symbolTable (pre ++ x :: post) = pass2 symbolTable (pre ++ post)
      ∧ assembleProgram (pre ++ x :: post) = assembleProgram (pre ++ post)
      ∧ outputLines (assembleProgram (pre ++ x :: post))
          = outputLines (assembleProgram (pre ++ post))
      ∧ pass1 (pre ++ (l ++ ws ++ '#' :: c) :: post) = pass1 (pre ++ l :: post)
      ∧ pass2 symbolTable (pre ++ (l ++ ws ++ '#' :: c) :: post)
          = pass2 symbolTable (pre ++ l :: post)
      ∧ assembleProgram (pre ++ (l ++ ws ++ '#' :: c) :: post)
          = assembleProgram (pre ++ l :: post)
      ∧ pass1 (pre ++ (l ++ '#' :: c) :: post) = pass1 (pre ++ l :: post)
      ∧ assembleProgram (pre ++ (l ++ '#' :: c) :: post)
          = assembleProgram (pre ++ l :: post) := by
  have hskip : trim (stripComment x) = [] := by
    rcases hx with hb | ⟨blanks, rest, hb, rfl⟩
    · exact strip_blank x hb
    · exact strip_comment_only blanks rest hb
  have h1 : pass1 (pre ++ x :: post) = pass1 (pre ++ post) := by
    simp only [pass1, List.foldl_append, List.foldl_cons, pass1Step_skip _ x hskip]
  have h2 : ∀ st, pass2 st (pre ++ x :: post) = pass2 st (pre ++ post) := by
    intro st
    simp only [pass2, List.foldl_append, List.foldl_cons, pass2Step_skip _ _ x hskip]
  have h3 : assembleProgram (pre ++ x :: post) = assembleProgram (pre ++ post) := by
    unfold assembleProgram
    rw [h1, h2]
  have hc := strip_append_comment l ws c hws
  have h4 : pass1 (pre ++ (l ++ ws ++ '#' :: c) :: post) = pass1 (pre ++ l :: post) := by
    simp only [pass1, List.foldl_append, List.foldl_cons, pass1Step_congr _ _ l hc]
  have h5 : ∀ st, pass2 st (pre ++ (l ++ ws ++ '#' :: c) :: post)
      = pass2 st (pre ++ l :: post) := by
    intro st
    simp only [pass2, List.foldl_append, List.foldl_cons, pass2Step_congr _ _ _ l hc]
  have h6 : assembleProgram (pre ++ (l ++ ws ++ '#' :: c) :: post)
      = assembleProgram (pre ++ l :: post) := by
    unfold assembleProgram
    rw [h4, h5]
  have hc0 := strip_append_comment l [] c rfl
  rw [List.append_nil] at hc0
  have h7 : pass1 (pre ++ (l ++ '#' :: c) :: post) = pass1 (pre ++ l :: post) := by
    simp only [pass1, List.foldl_append, List.foldl_cons, pass1Step_congr _ _ l hc0]
  have h8 : ∀ st, pass2 st (pre ++ (l ++ '#' :: c) :: post) = pass2 st (pre ++ l :: post) := by
    intro st
    simp only [pass2, List.foldl_append, List.foldl_cons, pass2Step_congr _ _ _ l hc0]
  have h9 : assembleProgram (pre ++ (l ++ '#' :: c) :: post)
      = assembleProgram (pre ++ l :: post) := by
    unfold assembleProgram
    rw [h7, h8]
  exact ⟨h1, h2 symbolTable, h3, by rw [h3], h4, h5 symbolTable, h6, h7, h9⟩

/-- Witness of `blank_and_comment_lines`: a comment-only line inserted after
the first line, and a comment appended to the first line. -/
theorem blank_and_comment_lines_witness :
    assembleProgram (["top: addi x1, x0, 1".toList] ++ "  # count".toList
        :: ["bne x1, x0, top".toList])
      = assembleProgram (["top: addi x1, x0, 1".toList] ++ ["bne x1, x0, top".toList])
      ∧ (assembleProgram (["top: addi x1, x0, 1".toList]
          ++ ["bne x1, x0, top".toList])).words = [0x00100093, 0xFE009EE3] :=
  ⟨(blank_and_comment_lines ["top: addi x1, x0, 1".toList] ["bne x1, x0, top".toList]
      "  # count".toList "top: addi x1, x0, 1".toList " ".toList "one".toList []
      (Or.inr ⟨"  ".toList, " count".toList, by decide, by decide⟩) (by decide)).2.2.1,
    by decide⟩

/-! ## The operand list of an operand text -/

theorem commaPieces_ne_nil (s : Str) : commaPieces s ≠ [] := by
  cases s with
  | nil => simp [commaPieces]
  | cons c cs =>
    unfold commaPieces
    split
    · simp
    · split <;> simp

theorem commaPieces_length (s : Str) : (commaPieces s).length = s.count ',' + 1 := by
  induction s with
  | nil => rfl
  | cons c cs ih =>
    unfold commaPieces
    by_cases hc : c = ','
    · subst hc
      simp [ih]
    · rw [if_neg hc, List.count_cons_of_ne (fun e => hc e.symm)]
      cases hp : commaPieces cs with
      | nil => exact absurd hp (commaPieces_ne_nil cs)
      | cons p ps =>
        rw [hp] at ih
        simpa using ih

theorem commaPieces_join (s : Str) : List.intercalate [','] (commaPieces s) = s := by
  induction s with
  | nil => rfl
  | cons c cs ih =>
    unfold commaPieces
    by_cases hc : c = ','
    · subst hc
      rw [if_pos rfl]
      cases hp : commaPieces cs with
      | nil => exact absurd hp (commaPieces_ne_nil cs)
      | cons p ps =>
        rw [hp] at ih
        rw [← ih]
        simp [List.intercalate, List.intersperse]
    · rw [if_neg hc]
      cases hp : commaPieces cs with
      | nil => exact absurd hp (commaPieces_ne_nil cs)
      | cons p ps =>
        rw [hp] at ih
        rw [← ih]
        cases ps <;> simp [List.intercalate, List.intersperse]

theorem commaPieces_no_comma (s : Str) : ∀ p ∈ commaPieces s, ',' ∉ p := by
  induction s with
  | nil => simp [commaPieces]
  | cons c cs ih =>
    unfold commaPieces
    by_cases hc : c = ','
    · rw [if_pos hc]
      intro p hp
      rcases List.mem_cons.mp hp with e | e
      · simp [e]
      · exact ih p e
    · rw [if_neg hc]
      cases hp : commaPieces cs with
      | nil => exact absurd hp (commaPieces_ne_nil cs)
      | cons p ps =>
        rw [hp] at ih
        intro q hq
        rcases List.mem_cons.mp hq with e | e
        · subst e
          have := ih p (by simp)
          simp [this, Ne.symm hc]
        · exact ih q (by simp [e])

/-- The last piece is empty exactly when the text is empty or ends with a comma. -/
theorem commaPieces_getLast (s : Str) :
    (commaPieces s).getLast? = some [] ↔ (s = [] ∨ s.getLast? = some ',') := by
  induction s with
  | nil => simp [commaPieces]
  | cons c cs ih =>
    unfold commaPieces
    by_cases hc : c = ','
    · subst hc
      rw [if_pos rfl]
      cases hp : commaPieces cs with
      | nil => exact absurd hp (commaPieces_ne_nil cs)
      | cons p ps =>
        rw [hp] at ih
        rw [List.getLast?_cons_cons, ih]
        cases cs with
        | nil => simp
        | cons d ds => simp [List.getLast?_cons_cons]
    · rw [if_neg hc]
      cases hp : commaPieces cs with
      | nil => exact absurd hp (commaPieces_ne_nil cs)
      | cons p ps =>
        rw [hp] at ih
        cases ps with
        | nil =>
          cases cs with
          | nil => simp [hc]
          | cons d ds =>
            simp only [List.getLast?_singleton, Option.some.injEq, reduceCtorEq, false_or] at ih
            simp [List.getLast?_cons_cons]
            intro e
            have hlen := commaPieces_length (d :: ds)
            rw [hp] at hlen
            have hcount : (d :: ds).count ',' = 0 := by simpa using hlen.symm
            have hmem : ',' ∈ d :: ds := List.mem_of_getLast?_eq_some e
            exact absurd hmem (List.count_eq_zero.mp hcount)
        | cons q qs =>
          rw [List.getLast?_cons_cons]
          cases cs with
          | nil => simp [commaPieces] at hp
          | cons d ds =>
            rw [List.getLast?_cons_cons] at ih ⊢
            simpa using ih

/-- What the loop of `parseOperands` delivers, from the pieces between the commas:
the characters read so far belong to the first piece, and an empty last piece is
not delivered. -/
theorem getlineTokens_pieces (s acc : Str) :
    getlineTokens ',' s acc
      = match commaPieces s with
        | p :: ps =>
          if ((acc.reverse ++ p) :: ps).getLast? = some [] then ((acc.reverse ++ p) :: ps).dropLast
          else (acc.reverse ++ p) :: ps
        | [] => [] := by
  induction s generalizing acc with
  | nil =>
    cases acc <;> simp [getlineTokens, commaPieces]
  | cons c cs ih =>
    unfold commaPieces
    by_cases hc : c = ','
    · subst hc
      rw [if_pos rfl]
      simp only [getlineTokens, if_true]
      rw [ih []]
      cases hp : commaPieces cs with
      | nil => exact absurd hp (commaPieces_ne_nil cs)
      | cons p ps =>
        simp only [List.reverse_nil, List.nil_append, List.append_nil,
          List.getLast?_cons_cons, List.dropLast_cons₂]
        split <;> rfl
    · rw [if_neg hc]
      simp only [getlineTokens, if_neg hc]
      rw [ih (c :: acc)]
      cases hp : commaPieces cs with
      | nil => exact absurd hp (commaPieces_ne_nil cs)
      | cons p ps =>
        simp only [List.reverse_cons, List.append_assoc, List.singleton_append]

theorem dropWhile_head (t : Str) (c : Char) (r : Str)
    (h : t.dropWhile isTrimChar = c :: r) : isTrimChar c = false := by
  have := List.head?_dropWhile_not isTrimChar t
  rw [h] at this
  simpa using this

/-- A trimmed text does not start with a blank. -/
theorem trim_head (t : Str) (c : Char) (h : (trim t).head? = some c) :
    isTrimChar c = false := by
  have hpre : trim t <+: t.dropWhile isTrimChar := by
    have hs : (t.dropWhile isTrimChar).reverse.dropWhile isTrimChar
        <:+ (t.dropWhile isTrimChar).reverse := List.dropWhile_suffix _
    have hp := hs.reverse
    rwa [List.reverse_reverse] at hp
  obtain ⟨r, hr⟩ := hpre
  cases ht : trim t with
  | nil => simp [ht] at h
  | cons d ds =>
    rw [ht] at h hr
    simp only [List.head?_cons, Option.some.injEq] at h
    subst h
    exact dropWhile_head t d (ds ++ r) hr.symm

/-- A trimmed text does not end with a blank. -/
theorem trim_getLast (t : Str) (c : Char) (h : (trim t).getLast? = some c) :
    isTrimChar c = false := by
  unfold trim at h
  rw [List.getLast?_reverse] at h
  cases hx : (t.dropWhile isTrimChar).reverse.dropWhile isTrimChar with
  | nil => simp [hx] at h
  | cons d ds =>
    rw [hx] at h
    simp only [List.head?_cons, Option.some.injEq] at h
    subst h
    exact dropWhile_head _ d ds hx

/-- C21 (amended): the operand list of any operand text `s`, from the pieces of
`s` between its commas (`commaPieces s`: one piece more than commas, no comma in
a piece, the pieces joined by commas give `s` back).  `parseOperands s` is the
list of the trimmed pieces in order, except that a last piece that is empty (`s`
is empty or ends with a comma) is not delivered: the list has as many tokens as
`s` has commas in that case and one more otherwise.  No token holds a comma,
starts with a blank or ends with one. -/
theorem parseOperands_pieces (s : Str) :
    (commaPieces s).length = s.count ',' + 1
      ∧ List.intercalate [','] (commaPieces s) = s
      ∧ (∀ p ∈ commaPieces s, ',' ∉ p)
      ∧ parseOperands s
          = (if s = [] ∨ s.getLast? = some ',' then (commaPieces s).dropLast
             else commaPieces s).map trim
      ∧ (parseOperands s).length
          = (if s = [] ∨ s.getLast? = some ',' then s.count ',' else s.count ',' + 1)
      ∧ ∀ t ∈ parseOperands s, ',' ∉ t ∧ trim t = t
          ∧ (∀ c, t.head? = some c → isTrimChar c = false)
          ∧ (∀ c, t.getLast? = some c → isTrimChar c = false) := by
  have hlen := commaPieces_length s
  have hno := commaPieces_no_comma s
  have hlast := commaPieces_getLast s
  have hparse : parseOperands s
      = (if s = [] ∨ s.getLast? = some ',' then (commaPieces s).dropLast
         else commaPieces s).map trim := by
    unfold parseOperands
    rw [getlineTokens_pieces s []]
    cases hp : commaPieces s with
    | nil => exact absurd hp (commaPieces_ne_nil s)
    | cons p ps =>
      rw [hp] at hlast
      simp only [List.reverse_nil, List.nil_append]
      by_cases hc : s = [] ∨ s.getLast? = some ','
      · rw [if_pos hc, if_pos (hlast.mpr hc)]
      · rw [if_neg hc, if_neg (fun e => hc (hlast.mp e))]
  refine ⟨hlen, commaPieces_join s, hno, hparse, ?_, ?_⟩
  · rw [hparse, List.length_map]
    split
    · rw [List.length_dropLast, hlen]
      rfl
    · exact hlen
  · intro t ht
    rw [hparse] at ht
    obtain ⟨p, hp, rfl⟩ := List.mem_map.mp ht
    have hpm : p ∈ commaPieces s := by
      split at hp
      · exact List.mem_of_mem_dropLast hp
      · exact hp
    refine ⟨fun hc => hno p hpm (trim_sublist_mem p ',' hc), ?_, trim_head p, trim_getLast p⟩
    cases hh : (trim p) with
    | nil => rfl
    | cons d ds =>
      rw [← hh]
      apply trim_eq_self
      · rw [hh]
        have := trim_head p d (by rw [hh]; rfl)
        simp [this]
      · cases hl : (trim p).getLast? with
        | none =>
          rw [hh] at hl
          simp at hl
        | some e =>
          have := trim_getLast p e hl
          simp [this]

/-- C21 (as stated, refuted): the operand text `x1, x2,` is not empty and has
two commas, yet `parseOperands` delivers the two tokens `x1` and `x2`, not
three: the empty text after the last comma is no token. -/
theorem parseOperands_trailing_comma :
    "x1, x2,".toList ≠ []
      ∧ "x1, x2,".toList.count ',' = 2
      ∧ parseOperands "x1, x2,".toList = ["x1".toList, "x2".toList]
      ∧ (parseOperands "x1, x2,".toList).length ≠ "x1, x2,".toList.count ',' + 1 := by
  decide

/-- Witness of `parseOperands_pieces`: the operand text of `sw x5, 8(x2)` and a
text that ends with a comma. -/
theorem parseOperands_pieces_witness :
    parseOperands "x5, 8(x2)".toList = ["x5".toList, "8(x2)".toList]
      ∧ (parseOperands "x5, 8(x2)".toList).length = 2
      ∧ (parseOperands "ra, ".toList).length = 2
      ∧ (parseOperands "ra,".toList).length = 1 :=
  ⟨(parseOperands_pieces "x5, 8(x2)".toList).2.2.2.1,
   (parseOperands_pieces "x5, 8(x2)".toList).2.2.2.2.1,
   (parseOperands_pieces "ra, ".toList).2.2.2.2.1,
   (parseOperands_pieces "ra,".toList).2.2.2.2.1⟩

/-! ## Alignment of the addresses -/

theorem add32_aligned (a : Nat) (h : 4 ∣ a) : 4 ∣ add32 a 4 := by
  unfold add32
  omega

/-- One step of pass 1 keeps the counter and every stored address a multiple of 4. -/
theorem pass1Step_aligned (s : Pass1State) (l : Str) (ha : 4 ∣ s.address)
    (ht : ∀ p ∈ s.symbolTable, 4 ∣ p.2) :
    4 ∣ (pass1Step s l).address ∧ ∀ p ∈ (pass1Step s l).symbolTable, 4 ∣ p.2 := by
  have hcons : ∀ label : Str, ∀ p ∈ (label, s.address) :: s.symbolTable, 4 ∣ p.2 := by
    intro label p hp
    rcases List.mem_cons.mp hp with e | e
    · rw [e]
      exact ha
    · exact ht p e
  unfold pass1Step
  simp only
  split
  · exact ⟨ha, ht⟩
  · split
    · split
      · exact ⟨ha, hcons _⟩
      · exact ⟨add32_aligned _ ha, hcons _⟩
    · exact ⟨add32_aligned _ ha, ht⟩

theorem pass1_fold_aligned (s : Pass1State) (ls : List Str) (ha : 4 ∣ s.address)
    (ht : ∀ p ∈ s.symbolTable, 4 ∣ p.2) :
    4 ∣ (ls.foldl pass1Step s).address
      ∧ ∀ p ∈ (ls.foldl pass1Step s).symbolTable, 4 ∣ p.2 := by
  induction ls generalizing s with
  | nil => exact ⟨ha, ht⟩
  | cons l ls ih =>
    rw [List.foldl_cons]
    exact ih _ (pass1Step_aligned s l ha ht).1 (pass1Step_aligned s l ha ht).2

/-- One step of pass 2 keeps the counter a multiple of 4. -/
theorem pass2Step_aligned (symbolTable : SymbolTable) (s : Pass2State) (l : Str)
    (ha : 4 ∣ s.address) : 4 ∣ (pass2Step symbolTable s l).address := by
  unfold pass2Step
  simp only
  split
  · exact ha
  · split
    · exact ha
    · split
      · exact ha
      · split
        · exact add32_aligned _ ha
        · exact ha

theorem pass2_fold_aligned (symbolTable : SymbolTable) (s : Pass2State) (ls : List Str)
    (ha : 4 ∣ s.address) : 4 ∣ (ls.foldl (pass2Step symbolTable) s).address := by
  induction ls generalizing s with
  | nil => exact ha
  | cons l ls ih =>
    rw [List.foldl_cons]
    exact ih _ (pass2Step_aligned symbolTable s l ha)

/-- The displacement between two addresses that are multiples of 4. -/
theorem displacement_aligned (A pc : Nat) (hA : 4 ∣ A) (hpc : 4 ∣ pc) :
    (4 : Int) ∣ toI32 (sub32 A pc) ∧ toI32 (sub32 A pc) % 2 = 0
      ∧ toU32 (toI32 (sub32 A pc)) % 2 = 0 := by
  unfold toI32 sub32 toU32
  split <;> omega

/-- C22: in a run on any source, every address stored in the symbol table by
pass 1 is a multiple of 4, and so is the counter of pass 2 before every line
(for any symbol table); while the run has not failed, that counter is the
current address handed to `assembleInstruction` on the instruction of the line.
Hence a target that is not numeric and is bound in the table resolves, at every
line, to a displacement that is a multiple of 4: it is even and bit 0 of its
32-bit pattern is zero. -/
theorem addresses_aligned (lines : List Str) :
    (∀ p ∈ (pass1 lines).symbolTable, 4 ∣ p.2)
      ∧ (∀ (symbolTable : SymbolTable) (k : Nat),
          4 ∣ (pass2 symbolTable (lines.take k)).address)
      ∧ (∀ (symbolTable : SymbolTable) (k : Nat) (l instruction : Str),
          lines[k]? = some l → instructionOf l = some instruction →
          (pass2 symbolTable (lines.take k)).failure = none →
          pass2 symbolTable (lines.take (k + 1))
            = match assembleLine instruction symbolTable
                (pass2 symbolTable (lines.take k)).address with
              | .ok machineCode =>
                { address := add32 (pass2 symbolTable (lines.take k)).address 4,
                  words := (pass2 symbolTable (lines.take k)).words ++ [machineCode],
                  failure := none }
              | .error e =>
                { address := (pass2 symbolTable (lines.take k)).address,
                  words := (pass2 symbolTable (lines.take k)).words,
                  failure := some (instruction, e) })
      ∧ ∀ (k : Nat) (L : Str) (A : Nat), isNumber L = false →
          (pass1 lines).symbolTable.lookup L = some A →
          ∃ d : Int,
            resolveRelative (pass1 lines).symbolTable L
                (pass2 (pass1 lines).symbolTable (lines.take k)).address = .ok d
              ∧ (4 : Int) ∣ d ∧ d % 2 = 0 ∧ toU32 d % 2 = 0 := by
  have h1 := pass1_fold_aligned { symbolTable := [], address := 0 } lines (by decide)
    (by simp)
  have h2 : ∀ (symbolTable : SymbolTable) (k : Nat),
      4 ∣ (pass2 symbolTable (lines.take k)).address := fun symbolTable k =>
    pass2_fold_aligned symbolTable { address := 0, words := [], failure := none }
      (lines.take k) (by decide)
  refine ⟨h1.2, h2, ?_, ?_⟩
  · intro symbolTable k l instruction hl hi hok
    have hstep := pass2Step_running symbolTable (pass2 symbolTable (lines.take k)) l hok
    rw [← pass2_snoc, ← take_succ_of_get lines k l hl] at hstep
    simp only [hi] at hstep
    exact hstep
  · intro k L A hnum hA
    refine ⟨_, resolveRelative_symbol _ L A _ hnum hA, ?_⟩
    exact displacement_aligned A _ (h1.2 (L, A) (lookup_mem _ _ _ hA)) (h2 _ k)

/-- Witness of `addresses_aligned`: the backward branch of a two-line loop is
resolved to the displacement `-4`. -/
theorem addresses_aligned_witness :
    ∃ d : Int,
      resolveRelative
          (pass1 ["loop: addi x1, x1, 1".toList, "bne x1, x2, loop".toList]).symbolTable
          "loop".toList
          (pass2 (pass1 ["loop: addi x1, x1, 1".toList, "bne x1, x2, loop".toList]).symbolTable
            (["loop: addi x1, x1, 1".toList, "bne x1, x2, loop".toList].take 1)).address
        = .ok d
      ∧ (4 : Int) ∣ d ∧ d % 2 = 0 ∧ toU32 d % 2 = 0 :=
  (addresses_aligned ["loop: addi x1, x1, 1".toList, "bne x1, x2, loop".toList]).2.2.2
    1 "loop".toList 0 (by decide) (by decide)

/-! ## Numeric literals -/

theorem isdigit_isDigitOf (c : Char) (h : isdigit c = true) : isDigitOf 10 c = true := by
  unfold isDigitOf digitValue
  rw [if_pos h]
  simp only [isdigit, Bool.and_eq_true, decide_eq_true_eq] at h
  simp only [decide_eq_true_eq]
  omega

theorem isxdigit_isDigitOf (c : Char) (h : isxdigit c = true) : isDigitOf 16 c = true := by
  unfold isDigitOf digitValue
  simp only [isxdigit, Bool.or_eq_true, Bool.and_eq_true, decide_eq_true_eq] at h
  by_cases hd : isdigit c = true
  · rw [if_pos hd]
    simp only [isdigit, Bool.and_eq_true, decide_eq_true_eq] at hd
    simp only [decide_eq_true_eq]
    omega
  · rw [if_neg hd]
    rcases h with (h | h) | h
    · exact absurd h hd
    · rw [if_pos h]
      simp only [decide_eq_true_eq]
      omega
    · have hn : ¬ (97 ≤ c.toNat ∧ c.toNat ≤ 102) := by omega
      rw [if_neg hn, if_pos h]
      simp only [decide_eq_true_eq]
      omega

theorem isdigit_plain (c : Char) (h : isdigit c = true) :
    isspace c = false ∧ c ≠ '-' ∧ c ≠ '+' := by
  refine ⟨?_, ?_, ?_⟩
  · cases hs : isspace c with
    | false => rfl
    | true =>
      exfalso
      simp only [isdigit, Bool.and_eq_true, decide_eq_true_eq] at h
      simp only [isspace, Bool.or_eq_true, beq_iff_eq, Bool.and_eq_true,
        decide_eq_true_eq] at hs
      rcases hs with e | e
      · subst e
        revert h
        decide
      · omega
  · rintro rfl
    revert h
    decide
  · rintro rfl
    revert h
    decide

theorem takeWhile_all (p : Char → Bool) (l : Str) (h : ∀ c ∈ l, p c = true) :
    l.takeWhile p = l :=
  List.takeWhile_eq_self_iff.mpr h

/-- The range test of `std::stoi` on a value. -/
theorem stoi_range (v : Int) :
    (if v < -2147483648 ∨ 2147483647 < v then (.error .stoiOutOfRange : Except AsmError Int)
      else .ok v)
      = if fitsInt v then .ok v else .error .stoiOutOfRange := by
  unfold fitsInt
  by_cases h : v < -2147483648 ∨ 2147483647 < v
  · rw [if_pos h, if_neg]
    simp only [Bool.and_eq_true, decide_eq_true_eq]
    omega
  · rw [if_neg h, if_pos]
    simp only [Bool.and_eq_true, decide_eq_true_eq]
    omega

/-- The call `std::stoi(s)` on a run of decimal digits. -/
theorem stoi_decimal (ds : Str) (hne : ds ≠ []) (hall : ∀ c ∈ ds, isdigit c = true) :
    stoi ds 10
      = if fitsInt (numeralValue 10 ds) then .ok (numeralValue 10 ds : Int)
        else .error .stoiOutOfRange := by
  obtain ⟨d, r, rfl⟩ : ∃ d r, ds = d :: r := List.exists_cons_of_ne_nil hne
  obtain ⟨hsp, hm, hp⟩ := isdigit_plain d (hall d (by simp))
  have htake : (d :: r).takeWhile (isDigitOf 10) = d :: r :=
    takeWhile_all _ _ (fun c hc => isdigit_isDigitOf c (hall c hc))
  unfold stoi
  simp only [List.dropWhile_cons, hsp, Bool.false_eq_true, if_false, List.head?_cons]
  have h1 : (some d == some '-') = false := by simpa using hm
  have h2 : (some d == some '+') = false := by simpa using hp
  simp only [h1, h2, Bool.or_self, Bool.false_eq_true, if_false]
  rcases r with _ | ⟨c1, _ | ⟨c2, rest⟩⟩
  all_goals
    simp only [Nat.reduceBEq, Bool.false_and, Bool.false_eq_true, if_false, htake,
      List.isEmpty_cons]
    exact stoi_range _

/-- The call `std::stoi(s)` on a sign followed by a run of decimal digits. -/
theorem stoi_signed (sign : Char) (ds : Str) (hs : sign = '-' ∨ sign = '+') (hne : ds ≠ [])
    (hall : ∀ c ∈ ds, isdigit c = true) :
    stoi (sign :: ds) 10
      = if fitsInt (if sign = '-' then -(numeralValue 10 ds : Int) else numeralValue 10 ds)
        then .ok (if sign = '-' then -(numeralValue 10 ds : Int) else numeralValue 10 ds)
        else .error .stoiOutOfRange := by
  obtain ⟨d, r, rfl⟩ : ∃ d r, ds = d :: r := List.exists_cons_of_ne_nil hne
  have htake : (d :: r).takeWhile (isDigitOf 10) = d :: r :=
    takeWhile_all _ _ (fun c hc => isdigit_isDigitOf c (hall c hc))
  have hsp : isspace sign = false := by
    rcases hs with e | e <;> subst e <;> decide
  have hor : (some sign == some '-' || some sign == some '+') = true := by
    rcases hs with e | e <;> subst e <;> decide
  unfold stoi
  simp only [List.dropWhile_cons, hsp, Bool.false_eq_true, if_false, List.head?_cons, hor,
    if_true, List.drop_succ_cons, List.drop_zero]
  rcases r with _ | ⟨c1, _ | ⟨c2, rest⟩⟩
  all_goals
    simp only [Nat.reduceBEq, Bool.false_and, Bool.false_eq_true, if_false, htake,
      List.isEmpty_cons]
    rw [stoi_range]
    rcases hs with e | e <;> subst e <;> rfl

/-- The call `std::stoi(s, nullptr, 16)` on `0x` or `0X` followed by a run of
hexadecimal digits. -/
theorem stoi_hex (x : Char) (hs : Str) (hx : x = 'x' ∨ x = 'X') (hne : hs ≠ [])
    (hall : ∀ c ∈ hs, isxdigit c = true) :
    stoi ('0' :: x :: hs) 16
      = if fitsInt (numeralValue 16 hs) then .ok (numeralValue 16 hs : Int)
        else .error .stoiOutOfRange := by
  obtain ⟨d, r, rfl⟩ : ∃ d r, hs = d :: r := List.exists_cons_of_ne_nil hne
  have htake : (d :: r).takeWhile (isDigitOf 16) = d :: r :=
    takeWhile_all _ _ (fun c hc => isxdigit_isDigitOf c (hall c hc))
  have hd : isDigitOf 16 d = true := isxdigit_isDigitOf d (hall d (by simp))
  have hxb : (x == 'x' || x == 'X') = true := by
    rcases hx with e | e <;> subst e <;> decide
  unfold stoi
  have hsp : isspace '0' = false := by decide
  have h1 : (some '0' == some '-') = false := by decide
  have h2 : (some '0' == some '+') = false := by decide
  simp only [List.dropWhile_cons, hsp, Bool.false_eq_true, if_false, List.head?_cons, h1, h2,
    Bool.or_self, beq_self_eq_true, Bool.true_and, hxb, hd, if_true, htake,
    List.isEmpty_cons]
  exact stoi_range _

/-- C23 (as stated, refuted): `isNumber` accepts the decimal text `2147483648`
and the hexadecimal text `0x80000000`, whose values do not fit `int`, and
`parseNumber` throws `std::out_of_range` on both; it also accepts the lone signs
`-` and `+`, on which `parseNumber` throws `std::invalid_argument`. -/
theorem isNumber_accepts_unconvertible :
    (isNumber "2147483648".toList = true
        ∧ parseNumber "2147483648".toList = .error .stoiOutOfRange)
      ∧ (isNumber "0x80000000".toList = true
        ∧ parseNumber "0x80000000".toList = .error .stoiOutOfRange)
      ∧ (isNumber "-".toList = true ∧ parseNumber "-".toList = .error .stoiInvalidArgument)
      ∧ (isNumber "+".toList = true ∧ parseNumber "+".toList = .error .stoiInvalidArgument) :=
  ⟨⟨by decide, rfl⟩, ⟨by decide, rfl⟩, ⟨by decide, rfl⟩, ⟨by decide, rfl⟩⟩

/-- C23 (amended): for every text `s` that `isNumber` accepts and that is not a
lone sign, `parseNumber s` returns the value of the numeral `s` (hexadecimal
after `0x` or `0X`, else decimal with an optional sign) when that value fits a
32-bit `int`, and throws `std::out_of_range` when it does not. -/
theorem parseNumber_of_isNumber (s : Str) (h : isNumber s = true) (hm : s ≠ ['-'])
    (hp : s ≠ ['+']) :
    parseNumber s
      = if fitsInt (literalValue s) then .ok (literalValue s) else .error .stoiOutOfRange := by
  unfold isNumber at h
  cases s with
  | nil => simp at h
  | cons c0 r =>
    simp only [List.isEmpty_cons, Bool.false_eq_true, if_false] at h
    unfold parseNumber literalValue
    by_cases hx : hasHexMarker (c0 :: r) = true
    · rw [if_pos hx] at h
      rw [if_pos hx, if_pos hx]
      match r, hx, h with
      | c1 :: c2 :: rest, hx2, h2 =>
        simp only [hasHexMarker, Bool.and_eq_true, Bool.or_eq_true, beq_iff_eq] at hx2
        simp only [List.drop_succ_cons, List.drop_zero, List.all_eq_true] at h2 ⊢
        rw [hx2.1]
        exact stoi_hex c1 (c2 :: rest) hx2.2 (by simp) h2
    · rw [if_neg hx] at h
      rw [if_neg hx, if_neg hx]
      simp only [List.head?_cons, Option.some.injEq] at h ⊢
      by_cases hs : c0 = '-' ∨ c0 = '+'
      · rw [if_pos hs] at h
        simp only [List.drop_succ_cons, List.drop_zero, List.all_eq_true] at h ⊢
        have hne : r ≠ [] := by
          rintro rfl
          rcases hs with e | e
          · exact hm (by rw [e])
          · exact hp (by rw [e])
        rw [stoi_signed c0 r hs hne h]
        rcases hs with e | e <;> subst e <;> rfl
      · rw [if_neg hs] at h
        simp only [List.drop_zero, List.all_eq_true] at h
        rw [stoi_decimal (c0 :: r) (by simp) h]
        have h1 : ¬ c0 = '-' := fun e => hs (Or.inl e)
        have h2 : ¬ c0 = '+' := fun e => hs (Or.inr e)
        rw [if_neg h1, if_neg h2]

/-- Witness of `parseNumber_of_isNumber`: `-2048` converts to its value, and so
do `0x7ff` and `+15`. -/
theorem parseNumber_of_isNumber_witness :
    (isNumber "-2048".toList = true ∧ parseNumber "-2048".toList = .ok (-2048))
      ∧ parseNumber "0x7ff".toList = .ok 2047
      ∧ parseNumber "+15".toList = .ok 15 :=
  ⟨⟨by decide,
    parseNumber_of_isNumber "-2048".toList (by decide) (by decide) (by decide)⟩,
   parseNumber_of_isNumber "0x7ff".toList (by decide) (by decide) (by decide),
   parseNumber_of_isNumber "+15".toList (by decide) (by decide) (by decide)⟩

/-! ## Shifts by a constant -/

/-- The descriptors of `srai` and `srli` differ in `funct7` only, which
`encodeIType` does not read. -/
theorem encodeIType_srai (rd rs1 imm : Int) :
    encodeIType (entry "srai" .I_TYPE 0b0010011 0b101 0b0100000).2 rd rs1 imm
      = encodeIType (entry "srli" .I_TYPE 0b0010011 0b101 0).2 rd rs1 imm := rfl

/-- The dispatch gives the same word, if any, under the descriptors of `srai`
and `srli`. -/
theorem encodeOperands_srai (operands : List Str) (l1 l2 : Str) (symbolTable : SymbolTable)
    (pc w : Nat) :
    encodeOperands (entry "srai" .I_TYPE 0b0010011 0b101 0b0100000).2 "srai".toList operands l1
        createRegisterMap symbolTable pc = .ok w
      ↔ encodeOperands (entry "srli" .I_TYPE 0b0010011 0b101 0).2 "srli".toList operands l2
        createRegisterMap symbolTable pc = .ok w := by
  have h1 : isLoadName "srai".toList = false := by decide
  have h2 : isLoadName "srli".toList = false := by decide
  have h3 : ("srai".toList == "jalr".toList) = false := by decide
  have h4 : ("srli".toList == "jalr".toList) = false := by decide
  have hf1 : (entry "srai" .I_TYPE 0b0010011 0b101 0b0100000).2.format = .I_TYPE := rfl
  have hf2 : (entry "srli" .I_TYPE 0b0010011 0b101 0).2.format = .I_TYPE := rfl
  unfold encodeOperands
  simp only [hf1, hf2, h1, h2, h3, h4, Bool.false_eq_true, if_false]
  rcases operands with _ | ⟨a, _ | ⟨b, _ | ⟨c, _ | ⟨d, rest⟩⟩⟩⟩ <;>
    simp only [reduceCtorEq, encodeIType_srai]

/-- C24: the line `srai` followed by any operand text assembles to a word
exactly when `srli` followed by the same text assembles to that same word, for
every symbol table and current address.  In particular `srai x1, x2, 3` and
`srli x1, x2, 3` both give `0x00315093`, although the catalog holds
`funct7 = 0100000` for `srai`, which bits 31:25 of the word `0x40315093` would
carry. -/
theorem srai_assembles_as_srli (ops : Str) (symbolTable : SymbolTable)
    (currentAddress w : Nat) :
    (assembleLine ("srai".toList ++ ' ' :: ops) symbolTable currentAddress = .ok w
        ↔ assembleLine ("srli".toList ++ ' ' :: ops) symbolTable currentAddress = .ok w)
      ∧ assembleLine "srai x1, x2, 3".toList symbolTable currentAddress = .ok 0x00315093
      ∧ assembleLine "srli x1, x2, 3".toList symbolTable currentAddress = .ok 0x00315093
      ∧ (createInstructionMap.lookup "srai".toList).map Instruction.funct7 = some 0b0100000
      ∧ (createInstructionMap.lookup "srli".toList).map Instruction.funct7 = some 0
      ∧ bitField 0x00315093 31 25 = 0 := by
  refine ⟨?_, rfl, rfl, by decide, by decide, by decide⟩
  unfold assembleLine assembleInstruction
  rw [splitInstruction_cut _ _ (by decide), splitInstruction_cut _ _ (by decide)]
  have e1 : (trim "srai".toList).map tolower = "srai".toList := by decide
  have e2 : (trim "srli".toList).map tolower = "srli".toList := by decide
  have l1 : createInstructionMap.lookup "srai".toList
      = some (entry "srai" .I_TYPE 0b0010011 0b101 0b0100000).2 := by decide
  have l2 : createInstructionMap.lookup "srli".toList
      = some (entry "srli" .I_TYPE 0b0010011 0b101 0).2 := by decide
  simp only [e1, e2, l1, l2]
  exact encodeOperands_srai _ _ _ _ _ _

/-! ## The fixed fields of a word -/

theorem register_range (name : Str) (n : Int) (h : findRegister createRegisterMap name = .ok n) :
    0 ≤ n ∧ n < 32 := by
  unfold findRegister at h
  cases hl : createRegisterMap.lookup name with
  | none => simp [hl] at h
  | some v =>
    simp only [hl, Except.ok.injEq] at h
    subst h
    have hs := registers_spec (name, v) (lookup_mem _ _ _ hl)
    exact ⟨hs.2.1, hs.2.2.1⟩

theorem parseMemoryOperand_range (o : Str) (off rs1 : Int)
    (h : parseMemoryOperand o createRegisterMap = .ok (off, rs1)) : 0 ≤ rs1 ∧ rs1 < 32 := by
  unfold parseMemoryOperand at h
  split at h
  · simp only at h
    split at h
    · simp at h
    · split at h
      · simp at h
      · rename_i number hl
        simp only [Except.ok.injEq, Prod.mk.injEq] at h
        have hs := registers_spec (_, number) (lookup_mem _ _ _ hl)
        rw [← h.2]
        exact ⟨hs.2.1, hs.2.2.1⟩
  · simp at h

theorem encodeRType_fixed (instr : Instruction) (rd rs1 rs2 : Int) (hi : instr.fieldsInRange)
    (hrd : 0 ≤ rd ∧ rd < 32) (hrs1 : 0 ≤ rs1 ∧ rs1 < 32) (hrs2 : 0 ≤ rs2 ∧ rs2 < 32) :
    bitField (encodeRType instr rd rs1 rs2) 6 0 = instr.opcode
      ∧ bitField (encodeRType instr rd rs1 rs2) 14 12 = instr.funct3 := by
  obtain ⟨a, rfl⟩ := Int.eq_ofNat_of_zero_le hrd.1
  obtain ⟨b, rfl⟩ := Int.eq_ofNat_of_zero_le hrs1.1
  obtain ⟨c, rfl⟩ := Int.eq_ofNat_of_zero_le hrs2.1
  rw [encodeRType_arith instr a b c hi (by omega) (by omega) (by omega)]
  obtain ⟨ho, h3, h7⟩ := hi
  simp only [bitField, Nat.shiftRight_eq_div_pow]
  norm_num
  constructor <;> omega

theorem encodeIType_fixed (instr : Instruction) (rd rs1 imm : Int) (hi : instr.fieldsInRange)
    (hrd : 0 ≤ rd ∧ rd < 32) (hrs1 : 0 ≤ rs1 ∧ rs1 < 32) :
    bitField (encodeIType instr rd rs1 imm) 6 0 = instr.opcode
      ∧ bitField (encodeIType instr rd rs1 imm) 14 12 = instr.funct3 := by
  obtain ⟨a, rfl⟩ := Int.eq_ofNat_of_zero_le hrd.1
  obtain ⟨b, rfl⟩ := Int.eq_ofNat_of_zero_le hrs1.1
  rw [encodeIType_arith instr a b imm hi (by omega) (by omega)]
  obtain ⟨ho, h3, h7⟩ := hi
  generalize (imm % 4096).toNat = x
  simp only [bitField, Nat.shiftRight_eq_div_pow]
  norm_num
  constructor <;> omega

theorem encodeSType_fixed (instr : Instruction) (rs1 rs2 imm : Int) (hi : instr.fieldsInRange)
    (hrs1 : 0 ≤ rs1 ∧ rs1 < 32) (hrs2 : 0 ≤ rs2 ∧ rs2 < 32) :
    bitField (encodeSType instr rs1 rs2 imm) 6 0 = instr.opcode
      ∧ bitField (encodeSType instr rs1 rs2 imm) 14 12 = instr.funct3 := by
  obtain ⟨a, rfl⟩ := Int.eq_ofNat_of_zero_le hrs1.1
  obtain ⟨b, rfl⟩ := Int.eq_ofNat_of_zero_le hrs2.1
  rw [encodeSType_arith instr a b imm hi (by omega) (by omega)]
  obtain ⟨ho, h3, h7⟩ := hi
  have hx : (imm % 32).toNat < 32 := by omega
  generalize (imm % 32).toNat = x at hx
  generalize (imm / 32 % 128).toNat = y
  simp only [bitField, Nat.shiftRight_eq_div_pow]
  norm_num
  constructor <;> omega

theorem encodeBType_fixed (instr : Instruction) (rs1 rs2 imm : Int) (hi : instr.fieldsInRange)
    (hrs1 : 0 ≤ rs1 ∧ rs1 < 32) (hrs2 : 0 ≤ rs2 ∧ rs2 < 32) :
    bitField (encodeBType instr rs1 rs2 imm) 6 0 = instr.opcode
      ∧ bitField (encodeBType instr rs1 rs2 imm) 14 12 = instr.funct3 := by
  obtain ⟨a, rfl⟩ := Int.eq_ofNat_of_zero_le hrs1.1
  obtain ⟨b, rfl⟩ := Int.eq_ofNat_of_zero_le hrs2.1
  rw [encodeBType_arith instr a b imm hi (by omega) (by omega)]
  obtain ⟨ho, h3, h7⟩ := hi
  have h := bword_fields instr.opcode (toU32 imm / 2048 % 2) (toU32 imm / 2 % 16) instr.funct3
    a b (toU32 imm / 32 % 64) (toU32 imm / 4096 % 2) ho (by omega) (by omega) h3 (by omega)
    (by omega) (by omega) (by omega) _ rfl
  exact ⟨h.1, h.2.2.2.1⟩

theorem encodeUType_fixed (instr : Instruction) (rd imm : Int) (hi : instr.fieldsInRange)
    (hrd : 0 ≤ rd ∧ rd < 32) :
    bitField (encodeUType instr rd imm) 6 0 = instr.opcode := by
  obtain ⟨a, rfl⟩ := Int.eq_ofNat_of_zero_le hrd.1
  rw [encodeUType_arith instr a imm hi (by omega)]
  obtain ⟨ho, h3, h7⟩ := hi
  generalize toU32 imm / 4096 = x
  simp only [bitField, Nat.shiftRight_eq_div_pow]
  norm_num
  omega

theorem encodeJType_fixed (instr : Instruction) (rd imm : Int) (hi : instr.fieldsInRange)
    (hrd : 0 ≤ rd ∧ rd < 32) :
    bitField (encodeJType instr rd imm) 6 0 = instr.opcode := by
  obtain ⟨a, rfl⟩ := Int.eq_ofNat_of_zero_le hrd.1
  rw [encodeJType_arith instr a imm hi (by omega)]
  obtain ⟨ho, h3, h7⟩ := hi
  exact (jword_fields instr.opcode a (toU32 imm / 4096 % 256) (toU32 imm / 2048 % 2)
    (toU32 imm / 2 % 1024) (toU32 imm / 1048576 % 2) ho (by omega) (by omega) (by omega)
    (by omega) (by omega) _ rfl).1

/-- A step `let x ← step; rest x` of the dispatch that ends with a word: the
step returned a value and the rest gave the word. -/
theorem bind_ok {α : Type} (step : Except AsmError α) (rest : α → Except AsmError Nat) (w : Nat)
    (h : (step >>= rest) = .ok w) : ∃ a, step = .ok a ∧ rest a = .ok w := by
  cases step with
  | error e => exact absurd h (by simp [bind, Except.bind])
  | ok a => exact ⟨a, rfl, h⟩

/-- The dispatch leaves the opcode field of every word it returns, and the
funct3 field in the formats that have one, as the descriptor gives them. -/
theorem encodeOperands_fixed (instr : Instruction) (opcode : Str) (ops : List Str)
    (line : Str) (symbolTable : SymbolTable) (pc w : Nat) (hi : instr.fieldsInRange)
    (h : encodeOperands instr opcode ops line createRegisterMap symbolTable pc = .ok w) :
    bitField w 6 0 = instr.opcode
      ∧ (hasFunct3 instr.format = true → bitField w 14 12 = instr.funct3) := by
  unfold encodeOperands at h
  cases hfmt : instr.format <;> simp only [hfmt, hasFunct3] at h ⊢
  · rcases ops with _ | ⟨a, _ | ⟨b, _ | ⟨c, _ | ⟨d, rest⟩⟩⟩⟩ <;>
      simp only [reduceCtorEq] at h
    obtain ⟨rd, h0, h⟩ := bind_ok _ _ _ h
    obtain ⟨rs1, h1, h⟩ := bind_ok _ _ _ h
    obtain ⟨rs2, h2, h⟩ := bind_ok _ _ _ h
    simp only [pure, Except.pure, Except.ok.injEq] at h
    subst h
    have := encodeRType_fixed instr rd rs1 rs2 hi (register_range _ _ h0)
      (register_range _ _ h1) (register_range _ _ h2)
    exact ⟨this.1, fun _ => this.2⟩
  · split at h
    · rcases ops with _ | ⟨a, _ | ⟨b, _ | ⟨c, rest⟩⟩⟩ <;> simp only [reduceCtorEq] at h
      obtain ⟨rd, h0, h⟩ := bind_ok _ _ _ h
      obtain ⟨⟨offset, rs1⟩, h1, h⟩ := bind_ok _ _ _ h
      simp only [pure, Except.pure, Except.ok.injEq] at h
      subst h
      have := encodeIType_fixed instr rd rs1 offset hi (register_range _ _ h0)
        (parseMemoryOperand_range _ _ _ h1)
      exact ⟨this.1, fun _ => this.2⟩
    · split at h
      · rcases ops with _ | ⟨a, _ | ⟨b, _ | ⟨c, _ | ⟨d, rest⟩⟩⟩⟩ <;>
          simp only [reduceCtorEq] at h
        · obtain ⟨rs1, h0, h⟩ := bind_ok _ _ _ h
          obtain ⟨imm, h1, h⟩ := bind_ok _ _ _ h
          simp only [pure, Except.pure, Except.ok.injEq] at h
          subst h
          have := encodeIType_fixed instr 1 rs1 imm hi (by omega) (register_range _ _ h0)
          exact ⟨this.1, fun _ => this.2⟩
        · obtain ⟨rd, h0, h⟩ := bind_ok _ _ _ h
          obtain ⟨rs1, h1, h⟩ := bind_ok _ _ _ h
          obtain ⟨imm, h2, h⟩ := bind_ok _ _ _ h
          simp only [pure, Except.pure, Except.ok.injEq] at h
          subst h
          have := encodeIType_fixed instr rd rs1 imm hi (register_range _ _ h0)
            (register_range _ _ h1)
          exact ⟨this.1, fun _ => this.2⟩
      · rcases ops with _ | ⟨a, _ | ⟨b, _ | ⟨c, _ | ⟨d, rest⟩⟩⟩⟩ <;>
          simp only [reduceCtorEq] at h
        obtain ⟨rd, h0, h⟩ := bind_ok _ _ _ h
        obtain ⟨rs1, h1, h⟩ := bind_ok _ _ _ h
        obtain ⟨imm, h2, h⟩ := bind_ok _ _ _ h
        simp only [pure, Except.pure, Except.ok.injEq] at h
        subst h
        have := encodeIType_fixed instr rd rs1 imm hi (register_range _ _ h0)
          (register_range _ _ h1)
        exact ⟨this.1, fun _ => this.2⟩
  · rcases ops with _ | ⟨a, _ | ⟨b, _ | ⟨c, rest⟩⟩⟩ <;> simp only [reduceCtorEq] at h
    obtain ⟨rs2, h0, h⟩ := bind_ok _ _ _ h
    obtain ⟨⟨offset, rs1⟩, h1, h⟩ := bind_ok _ _ _ h
    simp only [pure, Except.pure, Except.ok.injEq] at h
    subst h
    have := encodeSType_fixed instr rs1 rs2 offset hi (parseMemoryOperand_range _ _ _ h1)
      (register_range _ _ h0)
    exact ⟨this.1, fun _ => this.2⟩
  · rcases ops with _ | ⟨a, _ | ⟨b, _ | ⟨c, _ | ⟨d, rest⟩⟩⟩⟩ <;>
      simp only [reduceCtorEq] at h
    obtain ⟨rs1, h0, h⟩ := bind_ok _ _ _ h
    obtain ⟨rs2, h1, h⟩ := bind_ok _ _ _ h
    obtain ⟨imm, h2, h⟩ := bind_ok _ _ _ h
    simp only [pure, Except.pure, Except.ok.injEq] at h
    subst h
    have := encodeBType_fixed instr rs1 rs2 imm hi (register_range _ _ h0)
      (register_range _ _ h1)
    exact ⟨this.1, fun _ => this.2⟩
  · rcases ops with _ | ⟨a, _ | ⟨b, _ | ⟨c, rest⟩⟩⟩ <;> simp only [reduceCtorEq] at h
    obtain ⟨rd, h0, h⟩ := bind_ok _ _ _ h
    obtain ⟨imm, h1, h⟩ := bind_ok _ _ _ h
    simp only [pure, Except.pure, Except.ok.injEq] at h
    subst h
    exact ⟨encodeUType_fixed instr rd imm hi (register_range _ _ h0), fun hf => by simp at hf⟩
  · rcases ops with _ | ⟨a, _ | ⟨b, _ | ⟨c, rest⟩⟩⟩ <;> simp only [reduceCtorEq] at h
    · obtain ⟨imm, h1, h⟩ := bind_ok _ _ _ h
      simp only [pure, Except.pure, Except.ok.injEq] at h
      subst h
      exact ⟨encodeJType_fixed instr 1 imm hi (by omega), fun hf => by simp at hf⟩
    · obtain ⟨rd, h0, h⟩ := bind_ok _ _ _ h
      obtain ⟨imm, h1, h⟩ := bind_ok _ _ _ h
      simp only [pure, Except.pure, Except.ok.injEq] at h
      subst h
      exact ⟨encodeJType_fixed instr rd imm hi (register_range _ _ h0),
        fun hf => by simp at hf⟩

/-- C25: whenever a line assembles to a word `w`, for any symbol table and
current address, the line has a mnemonic of the catalog (the lower-cased text
before its first space) and bits 6:0 of `w` are the opcode of its descriptor;
when the descriptor's format is R, I, S or B, bits 14:12 of `w` are its funct3.
The register and immediate operands are arbitrary: whatever their values, they
leave these fields as the catalog gives them. -/
theorem fixed_fields_intact (line : Str) (symbolTable : SymbolTable) (currentAddress w : Nat)
    (h : assembleLine line symbolTable currentAddress = .ok w) :
    ∃ opcode operands instr,
      splitInstruction line = some (opcode, operands)
        ∧ createInstructionMap.lookup opcode = some instr
        ∧ bitField w 6 0 = instr.opcode
        ∧ (instr.format = .R_TYPE ∨ instr.format = .I_TYPE ∨ instr.format = .S_TYPE
            ∨ instr.format = .B_TYPE → bitField w 14 12 = instr.funct3) := by
  unfold assembleLine assembleInstruction at h
  cases hs : splitInstruction line with
  | none => simp [hs] at h
  | some p =>
    obtain ⟨opcode, operands⟩ := p
    simp only [hs] at h
    cases hl : createInstructionMap.lookup opcode with
    | none => simp [hl] at h
    | some instr =>
      simp only [hl] at h
      have hf := encodeOperands_fixed instr opcode operands line symbolTable currentAddress w
        (descriptor_fieldsInRange opcode instr hl) h
      refine ⟨opcode, operands, instr, rfl, hl, hf.1, ?_⟩
      intro hfmt
      apply hf.2
      rcases hfmt with e | e | e | e <;> rw [e] <;> rfl

/-- Witness of `fixed_fields_intact`: `addi x1, x2, 2147483647`, whose
immediate is the largest `int`, assembles to `0xFFF10093`, with opcode `0010011`
in bits 6:0 and funct3 `000` in bits 14:12. -/
theorem fixed_fields_intact_witness :
    assembleLine "addi x1, x2, 2147483647".toList [] 0 = .ok 0xFFF10093
      ∧ bitField 0xFFF10093 6 0 = 0b0010011 ∧ bitField 0xFFF10093 14 12 = 0b000
      ∧ ∃ opcode operands instr,
        splitInstruction "addi x1, x2, 2147483647".toList = some (opcode, operands)
          ∧ createInstructionMap.lookup opcode = some instr
          ∧ bitField 0xFFF10093 6 0 = instr.opcode
          ∧ (instr.format = .R_TYPE ∨ instr.format = .I_TYPE ∨ instr.format = .S_TYPE
              ∨ instr.format = .B_TYPE → bitField 0xFFF10093 14 12 = instr.funct3) :=
  ⟨rfl, by decide, by decide,
    fixed_fields_intact "addi x1, x2, 2147483647".toList [] 0 0xFFF10093 rfl⟩

/-! ## Words of distinct mnemonics -/

theorem encodeRType_funct7 (instr : Instruction) (rd rs1 rs2 : Int) (hi : instr.fieldsInRange)
    (hrd : 0 ≤ rd ∧ rd < 32) (hrs1 : 0 ≤ rs1 ∧ rs1 < 32) (hrs2 : 0 ≤ rs2 ∧ rs2 < 32) :
    bitField (encodeRType instr rd rs1 rs2) 31 25 = instr.funct7 := by
  obtain ⟨a, rfl⟩ := Int.eq_ofNat_of_zero_le hrd.1
  obtain ⟨b, rfl⟩ := Int.eq_ofNat_of_zero_le hrs1.1
  obtain ⟨c, rfl⟩ := Int.eq_ofNat_of_zero_le hrs2.1
  rw [encodeRType_arith instr a b c hi (by omega) (by omega) (by omega)]
  obtain ⟨ho, h3, h7⟩ := hi
  simp only [bitField, Nat.shiftRight_eq_div_pow]
  norm_num
  omega

/-- The dispatch leaves the funct7 field of every R-format word it returns as
the descriptor gives it. -/
theorem encodeOperands_funct7 (instr : Instruction) (opcode : Str) (ops : List Str)
    (line : Str) (symbolTable : SymbolTable) (pc w : Nat) (hi : instr.fieldsInRange)
    (hfmt : instr.format = .R_TYPE)
    (h : encodeOperands instr opcode ops line createRegisterMap symbolTable pc = .ok w) :
    bitField w 31 25 = instr.funct7 := by
  unfold encodeOperands at h
  simp only [hfmt] at h
  rcases ops with _ | ⟨a, _ | ⟨b, _ | ⟨c, _ | ⟨d, rest⟩⟩⟩⟩ <;>
    simp only [reduceCtorEq] at h
  obtain ⟨rd, h0, h⟩ := bind_ok _ _ _ h
  obtain ⟨rs1, h1, h⟩ := bind_ok _ _ _ h
  obtain ⟨rs2, h2, h⟩ := bind_ok _ _ _ h
  simp only [pure, Except.pure, Except.ok.injEq] at h
  subst h
  exact encodeRType_funct7 instr rd rs1 rs2 hi (register_range _ _ h0)
    (register_range _ _ h1) (register_range _ _ h2)

/-- A line that assembles has a catalog mnemonic, and its word is the one the
dispatch gives under the descriptor of that mnemonic. -/
theorem assembleLine_descriptor (line : Str) (symbolTable : SymbolTable) (pc w : Nat)
    (h : assembleLine line symbolTable pc = .ok w) :
    ∃ opcode operands instr,
      splitInstruction line = some (opcode, operands)
        ∧ createInstructionMap.lookup opcode = some instr
        ∧ encodeOperands instr opcode operands line createRegisterMap symbolTable pc
          = .ok w := by
  unfold assembleLine assembleInstruction at h
  cases hs : splitInstruction line with
  | none => simp [hs] at h
  | some p =>
    obtain ⟨opcode, operands⟩ := p
    simp only [hs] at h
    cases hl : createInstructionMap.lookup opcode with
    | none => simp [hl] at h
    | some instr =>
      simp only [hl] at h
      exact ⟨opcode, operands, instr, rfl, hl, h⟩

/-- Two distinct mnemonics of the catalog, other than the pair `srli`, `srai`,
differ in their opcode, in their funct3 (both formats having one), or, both
being R-format, in their funct7. -/
theorem catalog_distinct_fields :
    ∀ p ∈ createInstructionMap, ∀ q ∈ createInstructionMap, p.1 ≠ q.1 →
      ¬ (p.1 ∈ ["srli".toList, "srai".toList] ∧ q.1 ∈ ["srli".toList, "srai".toList]) →
      p.2.opcode ≠ q.2.opcode
        ∨ (hasFunct3 p.2.format = true ∧ hasFunct3 q.2.format = true
            ∧ p.2.funct3 ≠ q.2.funct3)
        ∨ (p.2.format = .R_TYPE ∧ q.2.format = .R_TYPE ∧ p.2.funct7 ≠ q.2.funct7) := by
  decide

/-- Apart from the pair `srli`, `srai`, lines with distinct mnemonics never
assemble to the same word, whatever their operands, symbol tables and
addresses. -/
theorem distinct_mnemonics_distinct_words (l1 l2 m1 m2 : Str) (ops1 ops2 : List Str)
    (st1 st2 : SymbolTable) (pc1 pc2 w1 w2 : Nat)
    (hs1 : splitInstruction l1 = some (m1, ops1)) (hs2 : splitInstruction l2 = some (m2, ops2))
    (hne : m1 ≠ m2)
    (hshift : ¬ (m1 ∈ ["srli".toList, "srai".toList] ∧ m2 ∈ ["srli".toList, "srai".toList]))
    (ha : assembleLine l1 st1 pc1 = .ok w1) (hb : assembleLine l2 st2 pc2 = .ok w2) :
    w1 ≠ w2 := by
  obtain ⟨o1, p1, i1, hs1', hl1, he1⟩ := assembleLine_descriptor l1 st1 pc1 w1 ha
  obtain ⟨o2, p2, i2, hs2', hl2, he2⟩ := assembleLine_descriptor l2 st2 pc2 w2 hb
  rw [hs1] at hs1'
  rw [hs2] at hs2'
  simp only [Option.some.injEq, Prod.mk.injEq] at hs1' hs2'
  obtain ⟨rfl, rfl⟩ := hs1'
  obtain ⟨rfl, rfl⟩ := hs2'
  have hi1 := descriptor_fieldsInRange m1 i1 hl1
  have hi2 := descriptor_fieldsInRange m2 i2 hl2
  have hf1 := encodeOperands_fixed i1 m1 ops1 l1 st1 pc1 w1 hi1 he1
  have hf2 := encodeOperands_fixed i2 m2 ops2 l2 st2 pc2 w2 hi2 he2
  intro e
  subst e
  rcases catalog_distinct_fields (m1, i1) (lookup_mem _ _ _ hl1) (m2, i2)
    (lookup_mem _ _ _ hl2) hne hshift with h | ⟨h3a, h3b, h⟩ | ⟨ra, rb, h⟩
  · exact h (hf1.1.symm.trans hf2.1)
  · exact h ((hf1.2 h3a).symm.trans (hf2.2 h3b))
  · exact h ((encodeOperands_funct7 i1 m1 ops1 l1 st1 pc1 w1 hi1 ra he1).symm.trans
      (encodeOperands_funct7 i2 m2 ops2 l2 st2 pc2 w1 hi2 rb he2))

/-! ## Register aliases on every line -/

theorem blank_no_close (ws : Str) (h : isBlankText ws = true) : ')' ∉ ws := by
  intro hc
  have := (blank_iff ws).mp h _ hc
  revert this
  decide

/-- The function `parseMemoryOperand` on a memory operand whose offset text
holds no parenthesis and whose base is a plain token between blanks. -/
theorem parseMemoryOperand_padded (off ws1 b ws2 rest : Str) (registers : List (Str × Int))
    (hoo : '(' ∉ off) (hoc : ')' ∉ off) (h1 : isBlankText ws1 = true)
    (h2 : isBlankText ws2 = true) (htok : isOperandToken b = true) (hbc : ')' ∉ b)
    (hlen : (memOperandPadded off ws1 b ws2 rest).length < 18446744073709551616) :
    parseMemoryOperand (memOperandPadded off ws1 b ws2 rest) registers
      = match (if isNumber (trim off) then parseNumber (trim off) else .ok 0 :
            Except AsmError Int) with
        | .error e => .error e
        | .ok offset =>
          match registers.lookup b with
          | none => .error (.unknownRegister b)
          | some number => .ok (offset, number) := by
  have hopen : find '(' (memOperandPadded off ws1 b ws2 rest) = some off.length :=
    find_append_cons '(' off _ hoo
  have hclose : find ')' (memOperandPadded off ws1 b ws2 rest)
      = some (off.length + 1 + (ws1 ++ b ++ ws2).length) := by
    have e : memOperandPadded off ws1 b ws2 rest
        = (off ++ '(' :: (ws1 ++ b ++ ws2)) ++ ')' :: rest := by
      simp [memOperandPadded]
    rw [e, find_append_cons ')' (off ++ '(' :: (ws1 ++ b ++ ws2)) rest
      (by simp [hoc, hbc, blank_no_close ws1 h1, blank_no_close ws2 h2])]
    simp
    omega
  rw [parseMemoryOperand_ordered _ registers _ _ hlen hopen hclose (by omega)]
  have e1 : (memOperandPadded off ws1 b ws2 rest).take off.length = off := by
    simp [memOperandPadded]
  have e2 : ((memOperandPadded off ws1 b ws2 rest).drop (off.length + 1)).take
      (off.length + 1 + (ws1 ++ b ++ ws2).length - off.length - 1) = ws1 ++ b ++ ws2 := by
    unfold memOperandPadded
    rw [drop_length_succ_append]
    have : off.length + 1 + (ws1 ++ b ++ ws2).length - off.length - 1
        = (ws1 ++ b ++ ws2).length := by omega
    rw [this]
    exact take_length_append _ _
  rw [e1, e2, trim_pad ws1 b ws2 h1 h2 (token_head b htok) (token_last b htok)]
  try rfl

/-- Two catalog names of one register give the same memory operand, whatever
the blanks around the name and the text after the closing parenthesis. -/
theorem parseMemoryOperand_padded_alias (off ws1 ws2 rest r r' : Str) (n : Int)
    (hoo : '(' ∉ off) (hoc : ')' ∉ off) (h1 : isBlankText ws1 = true)
    (h2 : isBlankText ws2 = true)
    (hr : createRegisterMap.lookup r = some n) (hr' : createRegisterMap.lookup r' = some n)
    (hlen : (memOperandPadded off ws1 r ws2 rest).length < 18446744073709551616)
    (hlen' : (memOperandPadded off ws1 r' ws2 rest).length < 18446744073709551616) :
    parseMemoryOperand (memOperandPadded off ws1 r ws2 rest) createRegisterMap
      = parseMemoryOperand (memOperandPadded off ws1 r' ws2 rest) createRegisterMap := by
  obtain ⟨t, -, -, -, c⟩ := register_index r n hr
  obtain ⟨t', -, -, -, c'⟩ := register_index r' n hr'
  rw [parseMemoryOperand_padded off ws1 r ws2 rest _ hoo hoc h1 h2 t c hlen,
    parseMemoryOperand_padded off ws1 r' ws2 rest _ hoo hoc h1 h2 t' c' hlen', hr, hr']

/-- The dispatch gives the same result when an operand in a register role is
replaced by another name of the same register, or the base register of a memory
operand is. -/
theorem encodeOperands_alias (instr : Instruction) (opcode : Str) (ops ops' : List Str)
    (line line' : Str) (symbolTable : SymbolTable) (pc : Nat) (roles : List OperandRole)
    (i : Nat) (r r' : Str) (n : Int)
    (hroles : operandRoles (classOf opcode instr) ops.length = some roles)
    (hr : createRegisterMap.lookup r = some n) (hr' : createRegisterMap.lookup r' = some n)
    (hrep : (roles[i]? = some .register ∧ ops[i]? = some r ∧ ops' = ops.set i r')
      ∨ (roles[i]? = some .memory ∧ ∃ off ws1 ws2 rest, '(' ∉ off ∧ ')' ∉ off
          ∧ isBlankText ws1 = true ∧ isBlankText ws2 = true
          ∧ (memOperandPadded off ws1 r ws2 rest).length < 18446744073709551616
          ∧ (memOperandPadded off ws1 r' ws2 rest).length < 18446744073709551616
          ∧ ops[i]? = some (memOperandPadded off ws1 r ws2 rest)
          ∧ ops' = ops.set i (memOperandPadded off ws1 r' ws2 rest))) :
    encodeOperands instr opcode ops line createRegisterMap symbolTable pc
      = encodeOperands instr opcode ops' line' createRegisterMap symbolTable pc := by
  have hf := findRegister_alias r r' n hr hr'
  unfold encodeOperands
  unfold classOf at hroles
  cases hfmt : instr.format <;> simp only [hfmt] at hroles ⊢
  · rcases ops with _ | ⟨a, _ | ⟨b, _ | ⟨c, _ | ⟨d, rest⟩⟩⟩⟩ <;>
      simp [operandRoles] at hroles
    subst hroles
    rcases i with _ | _ | _ | i <;> simp at hrep <;>
      obtain ⟨h1, h2⟩ := hrep <;> subst h1 <;> subst h2 <;> simp [hf]
  · by_cases hl : isLoadName opcode = true
    · have hl' := (isLoadName_iff opcode).mp hl
      simp only [hl, hl', if_true] at hroles ⊢
      rcases ops with _ | ⟨a, _ | ⟨b, _ | ⟨c, rest⟩⟩⟩ <;> simp [operandRoles] at hroles
      subst hroles
      rcases i with _ | _ | i <;> simp at hrep
      · obtain ⟨h1, h2⟩ := hrep
        subst h1
        subst h2
        simp [hf]
      · obtain ⟨off, hoo, hoc, ws1, hb1, ws2, hb2, rest, hlen, hlen', h1, h2⟩ := hrep
        subst h1
        subst h2
        simp [parseMemoryOperand_padded_alias off ws1 ws2 rest r r' n hoo hoc hb1 hb2 hr hr' hlen
          hlen']
    · have hl' : ¬ opcode ∈ ["lb".toList, "lh".toList, "lw".toList, "lbu".toList,
          "lhu".toList] := fun hm => hl ((isLoadName_iff opcode).mpr hm)
      simp only [hl, hl', if_false] at hroles ⊢
      by_cases hj : opcode = "jalr".toList
      · simp only [hj, if_true, beq_self_eq_true] at hroles ⊢
        rcases ops with _ | ⟨a, _ | ⟨b, _ | ⟨c, _ | ⟨d, rest⟩⟩⟩⟩ <;>
          simp [operandRoles] at hroles
        · subst hroles
          rcases i with _ | _ | i <;> simp at hrep
          obtain ⟨h1, h2⟩ := hrep
          subst h1
          subst h2
          simp [hf]
        · subst hroles
          rcases i with _ | _ | _ | i <;> simp at hrep <;>
            obtain ⟨h1, h2⟩ := hrep <;> subst h1 <;> subst h2 <;> simp [hf]
      · have hj' : (opcode == "jalr".toList) = false := by simpa using hj
        simp only [hj, hj', if_false, Bool.false_eq_true] at hroles ⊢
        rcases ops with _ | ⟨a, _ | ⟨b, _ | ⟨c, _ | ⟨d, rest⟩⟩⟩⟩ <;>
          simp [operandRoles] at hroles
        subst hroles
        rcases i with _ | _ | _ | i <;> simp at hrep <;>
          obtain ⟨h1, h2⟩ := hrep <;> subst h1 <;> subst h2 <;> simp [hf]
  · rcases ops with _ | ⟨a, _ | ⟨b, _ | ⟨c, rest⟩⟩⟩ <;> simp [operandRoles] at hroles
    subst hroles
    rcases i with _ | _ | i <;> simp at hrep
    · obtain ⟨h1, h2⟩ := hrep
      subst h1
      subst h2
      simp [hf]
    · obtain ⟨off, hoo, hoc, ws1, hb1, ws2, hb2, rest, hlen, hlen', h1, h2⟩ := hrep
      subst h1
      subst h2
      simp [parseMemoryOperand_padded_alias off ws1 ws2 rest r r' n hoo hoc hb1 hb2 hr hr' hlen
          hlen']
  · rcases ops with _ | ⟨a, _ | ⟨b, _ | ⟨c, _ | ⟨d, rest⟩⟩⟩⟩ <;>
      simp [operandRoles] at hroles
    subst hroles
    rcases i with _ | _ | _ | i <;> simp at hrep <;>
      obtain ⟨h1, h2⟩ := hrep <;> subst h1 <;> subst h2 <;> simp [hf]
  · rcases ops with _ | ⟨a, _ | ⟨b, _ | ⟨c, rest⟩⟩⟩ <;> simp [operandRoles] at hroles
    subst hroles
    rcases i with _ | _ | i <;> simp at hrep
    obtain ⟨h1, h2⟩ := hrep
    subst h1
    subst h2
    simp [hf]
  · rcases ops with _ | ⟨a, _ | ⟨b, _ | ⟨c, rest⟩⟩⟩ <;> simp [operandRoles] at hroles
    · subst hroles
      rcases i with _ | i <;> simp at hrep
    · subst hroles
      rcases i with _ | _ | i <;> simp at hrep
      obtain ⟨h1, h2⟩ := hrep
      subst h1
      subst h2
      simp [hf]

/-- The text before the first occurrence of a character does not hold it, and
the text is that part, the character and the rest. -/
theorem find_split (c : Char) (t : Str) (i : Nat) (h : find c t = some i) :
    c ∉ t.take i ∧ t = t.take i ++ c :: t.drop (i + 1) ∧ (t.take i).length = i := by
  induction t generalizing i with
  | nil => simp [find] at h
  | cons d ds ih =>
    unfold find at h
    by_cases hd : d = c
    · simp only [hd, if_true, Option.some.injEq] at h
      subst h
      simp [hd]
    · simp only [hd, if_false, Option.map_eq_some'] at h
      obtain ⟨j, hj, rfl⟩ := h
      obtain ⟨h1, h2, h3⟩ := ih j hj
      refine ⟨?_, ?_, ?_⟩
      · simp only [List.take_succ_cons, List.mem_cons, not_or]
        exact ⟨fun e => hd e.symm, h1⟩
      · simp only [List.take_succ_cons, List.drop_succ_cons, List.cons_append]
        rw [← h2]
      · simp only [List.take_succ_cons, List.length_cons, h3]

theorem find_append_right (c : Char) (a r : Str) (h : c ∉ a) :
    find c (a ++ r) = (find c r).map (· + a.length) := by
  induction a with
  | nil => simp
  | cons d ds ih =>
    have hd : d ≠ c := fun e => h (by simp [e])
    have hds : c ∉ ds := fun e => h (by simp [e])
    have e : find c (d :: ds ++ r) = (find c (ds ++ r)).map (· + 1) := by
      show find c (d :: (ds ++ r)) = _
      simp only [find, hd, if_false]
    rw [e, ih hds]
    cases find c r with
    | none => rfl
    | some k =>
      simp only [Option.map_some', Option.some.injEq, List.length_cons]
      omega

/-- Every memory operand in which the first `(` comes before the first `)` is
of the padded form, with the text the code looks up as its base register. -/
theorem memory_operand_padded (m : Str) (o c : Nat) (ho : find '(' m = some o)
    (hc : find ')' m = some c) (hoc : o < c) :
    ∃ off ws1 ws2 rest, '(' ∉ off ∧ ')' ∉ off ∧ isBlankText ws1 = true
      ∧ isBlankText ws2 = true
      ∧ m = memOperandPadded off ws1 (trim ((m.drop (o + 1)).take (c - o - 1))) ws2 rest := by
  obtain ⟨hA, hm, hAl⟩ := find_split '(' m o ho
  have hcA : ')' ∉ m.take o := by
    intro hmem
    rcases find_cases ')' (m.take o) with hn | ⟨i, hi⟩
    · exact (find_none_iff _ _).mp hn hmem
    · have hlt := find_lt_length _ _ _ hi
      have := find_append_left ')' (m.take o) ('(' :: m.drop (o + 1)) i hi
      rw [← hm, hc] at this
      simp only [Option.some.injEq] at this
      omega
  have hfind : find ')' m = (find ')' (m.drop (o + 1))).map (· + (o + 1)) := by
    conv_lhs => rw [hm]
    rw [find_append_right _ _ _ hcA, hAl]
    simp only [find, show ('(' : Char) ≠ ')' by decide, if_false]
    cases find ')' (m.drop (o + 1)) with
    | none => rfl
    | some k => simp only [Option.map_some', Option.some.injEq]; omega
  rw [hc] at hfind
  rcases find_cases ')' (m.drop (o + 1)) with hn | ⟨j, hj⟩
  · rw [hn] at hfind
    simp at hfind
  · rw [hj] at hfind
    simp only [Option.map_some', Option.some.injEq] at hfind
    obtain ⟨hB, hBs, -⟩ := find_split ')' (m.drop (o + 1)) j hj
    have hcj : c - o - 1 = j := by omega
    rw [hcj]
    obtain ⟨ws1, ws2, hd, hb1, hb2⟩ := trim_decompose ((m.drop (o + 1)).take j)
    refine ⟨m.take o, ws1, ws2, (m.drop (o + 1)).drop (j + 1), hA, hcA, hb1, hb2, ?_⟩
    unfold memOperandPadded
    rw [← hd, ← hBs, ← hm]

/-- C11 (as stated, refuted): `fp` and `s0` are catalog names of register 8,
yet the lines `add fp, x1` and `add s0, x1` do not have the same result: both
have two operands where an R-format line needs three, and each fails with the
operand-count error that quotes its own text. -/
theorem alias_changes_count_error :
    createRegisterMap.lookup "fp".toList = some 8
      ∧ createRegisterMap.lookup "s0".toList = some 8
      ∧ assembleLine "add fp, x1".toList [] 0
          = .error (.operandCount .rType "add fp, x1".toList)
      ∧ assembleLine "add s0, x1".toList [] 0
          = .error (.operandCount .rType "add s0, x1".toList)
      ∧ assembleLine "add fp, x1".toList [] 0 ≠ assembleLine "add s0, x1".toList [] 0 := by
  refine ⟨by decide, by decide, rfl, rfl, ?_⟩
  intro h
  have e1 : assembleLine "add fp, x1".toList [] 0
      = .error (.operandCount .rType "add fp, x1".toList) := rfl
  have e2 : assembleLine "add s0, x1".toList [] 0
      = .error (.operandCount .rType "add s0, x1".toList) := rfl
  rw [e1, e2] at h
  have h2 : "add fp, x1".toList = "add s0, x1".toList := by
    injection h with h
    injection h
  revert h2
  decide

/-- C11 (amended): the register catalog maps `xN` to `N` for `N` in 0..31 and
every ABI name to its RISC-V number, `fp` and `s0` both to 8, and holds no value
outside 0..31.  On a line whose mnemonic is in the catalog and whose operand
count its class allows, replacing an operand that stands for a register (an
operand in a register position, or the base register of the memory operand of a
load or store, written between a `(` and a later `)` with or without blanks
around it) by another catalog name of the same register leaves the result of
`assembleInstruction` unchanged, the same word or the same error.  A line with
no space has no operand list and fails with the format error that quotes it.  On
a line whose mnemonic is not in the catalog the result is the unknown-instruction
error for both.  On a line whose operand count is not allowed, the line and its
variant both fail with the operand-count error of the class, each quoting its
own text.  Every memory operand whose first `(` comes before its first `)` has
the form covered here. -/
theorem register_catalog_aliases (line line' opcode : Str) (ops ops' : List Str)
    (instr : Instruction) (roles : List OperandRole) (i : Nat) (r r' : Str) (n : Int)
    (symbolTable : SymbolTable) (currentAddress : Nat) :
    (∀ N, N < 32 → createRegisterMap.lookup ('x' :: (Nat.repr N).toList) = some (N : Int))
      ∧ (∀ p ∈ abiNames, createRegisterMap.lookup p.1.toList = some p.2)
      ∧ abiNames.map Prod.fst
          = ["zero", "ra", "sp", "gp", "tp", "t0", "t1", "t2", "t3", "t4", "t5", "t6",
              "s0", "s1", "s2", "s3", "s4", "s5", "s6", "s7", "s8", "s9", "s10", "s11",
              "fp", "a0", "a1", "a2", "a3", "a4", "a5", "a6", "a7"]
      ∧ createRegisterMap.lookup "fp".toList = some 8
      ∧ createRegisterMap.lookup "s0".toList = some 8
      ∧ (∀ p ∈ createRegisterMap, 0 ≤ p.2 ∧ p.2 ≤ 31)
      ∧ createRegisterMap.length = 65
      ∧ (splitInstruction line = some (opcode, ops) →
          splitInstruction line' = some (opcode, ops') →
          createInstructionMap.lookup opcode = some instr →
          operandRoles (classOf opcode instr) ops.length = some roles →
          createRegisterMap.lookup r = some n → createRegisterMap.lookup r' = some n →
          ((roles[i]? = some .register ∧ ops[i]? = some r ∧ ops' = ops.set i r')
            ∨ (roles[i]? = some .memory ∧ ∃ off ws1 ws2 rest, '(' ∉ off ∧ ')' ∉ off
                ∧ isBlankText ws1 = true ∧ isBlankText ws2 = true
                ∧ (memOperandPadded off ws1 r ws2 rest).length < 18446744073709551616
                ∧ (memOperandPadded off ws1 r' ws2 rest).length < 18446744073709551616
                ∧ ops[i]? = some (memOperandPadded off ws1 r ws2 rest)
                ∧ ops' = ops.set i (memOperandPadded off ws1 r' ws2 rest))) →
          assembleLine line symbolTable currentAddress
            = assembleLine line' symbolTable currentAddress)
      ∧ (splitInstruction line = none →
          assembleLine line symbolTable currentAddress
            = .error (.invalidInstructionFormat line))
      ∧ (splitInstruction line = some (opcode, ops) →
          splitInstruction line' = some (opcode, ops') →
          createInstructionMap.lookup opcode = none →
          assembleLine line symbolTable currentAddress = .error (.unknownInstruction opcode)
            ∧ assembleLine line' symbolTable currentAddress
              = .error (.unknownInstruction opcode))
      ∧ (splitInstruction line = some (opcode, ops) →
          splitInstruction line' = some (opcode, ops') →
          createInstructionMap.lookup opcode = some instr →
          countAllowed (classOf opcode instr) ops.length = false →
          ops'.length = ops.length →
          assembleLine line symbolTable currentAddress
              = .error (.operandCount (countRule (classOf opcode instr)) line)
            ∧ assembleLine line' symbolTable currentAddress
              = .error (.operandCount (countRule (classOf opcode instr)) line'))
      ∧ (∀ (m : Str) (o c : Nat), find '(' m = some o → find ')' m = some c → o < c →
          ∃ off ws1 ws2 rest, '(' ∉ off ∧ ')' ∉ off ∧ isBlankText ws1 = true
            ∧ isBlankText ws2 = true
            ∧ m = memOperandPadded off ws1 (trim ((m.drop (o + 1)).take (c - o - 1)))
                ws2 rest) := by
  refine ⟨by decide, by decide, by decide, by decide, by decide, by decide, by decide,
    ?_, ?_, ?_, ?_, memory_operand_padded⟩
  · intro hs hs' hl hroles hr hr' hrep
    unfold assembleLine assembleInstruction
    simp only [hs, hs', hl]
    exact encodeOperands_alias instr opcode ops ops' line line' symbolTable currentAddress
      roles i r r' n hroles hr hr' hrep
  · intro hs
    simp [assembleLine, assembleInstruction, hs]
  · intro hs hs' hl
    constructor <;> simp [assembleLine, assembleInstruction, hs, hs', hl]
  · intro hs hs' hl hc hlen
    have hnone : ∀ k, k = ops.length → operandRoles (classOf opcode instr) k = none := by
      intro k hk
      have h := operandRoles_isSome (classOf opcode instr) k
      rw [hk, hc] at h
      rw [hk]
      cases hr : operandRoles (classOf opcode instr) ops.length with
      | none => rfl
      | some roles => simp [hr] at h
    constructor
    · unfold assembleLine assembleInstruction
      simp only [hs, hl]
      exact encodeOperands_bad_count instr opcode ops line _ _ _ (hnone _ rfl)
    · unfold assembleLine assembleInstruction
      simp only [hs', hl]
      exact encodeOperands_bad_count instr opcode ops' line' _ _ _ (hnone _ hlen)

/-- Witness of `register_catalog_aliases`: `lw x1, 4( fp )` and
`lw x1, 4( s0 )` give the same word, `0x00442083`. -/
theorem register_catalog_aliases_witness :
    assembleLine "lw x1, 4( fp )".toList [] 0 = .ok 0x00442083
      ∧ assembleLine "lw x1, 4( fp )".toList [] 0
        = assembleLine "lw x1, 4( s0 )".toList [] 0 :=
  ⟨rfl,
   (register_catalog_aliases "lw x1, 4( fp )".toList "lw x1, 4( s0 )".toList "lw".toList
    ["x1".toList, "4( fp )".toList] ["x1".toList, "4( s0 )".toList]
    (entry "lw" .I_TYPE 0b0000011 0b010 0).2 [.register, .memory] 1 "fp".toList "s0".toList 8
    [] 0).2.2.2.2.2.2.2.1 (by decide) (by decide) (by decide) (by decide) (by decide)
    (by decide)
    (Or.inr ⟨by decide, "4".toList, " ".toList, " ".toList, [], by decide, by decide,
      by decide, by decide, by decide, by decide, by decide, by decide⟩)⟩

/-! ## References to a redefined label -/

/-- The dispatch on a well-formed operand list whose register operands are
valid and whose immediate or target operand is a symbol bound to `A`: the word
is the one of the class's encoder on the address `A`, or on `A` less the current
address when the operand is a target. -/
theorem encodeOperands_bound (instr : Instruction) (opcode : Str) (ops : List Str)
    (line : Str) (symbolTable : SymbolTable) (pc : Nat) (roles : List OperandRole)
    (name : Str) (A : Nat)
    (hroles : operandRoles (classOf opcode instr) ops.length = some roles)
    (hregs : ∀ p ∈ roles.zip ops, p.1 = OperandRole.register →
      (createRegisterMap.lookup p.2).isSome = true)
    (hsym : (OperandRole.immediate, name) ∈ roles.zip ops
      ∨ (OperandRole.target, name) ∈ roles.zip ops)
    (hnum : isNumber name = false) (hA : symbolTable.lookup name = some A) :
    ∃ w, encodeResolved instr (classOf opcode instr) (registerValues roles ops)
          (if OperandRole.target ∈ roles then toI32 (sub32 A pc) else toI32 A) = some w
      ∧ encodeOperands instr opcode ops line createRegisterMap symbolTable pc = .ok w := by
  have ha := resolveAbsolute_symbol symbolTable name A hnum hA
  have hr := resolveRelative_symbol symbolTable name A pc hnum hA
  have hreg : ∀ a, (OperandRole.register, a) ∈ roles.zip ops →
      ∃ v, createRegisterMap.lookup a = some v ∧ findRegister createRegisterMap a = .ok v := by
    intro a hmem
    obtain ⟨v, hv⟩ := Option.isSome_iff_exists.mp (hregs (OperandRole.register, a) hmem rfl)
    exact ⟨v, hv, findRegister_of_lookup _ _ _ hv⟩
  unfold encodeOperands
  unfold classOf at hroles ⊢
  cases hfmt : instr.format <;> simp only [hfmt] at hroles ⊢
  · rcases ops with _ | ⟨a, _ | ⟨b, _ | ⟨c, _ | ⟨d, rest⟩⟩⟩⟩ <;>
      simp [operandRoles] at hroles
    subst hroles
    simp at hsym
  · by_cases hl : isLoadName opcode = true
    · have hl' := (isLoadName_iff opcode).mp hl
      simp only [hl, hl', if_true] at hroles ⊢
      rcases ops with _ | ⟨a, _ | ⟨b, _ | ⟨c, rest⟩⟩⟩ <;> simp [operandRoles] at hroles
      subst hroles
      simp at hsym
    · have hl' : ¬ opcode ∈ ["lb".toList, "lh".toList, "lw".toList, "lbu".toList,
          "lhu".toList] := fun hm => hl ((isLoadName_iff opcode).mpr hm)
      simp only [hl, hl', if_false] at hroles ⊢
      by_cases hjalr : opcode = "jalr".toList
      · simp only [hjalr, if_true, beq_self_eq_true] at hroles ⊢
        rcases ops with _ | ⟨a, _ | ⟨b, _ | ⟨c, _ | ⟨d, rest⟩⟩⟩⟩ <;>
          simp [operandRoles] at hroles
        · subst hroles
          simp at hsym
          subst hsym
          obtain ⟨va, hla, hva⟩ := hreg a (by simp)
          simp [hva, hla, ha, registerValues, encodeResolved]
          try rfl
        · subst hroles
          simp at hsym
          subst hsym
          obtain ⟨va, hla, hva⟩ := hreg a (by simp)
          obtain ⟨vb, hlb, hvb⟩ := hreg b (by simp)
          simp [hva, hla, hvb, hlb, ha, registerValues, encodeResolved]
          try rfl
      · have hj' : (opcode == "jalr".toList) = false := by simpa using hjalr
        simp only [hjalr, hj', if_false, Bool.false_eq_true] at hroles ⊢
        rcases ops with _ | ⟨a, _ | ⟨b, _ | ⟨c, _ | ⟨d, rest⟩⟩⟩⟩ <;>
          simp [operandRoles] at hroles
        subst hroles
        simp at hsym
        subst hsym
        obtain ⟨va, hla, hva⟩ := hreg a (by simp)
        obtain ⟨vb, hlb, hvb⟩ := hreg b (by simp)
        simp [hva, hla, hvb, hlb, ha, registerValues, encodeResolved]
        try rfl
  · rcases ops with _ | ⟨a, _ | ⟨b, _ | ⟨c, rest⟩⟩⟩ <;> simp [operandRoles] at hroles
    subst hroles
    simp at hsym
  · rcases ops with _ | ⟨a, _ | ⟨b, _ | ⟨c, _ | ⟨d, rest⟩⟩⟩⟩ <;>
      simp [operandRoles] at hroles
    subst hroles
    simp at hsym
    subst hsym
    obtain ⟨va, hla, hva⟩ := hreg a (by simp)
    obtain ⟨vb, hlb, hvb⟩ := hreg b (by simp)
    simp [hva, hla, hvb, hlb, hr, registerValues, encodeResolved]
    try rfl
  · rcases ops with _ | ⟨a, _ | ⟨b, _ | ⟨c, rest⟩⟩⟩ <;> simp [operandRoles] at hroles
    subst hroles
    simp at hsym
    subst hsym
    obtain ⟨va, hla, hva⟩ := hreg a (by simp)
    simp [hva, hla, ha, registerValues, encodeResolved]
    try rfl
  · rcases ops with _ | ⟨a, _ | ⟨b, _ | ⟨c, rest⟩⟩⟩ <;> simp [operandRoles] at hroles
    · subst hroles
      simp at hsym
      subst hsym
      simp [hr, registerValues, encodeResolved]
      try rfl
    · subst hroles
      simp at hsym
      subst hsym
      obtain ⟨va, hla, hva⟩ := hreg a (by simp)
      simp [hva, hla, hr, registerValues, encodeResolved]
      try rfl

/-- C19 (as stated, refuted): a label defined twice is bound to the address of
its last definition, yet a line that names it need not resolve to that address.
The label `8` is bound to 4, but the target of `jal x0, 8` is numeric and is
encoded as the number 8; the label `a,b` is bound to 4, but `jal x0, a,b` has
three operands for `parseOperands` and the run stops with the operand-count
error. -/
theorem redefined_label_not_resolved :
    ((pass1 ["8: addi x1, x0, 1".toList, "8: addi x2, x0, 2".toList,
          "jal x0, 8".toList]).symbolTable.lookup "8".toList = some 4
        ∧ (assembleProgram ["8: addi x1, x0, 1".toList, "8: addi x2, x0, 2".toList,
            "jal x0, 8".toList]).words
          = [0x00100093, 0x00200113, encodeJType (entry "jal" .J_TYPE 0b1101111 0 0).2 0 8]
        ∧ encodeJType (entry "jal" .J_TYPE 0b1101111 0 0).2 0 8
          ≠ encodeJType (entry "jal" .J_TYPE 0b1101111 0 0).2 0 (toI32 (sub32 4 8)))
      ∧ ((pass1 ["a,b: addi x1, x0, 1".toList, "a,b: addi x2, x0, 2".toList,
            "jal x0, a,b".toList]).symbolTable.lookup "a,b".toList = some 4
        ∧ (assembleProgram ["a,b: addi x1, x0, 1".toList, "a,b: addi x2, x0, 2".toList,
            "jal x0, a,b".toList]).failure
          = some ("jal x0, a,b".toList, .operandCount .jType "jal x0, a,b".toList)) := by
  decide

/-- C19 (amended): when a source defines a label on several lines, pass 1,
which has no failing path, binds the name to the address of its last definition
(`l` is the last line that defines `name`).  When the name is not numeric it
resolves to that address against the table of pass 1, and every
line of pass 2 that has it as immediate or target operand, with a catalog
mnemonic, an allowed operand count and catalog registers, standing anywhere in
the source (before the last definition too), assembles to the word of its
class's encoder on that last address: the address itself for an immediate (the
register-immediate mnemonics, `lui`, `auipc`, `jalr`), the address less the
line's own address for a target (branches, `jal`); while the run has not failed
before the line, pass 2 emits that word there. -/
theorem last_definition_wins (pre post : List Str) (l name : Str)
    (hl : labelOf l = some name) (hpost : ∀ l' ∈ post, labelOf l' ≠ some name) :
    (pass1 (pre ++ l :: post)).symbolTable.lookup name = some (pass1 pre).address
      ∧ (pass1 pre).address = 4 * instructionCount pre % 4294967296
      ∧ (isNumber name = false → ∀ pc : Nat,
          resolveRelative (pass1 (pre ++ l :: post)).symbolTable name pc
              = .ok (toI32 (sub32 (pass1 pre).address pc))
            ∧ resolveAbsolute (pass1 (pre ++ l :: post)).symbolTable name
              = .ok (toI32 (pass1 pre).address))
      ∧ ∀ (j : Nat) (reference instruction opcode : Str) (ops : List Str)
          (instr : Instruction) (roles : List OperandRole),
          (pre ++ l :: post)[j]? = some reference →
          instructionOf reference = some instruction →
          splitInstruction instruction = some (opcode, ops) →
          createInstructionMap.lookup opcode = some instr →
          operandRoles (classOf opcode instr) ops.length = some roles →
          (∀ p ∈ roles.zip ops, p.1 = OperandRole.register →
            (createRegisterMap.lookup p.2).isSome = true) →
          ((OperandRole.immediate, name) ∈ roles.zip ops
            ∨ (OperandRole.target, name) ∈ roles.zip ops) →
          isNumber name = false →
          ∀ pc : Nat, ∃ w,
            encodeResolved instr (classOf opcode instr) (registerValues roles ops)
                (if OperandRole.target ∈ roles then toI32 (sub32 (pass1 pre).address pc)
                 else toI32 (pass1 pre).address) = some w
              ∧ assembleLine instruction (pass1 (pre ++ l :: post)).symbolTable pc = .ok w
              ∧ ((pass2 (pass1 (pre ++ l :: post)).symbolTable
                    ((pre ++ l :: post).take j)).failure = none →
                  pc = (pass2 (pass1 (pre ++ l :: post)).symbolTable
                    ((pre ++ l :: post).take j)).address →
                  pc = 4 * instructionCount ((pre ++ l :: post).take j) % 4294967296
                    ∧ pass2 (pass1 (pre ++ l :: post)).symbolTable
                        ((pre ++ l :: post).take (j + 1))
                      = { address := add32 pc 4,
                          words := (pass2 (pass1 (pre ++ l :: post)).symbolTable
                            ((pre ++ l :: post).take j)).words ++ [w],
                          failure := none }) := by
  have hlook : (pass1 (pre ++ l :: post)).symbolTable.lookup name
      = some (pass1 pre).address := by
    rw [pass1_append, List.foldl_cons, pass1_fold_lookup_other _ _ _ hpost,
      pass1Step_label _ _ _ hl]
  refine ⟨hlook, pass1_address pre,
    fun hnum pc => ⟨resolveRelative_symbol _ _ _ _ hnum hlook,
      resolveAbsolute_symbol _ _ _ hnum hlook⟩, ?_⟩
  intro j reference instruction opcode ops instr roles hj hi hs hcat hroles hregs hsym hnum pc
  generalize (pass1 (pre ++ l :: post)).symbolTable = st at hlook ⊢
  obtain ⟨w, hw, henc⟩ := encodeOperands_bound instr opcode ops instruction st pc roles name
    (pass1 pre).address hroles hregs hsym hnum hlook
  have hline : assembleLine instruction st pc = .ok w := by
    unfold assembleLine assembleInstruction
    simp only [hs, hcat]
    exact henc
  refine ⟨w, hw, hline, ?_⟩
  intro hok hpc
  have hstep := pass2Step_running st (pass2 st ((pre ++ l :: post).take j)) reference hok
  rw [← pass2_snoc, ← take_succ_of_get _ j reference hj] at hstep
  rw [← hpc] at hstep
  simp only [hi, hline] at hstep
  refine ⟨?_, hstep⟩
  rw [hpc]
  exact pass2_address st _ hok

/-- Witness of `last_definition_wins`: the label `L` is defined on the first
and on the third line; the jump on the second line, before the last definition,
resolves `L` to 8, the address of the second definition, and pass 2 emits the
word of the displacement `8 - 4` there. -/
theorem last_definition_wins_witness :
    (pass1 ["L: addi x1, x0, 1".toList, "jal x0, L".toList, "L: addi x2, x0, 2".toList,
        "beq x0, x0, L".toList]).symbolTable.lookup "L".toList = some 8
      ∧ (assembleProgram ["L: addi x1, x0, 1".toList, "jal x0, L".toList,
          "L: addi x2, x0, 2".toList, "beq x0, x0, L".toList]).failure = none
      ∧ (assembleProgram ["L: addi x1, x0, 1".toList, "jal x0, L".toList,
          "L: addi x2, x0, 2".toList, "beq x0, x0, L".toList]).words
        = [0x00100093, encodeJType (entry "jal" .J_TYPE 0b1101111 0 0).2 0 (8 - 4),
            0x00200113, encodeBType (entry "beq" .B_TYPE 0b1100011 0b000 0).2 0 0 (8 - 12)]
      ∧ ∃ w, encodeResolved (entry "jal" .J_TYPE 0b1101111 0 0).2 .jal [0]
            (toI32 (sub32 8 4)) = some w
          ∧ assembleLine "jal x0, L".toList
              (pass1 ["L: addi x1, x0, 1".toList, "jal x0, L".toList,
                "L: addi x2, x0, 2".toList, "beq x0, x0, L".toList]).symbolTable 4 = .ok w := by
  have h := last_definition_wins ["L: addi x1, x0, 1".toList, "jal x0, L".toList]
    ["beq x0, x0, L".toList] "L: addi x2, x0, 2".toList "L".toList (by decide) (by decide)
  obtain ⟨w, hw, hline, -⟩ := h.2.2.2 1 "jal x0, L".toList "jal x0, L".toList "jal".toList
    ["x0".toList, "L".toList] (entry "jal" .J_TYPE 0b1101111 0 0).2 [.register, .target]
    (by decide) (by decide) (by decide) (by decide) (by decide) (by decide) (by decide)
    (by decide) 4
  exact ⟨h.1, by decide, by decide, w, hw, hline⟩

end MyRISC32
